import Mathlib

/-!
Emojicode compiler: VTI assignment, protocol conformance and class metadata.

A shallow embedding of the linking stage of the Emojicode compiler
(`EmojicodeCompiler/StaticAnalyzer.cpp`, `EmojicodeCompiler/Class.hpp`,
`EmojicodeCompiler/FileParser.cpp`, `EmojicodeString.h`).

Conventions of the embedding.

* Objects that the C++ code reaches through pointers live in a list of classes
  (`Class::classes()`); a `Class *` is a position in that list and the null
  pointer is `none`.
* `uint16_t` fields are natural numbers; every arithmetic store into such a field
  is reduced modulo `65536`.
* `compilerError` ends the compilation: functions that may report an error return
  `Except CompilerError _`, and the pieces of the serializer return an `Emit`, the
  fields written so far together with the error that ended the compilation, if any.
* The output written through `Writer` is a list of `Field`s in write order.
* Code of the repository that is not among the analysed sources (`Class.cpp`,
  `Procedure.cpp`, `Writer.cpp`, `StaticFunctionAnalyzer.cpp`, `Package.hpp`) is either a
  parameter (`Checks`, `FunctionAnalyzer`, `ParserEnv`) or modelled from the
  specification; each such definition says so.
* A member call through a null `superclass` pointer is counted (`nullCalls`) and
  yields "not found".
* The parser is modelled from the declarations on: a class body is the list of its
  declarations with their attributes, as the token parsers deliver them.
* A loop over the superclass chain carries a bound on its steps and reports whether it
  reached the null pointer; in a class list in which every superclass stands before its
  subclasses it always does.
* The greatest value of the platform type `uint_fast16_t` is a parameter
  (`UINT_FAST16_MAX`).
* The types that `Package::registerType` registers are a list of names with their types in
  the state of the parser; `Package::fetchRawType` looks a name up in that list (`Package.cpp`
  is not among the sources). Namespaces and imported packages are left out.
* The string pool is a list of tokens, a token the list of its characters. The tokens that
  the analysis of the class bodies pushes onto the pool are an input of
  `analyzeClassesAndWrite`.
* A call of `analyzeClassesAndWrite` ends in an `Outcome`: the stream written, a compiler
  error, or the dereference of a null pointer in lines 283-284.
-/

namespace Emojicode

/-! ## Data model (`Class.hpp`) -/

/-- A Unicode code point naming a type, a method or an initializer (`EmojicodeChar`). -/
abbrev EmojicodeChar := Nat

/-- A resolved type reference, as delivered by the type parser (`Type`). -/
abbrev TypeRef := Nat

/-- Number of values of a `uint16_t`. -/
def UINT16 : Nat := 65536

/-- The access levels of `readAccessLevel`. -/
inductive AccessLevel
  | PUBLIC
  | PROTECTED
  | PRIVATE
  deriving DecidableEq, Repr

/-- The declared part of a `Procedure` (method, class method or initializer): everything the
parser fills in. The last two fields are meaningful for initializers only. -/
structure Signature where
  name : EmojicodeChar
  access : AccessLevel := AccessLevel.PUBLIC
  final : Bool := false
  overriding : Bool := false
  deprecated : Bool := false
  arguments : List TypeRef := []
  returnType : TypeRef := 0
  required : Bool := false
  canReturnNothingness : Bool := false
  deriving DecidableEq, Repr

/-- A `Method`, `ClassMethod` or `Initializer`: a declaration plus the virtual table index `vti`
that `analyzeClassesAndWrite` stores into it; the index is written with `writeUInt16` and held
as a `uint16_t`. -/
structure Procedure extends Signature where
  vti : Nat := 0
  deriving DecidableEq, Repr

/-- An instance variable (`Variable`). -/
structure Variable where
  name : Nat
  type : TypeRef := 0
  deriving DecidableEq, Repr

/-- A `Protocol`: its process-wide index and its methods in declaration order
(`Protocol::methods()`). -/
structure Protocol where
  name : EmojicodeChar
  index : Nat
  methods : List Procedure := []
  usesSelf : Bool := false
  deriving DecidableEq, Repr

/-- A `Class` of `Class.hpp`. `superclass` is the position of the superclass in the class list. -/
structure Class where
  name : EmojicodeChar
  index : Nat := 0
  superclass : Option Nat := none
  inheritsContructors : Bool := false
  instanceVariables : List Variable := []
  methodList : List Procedure := []
  initializerList : List Procedure := []
  classMethodList : List Procedure := []
  protocols : List Protocol := []
  nextMethodVti : Nat := 0
  nextClassMethodVti : Nat := 0
  nextInitializerVti : Nat := 0
  deriving DecidableEq, Repr

/-- The attribute emojis that `parseClassBody` reads in front of a declaration, under the names
of their constants: ⚠️, 🔏, ✒️, 🐇, 🔑 and 🍬; and the attribute 🌍 that `parseFile` reads in front
of a declaration of a file. -/
inductive Attribute
  | E_WARNING_SIGN
  | E_LOCK_WITH_INK_PEN
  | E_BLACK_NIB
  | E_RABBIT
  | E_KEY
  | E_CANDY
  | E_EARTH_GLOBE_EUROPE_AFRICA
  deriving DecidableEq, Repr

/-- The compile errors raised by the modelled code. -/
inductive CompilerError
  /-- The class does not agree to the protocol: a method is missing. -/
  | missingProtocolMethod (className protocolName methodName : EmojicodeChar)
  /-- An override declaration rejected by `Procedure::checkOverride`. -/
  | overrideViolation (procedureName : EmojicodeChar)
  /-- A promise (return type, argument count, argument type) broken. -/
  | promiseViolation (procedureName : EmojicodeChar) (what : Nat)
  /-- A required initializer was not implemented. -/
  | missingRequiredInitializer (initializerName : EmojicodeChar)
  /-- Any other compile error. -/
  | other (code : Nat)
  /-- Inapplicable attribute (`invalidAttribute`). -/
  | inapplicableAttribute (attributeName : Attribute)
  /-- You exceeded the limit of 65,535 instance variables. -/
  | instanceVariableLimit
  /-- A class cannot conform to an optional protocol. -/
  | optionalProtocol
  /-- The given type is not a protocol. -/
  | notAProtocol
  /-- Duplicate 🏁 method; the previous one was defined in the class at the given position. -/
  | duplicateStartingFlag (previousClass : Option Nat)
  /-- The 🏁 method must return an integer. -/
  | startingFlagReturn
  /-- The name is reserved and cannot be used as a method name (`reservedEmojis`). -/
  | reservedName (name : EmojicodeChar)
  /-- Unexpected identifier. -/
  | unexpectedIdentifier (identifier : EmojicodeChar)
  /-- 🍬 cannot be declared as type. -/
  | optionalTypeName
  /-- The type is already defined. -/
  | typeAlreadyDefined (name : EmojicodeChar)
  /-- Superclass type does not exist. -/
  | superclassDoesNotExist
  /-- The superclass must be a class. -/
  | superclassNotAClass
  /-- You cannot inherit from an optional. -/
  | superclassOptional
  /-- Class does not exist (extension). -/
  | classDoesNotExist
  /-- Optional types are not extendable. -/
  | optionalNotExtendable
  /-- Only classes are extendable. -/
  | onlyClassesExtendable
  /-- You exceeded the maximum of 253 packages. -/
  | packageLimit
  /-- A name was declared twice (spec 7, `DuplicateDeclaration`). -/
  | duplicateDeclaration (name : EmojicodeChar)
  /-- Package version already declared. -/
  | versionAlreadyDeclared
  deriving DecidableEq, Repr

/-- The signature checks of `Procedure.cpp`, which is not part of the analysed sources: they are
taken as parameters. Each returns `none` when the check passes and the reported error otherwise.
`checkOverride p s` stands for `p->checkOverride(s)`, `checkPromises p s` for
`p->checkPromises(s, ...)`; the three protocol checks stand for
`Procedure::checkReturnPromise`, `Procedure::checkArgumentCount` and `Procedure::checkArgument`
(with the protocol types already resolved on the conformance). -/
structure Checks where
  checkOverride : Signature → Option Signature → Option CompilerError
  checkPromises : Signature → Signature → Option CompilerError
  checkReturnPromise : Signature → Signature → Protocol → Option CompilerError
  checkArgumentCount : Nat → Nat → EmojicodeChar → Option CompilerError
  checkArgument : Signature → Signature → Protocol → Nat → Option CompilerError

/-! ## Member lookup -/

/-- Modelled from the spec: `Class::addInitializer` and the private set `requiredInitializers_`
(Class.cpp is not part of the sources). The set holds the names of the initializers of the class
that were declared with the required attribute; `requiredInitializers().size()` is its
cardinality. -/
def Class.requiredInitializers (c : Class) : List EmojicodeChar :=
  ((c.initializerList.filter (fun i => i.required)).map (fun i => i.name)).dedup

/-- Modelled from the spec: the name-to-definition lookup of one member table (the maps
`methods_`, `classMethods_` and `initializers_`, filled by `Class::addMethod` and its siblings
in Class.cpp, which is not part of the sources). Redeclaring a name in one table is a
declaration error, so the first entry is the only one. -/
def findByName (table : List Procedure) (name : EmojicodeChar) : Option Procedure :=
  table.find? (fun p => p.name == name)

/-- Modelled from the spec: the name lookup of a member table along the superclass chain
(`Class::lookupMethod`, `Class::lookupClassMethod`, `Class::lookupInitializer`; Class.cpp is
not part of the sources). `table` selects the member table, `i` is the class the lookup starts
at and `fuel` bounds the length of the walk. -/
def lookupIn (table : Class → List Procedure) (cs : List Class) :
    Nat → Nat → EmojicodeChar → Option Procedure
  | 0, _, _ => none
  | fuel + 1, i, name =>
    match cs[i]? with
    | none => none
    | some c =>
      match findByName (table c) name with
      | some p => some p
      | none =>
        match c.superclass with
        | none => none
        | some s => lookupIn table cs fuel s name

/-- The lookup `Class::lookupMethod` on the class at position `i`. -/
def lookupMethod (cs : List Class) (i : Nat) (name : EmojicodeChar) : Option Procedure :=
  lookupIn (fun c => c.methodList) cs cs.length i name

/-- The lookup `Class::lookupClassMethod` on the class at position `i`. -/
def lookupClassMethod (cs : List Class) (i : Nat) (name : EmojicodeChar) : Option Procedure :=
  lookupIn (fun c => c.classMethodList) cs cs.length i name

/-- The lookup `Class::lookupInitializer` on the class at position `i`. -/
def lookupInitializer (cs : List Class) (i : Nat) (name : EmojicodeChar) : Option Procedure :=
  lookupIn (fun c => c.initializerList) cs cs.length i name

/-- What the loop body of `analyzeClassesAndWrite` reads through `eclass->superclass`: the three
counters, the number of required initializers and the three lookups. -/
structure Super where
  nextMethodVti : Nat
  nextClassMethodVti : Nat
  nextInitializerVti : Nat
  requiredInitializerCount : Nat
  lookupMethod : EmojicodeChar → Option Procedure
  lookupClassMethod : EmojicodeChar → Option Procedure
  lookupInitializer : EmojicodeChar → Option Procedure

/-- The view of the class at position `s` that its subclasses read. -/
def superAt (cs : List Class) (s : Nat) : Super :=
  let sc := cs.getD s { name := 0 }
  { nextMethodVti := sc.nextMethodVti
    nextClassMethodVti := sc.nextClassMethodVti
    nextInitializerVti := sc.nextInitializerVti
    requiredInitializerCount := sc.requiredInitializers.length
    lookupMethod := lookupMethod cs s
    lookupClassMethod := lookupClassMethod cs s
    lookupInitializer := lookupInitializer cs s }

/-- The superclass view of a class: `none` is the null pointer. -/
def superOf (cs : List Class) (c : Class) : Option Super :=
  c.superclass.map (superAt cs)

/-! ## VTI assignment (`analyzeClassesAndWrite`, lines 151-215) -/

/-- The result of a member call `eclass->superclass->lookupX(name)`. The code makes the call
without testing `eclass->superclass`; when the pointer is null the call is counted in the second
component and the lookup yields "not found" (spec 4.3: "absent if no superclass"). -/
def superLookup (sup : Option Super) (sel : Super → EmojicodeChar → Option Procedure)
    (name : EmojicodeChar) : Option Procedure × Nat :=
  match sup with
  | some s => (sel s name, 0)
  | none => (none, 1)

/-- The loop-carried state of one member loop: the counter of the table and the number of
member calls made through a null superclass pointer so far. -/
structure Counter where
  next : Nat
  nullCalls : Nat := 0
  deriving DecidableEq, Repr

/-- One iteration of the method loop (lines 170-181) or of the class-method loop (182-193). -/
def assignMemberVti (chk : Checks) (sup : Option Super)
    (sel : Super → EmojicodeChar → Option Procedure) (m : Procedure) (st : Counter) :
    Except CompilerError (Procedure × Counter) :=
  let r := superLookup sup sel m.name
  match chk.checkOverride m.toSignature (r.1.map (fun p => p.toSignature)) with
  | some e => .error e
  | none =>
    match r.1 with
    | some superMethod =>
      match chk.checkPromises m.toSignature superMethod.toSignature with
      | some e => .error e
      | none => .ok ({ m with vti := superMethod.vti }, { st with nullCalls := st.nullCalls + r.2 })
    | none =>
      .ok ({ m with vti := st.next },
           { next := (st.next + 1) % UINT16, nullCalls := st.nullCalls + r.2 })

/-- The method loop, or the class-method loop, over the members in declaration order. -/
def assignMemberVtis (chk : Checks) (sup : Option Super)
    (sel : Super → EmojicodeChar → Option Procedure) :
    List Procedure → Counter → Except CompilerError (List Procedure × Counter)
  | [], st => .ok ([], st)
  | m :: ms, st =>
    match assignMemberVti chk sup sel m st with
    | .error e => .error e
    | .ok (m', st') =>
      match assignMemberVtis chk sup sel ms st' with
      | .error e => .error e
      | .ok (ms', st'') => .ok (m' :: ms', st'')

/-- The loop-carried state of the initializer loop: `eclass->nextInitializerVti`, the local
`subRequiredInitializerNextVti` (a `size_t`, never near its limit) and the null-call count. -/
structure InitCounter where
  next : Nat
  subRequired : Nat
  nullCalls : Nat := 0
  deriving DecidableEq, Repr

/-- One iteration of the initializer loop (lines 197-214). -/
def assignInitializerVti (chk : Checks) (sup : Option Super) (ini : Procedure)
    (st : InitCounter) : Except CompilerError (Procedure × InitCounter) :=
  let r := superLookup sup (fun s => s.lookupInitializer) ini.name
  match chk.checkOverride ini.toSignature (r.1.map (fun p => p.toSignature)) with
  | some e => .error e
  | none =>
    if ini.required then
      match r.1 with
      | some superInit =>
        match chk.checkPromises ini.toSignature superInit.toSignature with
        | some e => .error e
        | none =>
          .ok ({ ini with vti := superInit.vti }, { st with nullCalls := st.nullCalls + r.2 })
      | none =>
        .ok ({ ini with vti := st.subRequired % UINT16 },
             { st with subRequired := st.subRequired + 1, nullCalls := st.nullCalls + r.2 })
    else
      .ok ({ ini with vti := st.next },
           { st with next := (st.next + 1) % UINT16, nullCalls := st.nullCalls + r.2 })

/-- The initializer loop over the initializers in declaration order. -/
def assignInitializerVtis (chk : Checks) (sup : Option Super) :
    List Procedure → InitCounter → Except CompilerError (List Procedure × InitCounter)
  | [], st => .ok ([], st)
  | ini :: rest, st =>
    match assignInitializerVti chk sup ini st with
    | .error e => .error e
    | .ok (ini', st') =>
      match assignInitializerVtis chk sup rest st' with
      | .error e => .error e
      | .ok (rest', st'') => .ok (ini' :: rest', st'')

/-- Lines 152-155: the class is eligible for initializer inheritance when it declares neither
instance variables nor initializers. -/
def decideInheritance (c : Class) : Class :=
  if c.instanceVariables.length = 0 ∧ c.initializerList.length = 0 then
    { c with inheritsContructors := true }
  else c

/-- Lines 157-166: the three counters are seeded. -/
def seedCounters (sup : Option Super) (c : Class) : Class :=
  match sup with
  | some s =>
    { c with
      nextClassMethodVti := s.nextClassMethodVti
      nextInitializerVti := if c.inheritsContructors then s.nextInitializerVti else 0
      nextMethodVti := s.nextMethodVti }
  | none => { c with nextClassMethodVti := 0, nextInitializerVti := 0, nextMethodVti := 0 }

/-- Line 195: the first slot handed to a newly introduced required initializer. -/
def subRequiredStart (sup : Option Super) : Nat :=
  match sup with
  | some s => s.requiredInitializerCount
  | none => 0

/-- The body of the loop over `Class::classes()` (lines 152-214) for one class with superclass
view `sup`; the second component counts the member calls made through a null superclass. -/
def assignClassVti (chk : Checks) (sup : Option Super) (c : Class) :
    Except CompilerError (Class × Nat) :=
  let c1 := seedCounters sup (decideInheritance c)
  match assignMemberVtis chk sup (fun s => s.lookupMethod) c1.methodList
      { next := c1.nextMethodVti } with
  | .error e => .error e
  | .ok (ms, mst) =>
    match assignMemberVtis chk sup (fun s => s.lookupClassMethod) c1.classMethodList
        { next := c1.nextClassMethodVti, nullCalls := mst.nullCalls } with
    | .error e => .error e
    | .ok (cms, cst) =>
      match assignInitializerVtis chk sup c1.initializerList
          { next := (c1.nextInitializerVti + c1.requiredInitializers.length) % UINT16
            subRequired := subRequiredStart sup
            nullCalls := cst.nullCalls } with
      | .error e => .error e
      | .ok (inis, ist) =>
        .ok ({ c1 with
                methodList := ms
                nextMethodVti := mst.next
                classMethodList := cms
                nextClassMethodVti := cst.next
                initializerList := inis
                nextInitializerVti := ist.next }, ist.nullCalls)

/-- The compiler state the VTI pass works on: the class list and the number of member calls made
through a null superclass pointer. -/
structure AnalysisState where
  classes : List Class
  nullCalls : Nat := 0
  deriving DecidableEq, Repr

/-- One iteration of the loop over `Class::classes()`: the class at position `i` is processed
against the current state of its superclass and stored back. The parser registers a class only
after it fetched the superclass, so the superclass chain never contains the class itself and the
lookups read records that this iteration does not modify. -/
def analyzeClassVti (chk : Checks) (st : AnalysisState) (i : Nat) :
    Except CompilerError AnalysisState :=
  match st.classes[i]? with
  | none => .ok st
  | some c =>
    match assignClassVti chk (superOf st.classes c) c with
    | .error e => .error e
    | .ok (c', n) => .ok { classes := st.classes.set i c', nullCalls := st.nullCalls + n }

/-- The loop over the given class positions, in order. -/
def assignVtisFrom (chk : Checks) : List Nat → AnalysisState → Except CompilerError AnalysisState
  | [], st => .ok st
  | i :: rest, st =>
    match analyzeClassVti chk st i with
    | .error e => .error e
    | .ok st' => assignVtisFrom chk rest st'

/-- The VTI pass of `analyzeClassesAndWrite` (lines 151-215) over all classes in list order. -/
def assignVtis (chk : Checks) (cs : List Class) : Except CompilerError AnalysisState :=
  assignVtisFrom chk (List.range cs.length) { classes := cs }

/-! ## Protocol conformance (`analyzeClass`, lines 89-123) -/

/-- A value written through `Writer`. -/
inductive Field
  | byte (v : Nat)
  | uint16 (v : Nat)
  | emojicodeChar (v : Nat)
  /-- A 16-bit field reserved with `writePlaceholder<uint16_t>()` and not yet written. -/
  | placeholder
  deriving DecidableEq, Repr

/-- Modelled from the spec: the writer operation `Writer::writeUInt16` (Writer.cpp is not part
of the sources): the value is stored as a `uint16_t`. -/
def writeUInt16 (v : Nat) : Field := Field.uint16 (v % UINT16)

/-- What a piece of the serializer leaves behind: the fields written so far and, when
`compilerError` ended the compilation (spec 7: every error is fatal), the error. -/
structure Emit where
  written : List Field := []
  error : Option CompilerError := none
  deriving DecidableEq, Repr

/-- Sequencing of two pieces of the serializer: the second runs only if the first did not end the
compilation. -/
def Emit.andThen (a b : Emit) : Emit :=
  match a.error with
  | some _ => a
  | none => { written := a.written ++ b.written, error := b.error }

/-- The loop of lines 117-121 over the argument positions of the protocol method. -/
def checkArguments (chk : Checks) (clm method : Signature) (p : Protocol) :
    List Nat → Option CompilerError
  | [] => none
  | i :: rest =>
    match chk.checkArgument clm method p i with
    | some e => some e
    | none => checkArguments chk clm method p rest

/-- Lines 113-121: the three checks of a class method against the protocol method. -/
def checkProtocolPromises (chk : Checks) (clm method : Signature) (p : Protocol) :
    Option CompilerError :=
  match chk.checkReturnPromise clm method p with
  | some e => some e
  | none =>
    match chk.checkArgumentCount clm.arguments.length method.arguments.length method.name with
    | some e => some e
    | none => checkArguments chk clm method p (List.range method.arguments.length)

/-- The body of the loop over the methods of a protocol (lines 102-121); `lookup` is
`eclass->lookupMethod`. -/
def writeProtocolMethod (chk : Checks) (lookup : EmojicodeChar → Option Procedure)
    (c : Class) (p : Protocol) (method : Procedure) : Emit :=
  match lookup method.name with
  | none => { error := some (.missingProtocolMethod c.name p.name method.name) }
  | some clm =>
    { written := [writeUInt16 clm.vti]
      error := checkProtocolPromises chk clm.toSignature method.toSignature p }

/-- The loop over the methods of a protocol (lines 101-122). -/
def writeProtocolMethods (chk : Checks) (lookup : EmojicodeChar → Option Procedure)
    (c : Class) (p : Protocol) : List Procedure → Emit
  | [] => {}
  | method :: rest =>
    (writeProtocolMethod chk lookup c p method).andThen (writeProtocolMethods chk lookup c p rest)

/-- The record of one conformance (lines 90, 99 and 101-122): the protocol index, the number of
protocol methods and one VTI per protocol method. The bookkeeping of the smallest and the
biggest protocol index (lines 92-97) writes nothing inside the loop. -/
def writeProtocolRecord (chk : Checks) (lookup : EmojicodeChar → Option Procedure)
    (c : Class) (p : Protocol) : Emit :=
  Emit.andThen { written := [writeUInt16 p.index, writeUInt16 p.methods.length] }
    (writeProtocolMethods chk lookup c p p.methods)

/-- The loop over the declared conformances of a class (lines 89-123). -/
def writeProtocolRecords (chk : Checks) (lookup : EmojicodeChar → Option Procedure)
    (c : Class) : List Protocol → Emit
  | [] => {}
  | p :: rest =>
    (writeProtocolRecord chk lookup c p).andThen (writeProtocolRecords chk lookup c rest)

/-! ## Signature checks as the specification describes them -/

/-- Modelled from the spec: the promise check of an overriding member against the overridden one
(`Procedure::checkPromises`, Procedure.cpp is not part of the sources; spec 4.3): the return
type must be compatible, the argument counts equal and each argument type compatible.
`compatible` is the type compatibility relation of the type checker. -/
def specCheckPromises (compatible : TypeRef → TypeRef → Bool) (p s : Signature) :
    Option CompilerError :=
  if !compatible p.returnType s.returnType then some (.promiseViolation p.name 0)
  else if p.arguments.length ≠ s.arguments.length then some (.promiseViolation p.name 1)
  else if (List.zipWith compatible s.arguments p.arguments).all id then none
  else some (.promiseViolation p.name 2)

/-- Modelled from the spec: the checks of Procedure.cpp as spec 4.3 and 4.4 describe them. The
spec states no condition on the override flag; a protocol method is checked for its return type,
its argument count and each argument type. -/
def specChecks (compatible : TypeRef → TypeRef → Bool) : Checks where
  checkOverride := fun _ _ => none
  checkPromises := specCheckPromises compatible
  checkReturnPromise := fun clm method _ =>
    if compatible clm.returnType method.returnType then none
    else some (.promiseViolation method.name 0)
  checkArgumentCount := fun n k name =>
    if n = k then none else some (.promiseViolation name 1)
  checkArgument := fun clm method _ i =>
    if compatible (method.arguments.getD i 0) (clm.arguments.getD i 0) then none
    else some (.promiseViolation method.name 2)

/-! ## Well-formed class lists and programs -/

/-- The declaration order the parser enforces (`parseClass` fetches the superclass before it
registers the class): the superclass of a class stands before the class in `Class::classes()`. -/
def superclassesFirst (cs : List Class) : Bool :=
  (List.range cs.length).all fun i =>
    match cs[i]? with
    | none => true
    | some c =>
      match c.superclass with
      | none => true
      | some s => decide (s < i)

/-! ## The numbering computed by the loops -/

/-- The lookup result a member loop works with. -/
def superFind (sup : Option Super) (sel : Super → EmojicodeChar → Option Procedure)
    (name : EmojicodeChar) : Option Procedure :=
  (superLookup sup sel name).1

/-- The VTI a method or class method receives when the counter stands at `next`. -/
def memberVti (lk : EmojicodeChar → Option Procedure) (m : Procedure) (next : Nat) : Nat :=
  match lk m.name with
  | some s => s.vti
  | none => next

/-- The counter after a method or class method was numbered. -/
def memberNext (lk : EmojicodeChar → Option Procedure) (m : Procedure) (next : Nat) : Nat :=
  match lk m.name with
  | some _ => next
  | none => (next + 1) % UINT16

/-- The numbering of a member list: the result of the member loop when every check passes. -/
def numberMembers (lk : EmojicodeChar → Option Procedure) :
    List Procedure → Nat → List Procedure × Nat
  | [], next => ([], next)
  | m :: ms, next =>
    let r := numberMembers lk ms (memberNext lk m next)
    ({ m with vti := memberVti lk m next } :: r.1, r.2)

/-- Number of null-pointer member calls of a loop over `k` members. -/
def nullCallsOf (sup : Option Super) (k : Nat) : Nat :=
  match sup with
  | some _ => 0
  | none => k

/-- The VTI an initializer receives when the two counters stand at `next` and `sub`. -/
def initializerVti (lk : EmojicodeChar → Option Procedure) (ini : Procedure) (next sub : Nat) :
    Nat :=
  if ini.required then
    match lk ini.name with
    | some s => s.vti
    | none => sub % UINT16
  else next

/-- The counter `nextInitializerVti` after an initializer was numbered. -/
def initializerNext (ini : Procedure) (next : Nat) : Nat :=
  if ini.required then next else (next + 1) % UINT16

/-- The local `subRequiredInitializerNextVti` after an initializer was numbered. -/
def initializerSub (lk : EmojicodeChar → Option Procedure) (ini : Procedure) (sub : Nat) : Nat :=
  if ini.required then
    match lk ini.name with
    | some _ => sub
    | none => sub + 1
  else sub

/-- The numbering of an initializer list: the result of the initializer loop when every check
passes. -/
def numberInitializers (lk : EmojicodeChar → Option Procedure) :
    List Procedure → Nat → Nat → List Procedure × Nat × Nat
  | [], next, sub => ([], next, sub)
  | ini :: rest, next, sub =>
    let r := numberInitializers lk rest (initializerNext ini next) (initializerSub lk ini sub)
    ({ ini with vti := initializerVti lk ini next sub } :: r.1, r.2)

/-- The class record the loop body leaves behind when every check passes. -/
def numberClass (sup : Option Super) (c : Class) : Class :=
  let c1 := seedCounters sup (decideInheritance c)
  let rm := numberMembers (superFind sup fun s => s.lookupMethod) c1.methodList c1.nextMethodVti
  let rc := numberMembers (superFind sup fun s => s.lookupClassMethod) c1.classMethodList
    c1.nextClassMethodVti
  let ri := numberInitializers (superFind sup fun s => s.lookupInitializer) c1.initializerList
    ((c1.nextInitializerVti + c1.requiredInitializers.length) % UINT16) (subRequiredStart sup)
  { c1 with
    methodList := rm.1
    nextMethodVti := rm.2
    classMethodList := rc.1
    nextClassMethodVti := rc.2
    initializerList := ri.1
    nextInitializerVti := ri.2.1 }

/-- Number of member calls the loop body makes through `eclass->superclass`. -/
def memberCount (c : Class) : Nat :=
  c.methodList.length + c.classMethodList.length + c.initializerList.length

/-- The initializer-inheritance flag after lines 152-155. -/
def inheritFlag (c : Class) : Bool :=
  if c.instanceVariables.length = 0 ∧ c.initializerList.length = 0 then true
  else c.inheritsContructors

/-- The seed of the method counter (lines 160 and 165). -/
def seedMethod (sup : Option Super) : Nat :=
  match sup with
  | some s => s.nextMethodVti
  | none => 0

/-- The seed of the class-method counter (lines 158 and 163). -/
def seedClassMethod (sup : Option Super) : Nat :=
  match sup with
  | some s => s.nextClassMethodVti
  | none => 0

/-- The seed of the initializer counter (lines 159 and 164). -/
def seedInitializer (sup : Option Super) (inherits : Bool) : Nat :=
  match sup with
  | some s => if inherits then s.nextInitializerVti else 0
  | none => 0

/-- The members that the superclass lookup does not find. -/
def freshMembers (lk : EmojicodeChar → Option Procedure) (ms : List Procedure) :
    List Procedure :=
  ms.filter fun m => (lk m.name).isNone

/-- The initializers declared without the required attribute. -/
def plainInitializers (ms : List Procedure) : List Procedure :=
  ms.filter fun m => !m.required

/-- The required initializers that the superclass lookup does not find. -/
def freshRequired (lk : EmojicodeChar → Option Procedure) (ms : List Procedure) :
    List Procedure :=
  ms.filter fun m => m.required && (lk m.name).isNone

/-- The VTI of the method a lookup finds under a name (0 when there is none). -/
def foundVti (lookup : EmojicodeChar → Option Procedure) (name : EmojicodeChar) : Nat :=
  match lookup name with
  | some clm => clm.vti
  | none => 0

/-- Every method table fits into 16 bits: for each class, the method-table size of its superclass
(0 without superclass) plus the number of its methods that the superclass lookup does not find
is below 65536. -/
def methodTablesFit (cs : List Class) : Bool :=
  cs.all fun c =>
    decide (seedMethod (superOf cs c)
      + (freshMembers (superFind (superOf cs c) fun s => s.lookupMethod) c.methodList).length
        < UINT16)

/-! ## Passing checks and the state of the pass -/

/-- The checks of the method loop (or class-method loop) pass on every member of `ms`. -/
def membersPass (chk : Checks) (lk : EmojicodeChar → Option Procedure) (ms : List Procedure) :
    Prop :=
  ∀ m ∈ ms, chk.checkOverride m.toSignature ((lk m.name).map fun p => p.toSignature) = none ∧
    ∀ s, lk m.name = some s → chk.checkPromises m.toSignature s.toSignature = none

/-- The checks of the initializer loop pass on every initializer of `inis`. -/
def initializersPass (chk : Checks) (lk : EmojicodeChar → Option Procedure)
    (inis : List Procedure) : Prop :=
  ∀ m ∈ inis, chk.checkOverride m.toSignature ((lk m.name).map fun p => p.toSignature) = none ∧
    (m.required = true →
      ∀ s, lk m.name = some s → chk.checkPromises m.toSignature s.toSignature = none)

/-- Every check of the loop body passes for the class `c` with superclass view `sup`. -/
def classPasses (chk : Checks) (sup : Option Super) (c : Class) : Prop :=
  membersPass chk (superFind sup fun s => s.lookupMethod) c.methodList ∧
  membersPass chk (superFind sup fun s => s.lookupClassMethod) c.classMethodList ∧
  initializersPass chk (superFind sup fun s => s.lookupInitializer) c.initializerList

/-- The lookup finds the protocol method `method` on the class and the three promise checks
pass. -/
def conformsTo (chk : Checks) (lookup : EmojicodeChar → Option Procedure) (p : Protocol)
    (method : Procedure) : Prop :=
  ∃ clm, lookup method.name = some clm ∧
    checkProtocolPromises chk clm.toSignature method.toSignature p = none

/-- Number of member calls through a null superclass made while the class is processed. -/
def rootCalls (c : Class) : Nat :=
  match c.superclass with
  | none => memberCount c
  | some _ => 0

/-- The state `st` of the pass over the class list `cs0` after the classes at the positions
below `k` were processed: these hold the numbering computed against the present state of their
superclass, the others are as declared. -/
structure Processed (chk : Checks) (cs0 : List Class) (k : Nat) (st : AnalysisState) : Prop where
  length_eq : st.classes.length = cs0.length
  untouched : ∀ j, k ≤ j → st.classes[j]? = cs0[j]?
  processed : ∀ j c0, j < k → cs0[j]? = some c0 →
    st.classes[j]? = some (numberClass (superOf st.classes c0) c0) ∧
    classPasses chk (superOf st.classes c0) c0
  nullCalls_eq : st.nullCalls = ((cs0.take k).map rootCalls).sum

/-- The fields of a class record that the loop body leaves unchanged when run on it again. -/
structure Settled (sup : Option Super) (c : Class) : Prop where
  flag : c.inheritsContructors = inheritFlag c
  methods : c.methodList =
    (numberMembers (superFind sup fun s => s.lookupMethod) c.methodList (seedMethod sup)).1
  nextMethod : c.nextMethodVti =
    (numberMembers (superFind sup fun s => s.lookupMethod) c.methodList (seedMethod sup)).2
  classMethods : c.classMethodList =
    (numberMembers (superFind sup fun s => s.lookupClassMethod) c.classMethodList
      (seedClassMethod sup)).1
  nextClassMethod : c.nextClassMethodVti =
    (numberMembers (superFind sup fun s => s.lookupClassMethod) c.classMethodList
      (seedClassMethod sup)).2
  initializers : c.initializerList =
    (numberInitializers (superFind sup fun s => s.lookupInitializer) c.initializerList
      ((seedInitializer sup (inheritFlag c) + c.requiredInitializers.length) % UINT16)
      (subRequiredStart sup)).1
  nextInitializer : c.nextInitializerVti =
    (numberInitializers (superFind sup fun s => s.lookupInitializer) c.initializerList
      ((seedInitializer sup (inheritFlag c) + c.requiredInitializers.length) % UINT16)
      (subRequiredStart sup)).2.1

/-! ## The parser of class bodies and class declarations (`FileParser.cpp`) -/

/-- The kinds of types that the superclass check and the extension check of the parser tell
apart (`Type::type()`; Type.hpp is not part of the sources). -/
inductive TypeType
  | TT_CLASS
  | TT_PROTOCOL
  | TT_ENUM
  | TT_OTHER
  deriving DecidableEq, Repr

/-- The type that `Package::fetchRawType` stores for a type name: its kind, whether the name was
written as an optional, and, for a class, the position of the class in `Class::classes()`. -/
structure RawType where
  type : TypeType
  optional : Bool := false
  eclass : Nat := 0
  deriving DecidableEq, Repr

/-- The type that `Type::parseAndFetchType` delivers after 🐊 in a class body: whether it is
optional and, when it is a protocol, the protocol. -/
structure ConformanceType where
  optional : Bool := false
  protocol : Option Protocol := none
  deriving DecidableEq, Repr

/-- The token that selects the case of the `switch` in `parseClassBody`, with what the token
parsers (Lexer.cpp, Type.cpp, Procedure.cpp; not part of the sources) read after it. -/
inductive BodyKeyword
  /-- An instance variable declaration: 🍰, the variable name and its type. -/
  | E_SHORTCAKE (var : Variable)
  /-- A conformance declaration: 🐊 and the type. -/
  | E_CROCODILE (type : ConformanceType)
  /-- A method or class method declaration: 🐖, the name, the arguments and the return type. -/
  | E_PIG (name : EmojicodeChar) (arguments : List TypeRef) (returnType : TypeRef)
  /-- An initializer declaration: 🐈, the name and the arguments. -/
  | E_CAT (name : EmojicodeChar) (arguments : List TypeRef)
  /-- Any other identifier. -/
  | unexpected (identifier : EmojicodeChar)
  deriving DecidableEq, Repr

/-- One declaration of a class body as the loop of `parseClassBody` reads it: the attributes
(lines 209-215) and the declaration proper. -/
structure BodyDeclaration where
  deprecated : Bool := false
  final : Bool := false
  accessLevel : AccessLevel := AccessLevel.PUBLIC
  override : Bool := false
  staticOnType : Bool := false
  required : Bool := false
  canReturnNothingness : Bool := false
  keyword : BodyKeyword
  deriving DecidableEq, Repr

/-- What the parser reads from constants and from the type checker, neither of which is part of
the sources: the name `E_CHEQUERED_FLAG` of the 🏁 method, the case labels of `reservedEmojis`
and the test `returnType.compatibleTo(typeInteger, ...)`. -/
structure ParserEnv where
  E_CHEQUERED_FLAG : EmojicodeChar
  reservedEmojis : List EmojicodeChar
  returnsInteger : TypeRef → Bool

/-- The state `parseClassBody` works on: the class, the set behind the pointer
`requiredInitializers` (`none` is the null pointer) and the globals `foundStartingFlag` and
`startingFlag` (the position of the class and the name of the method). A `std::set` is held as a
list without duplicates. -/
structure BodyState where
  eclass : Class
  requiredInitializers : Option (List EmojicodeChar)
  foundStartingFlag : Bool := false
  startingFlag : Option (Nat × EmojicodeChar) := none
  deriving DecidableEq, Repr

/-- The function `invalidAttribute`: an error if the attribute was set. -/
def invalidAttribute (set : Bool) (attributeName : Attribute) : Option CompilerError :=
  if set then some (.inapplicableAttribute attributeName) else none

/-- The first error of a sequence of checks, each of which ends the compilation when it fails. -/
def firstError : List (Option CompilerError) → Option CompilerError
  | [] => none
  | some e :: _ => some e
  | none :: rest => firstError rest

/-- The function `reservedEmojis` for a method name. -/
def reservedEmojis (env : ParserEnv) (name : EmojicodeChar) : Option CompilerError :=
  if name ∈ env.reservedEmojis then some (.reservedName name) else none

/-- The member function `std::set::erase(key)`. -/
def setErase (s : List EmojicodeChar) (key : EmojicodeChar) : List EmojicodeChar :=
  s.filter fun x => x != key

/-- Modelled from the spec: `Class::addProtocol` (Class.cpp is not part of the sources): the
conformance is appended to the list of declared protocol conformances (spec 3). -/
def Class.addProtocol (c : Class) (p : Protocol) : Class :=
  { c with protocols := c.protocols ++ [p] }

/-- Modelled from the spec: `Class::addMethod` (Class.cpp is not part of the sources): the
method is appended to the append-ordered list of the method table (spec 3). -/
def Class.addMethod (c : Class) (m : Procedure) : Class :=
  { c with methodList := c.methodList ++ [m] }

/-- Modelled from the spec: `Class::addClassMethod` (Class.cpp is not part of the sources): the
class method is appended to the append-ordered list of its table (spec 3). -/
def Class.addClassMethod (c : Class) (m : Procedure) : Class :=
  { c with classMethodList := c.classMethodList ++ [m] }

/-- Modelled from the spec: `Class::addInitializer` (Class.cpp is not part of the sources): the
initializer is appended to the append-ordered list of its table (spec 3); the names of the
required ones form `Class.requiredInitializers`. -/
def Class.addInitializer (c : Class) (m : Procedure) : Class :=
  { c with initializerList := c.initializerList ++ [m] }

/-- The six attribute checks of the cases 🍰 and 🐊 (lines 219-224 and 238-243), in order. -/
def noAttributeAllowed (d : BodyDeclaration) : Option CompilerError :=
  firstError
    [invalidAttribute d.staticOnType .E_RABBIT,
     invalidAttribute d.override .E_LOCK_WITH_INK_PEN,
     invalidAttribute d.final .E_BLACK_NIB,
     invalidAttribute d.required .E_KEY,
     invalidAttribute d.canReturnNothingness .E_CANDY,
     invalidAttribute d.deprecated .E_WARNING_SIGN]

/-- The `Procedure` that the constructors of `Method`, `ClassMethod` and `Initializer` build
from the attributes of a declaration. -/
def BodyDeclaration.procedure (d : BodyDeclaration) (name : EmojicodeChar)
    (arguments : List TypeRef) (returnType : TypeRef) (required canReturnNothingness : Bool) :
    Procedure :=
  { name := name, access := d.accessLevel, final := d.final, overriding := d.override
    deprecated := d.deprecated, arguments := arguments, returnType := returnType
    required := required, canReturnNothingness := canReturnNothingness }

/-- The body of the loop of `parseClassBody` (lines 209-329) for one declaration; `i` is the
position of the class in `Class::classes()`. Errors of the token parsers are not modelled: the
declaration is one whose tokens and types were read. -/
def parseBodyDeclaration (env : ParserEnv) (i : Nat) (d : BodyDeclaration) (st : BodyState) :
    Except CompilerError BodyState :=
  match d.keyword with
  | .E_SHORTCAKE var =>
    match noAttributeAllowed d with
    | some e => .error e
    | none =>
      if st.eclass.instanceVariables.length = 65535 then .error .instanceVariableLimit
      else
        .ok { st with
          eclass := { st.eclass with
            instanceVariables := st.eclass.instanceVariables ++ [var] } }
  | .E_CROCODILE type =>
    match noAttributeAllowed d with
    | some e => .error e
    | none =>
      if type.optional then .error .optionalProtocol
      else
        match type.protocol with
        | none => .error .notAProtocol
        | some p => .ok { st with eclass := st.eclass.addProtocol p }
  | .E_PIG name arguments returnType =>
    match firstError [invalidAttribute d.required .E_KEY,
        invalidAttribute d.canReturnNothingness .E_CANDY] with
    | some e => .error e
    | none =>
      if d.staticOnType then
        let classMethod := d.procedure name arguments returnType false false
        if name = env.E_CHEQUERED_FLAG then
          if st.foundStartingFlag then
            .error (.duplicateStartingFlag (st.startingFlag.map fun f => f.1))
          else if !env.returnsInteger returnType then .error .startingFlagReturn
          else
            .ok { st with
              foundStartingFlag := true
              startingFlag := some (i, name)
              eclass := st.eclass.addClassMethod classMethod }
        else .ok { st with eclass := st.eclass.addClassMethod classMethod }
      else
        match reservedEmojis env name with
        | some e => .error e
        | none =>
          .ok { st with
            eclass := st.eclass.addMethod (d.procedure name arguments returnType false false) }
  | .E_CAT name arguments =>
    match invalidAttribute d.staticOnType .E_RABBIT with
    | some e => .error e
    | none =>
      .ok { st with
        requiredInitializers := st.requiredInitializers.map fun s => setErase s name
        eclass := st.eclass.addInitializer
          (d.procedure name arguments 0 d.required d.canReturnNothingness) }
  | .unexpected identifier => .error (.unexpectedIdentifier identifier)

/-- The loop of `parseClassBody` (lines 201-330) over the declarations of a class body. -/
def parseClassBody (env : ParserEnv) (i : Nat) :
    List BodyDeclaration → BodyState → Except CompilerError BodyState
  | [], st => .ok st
  | d :: rest, st =>
    match parseBodyDeclaration env i d st with
    | .error e => .error e
    | .ok st' => parseClassBody env i rest st'

/-- A type name as `Type::parseTypeName` reads it: the name and whether it was written as an
optional (🍬). -/
structure TypeName where
  name : EmojicodeChar
  optional : Bool := false
  deriving DecidableEq, Repr

/-- An `Enum` of `Class.hpp`: its name, the map `map_` from member names to values, as a list of
pairs in insertion order, and the counter `valuesCounter`. -/
structure Enum where
  name : EmojicodeChar
  map_ : List (EmojicodeChar × Nat) := []
  valuesCounter : Nat := 0
  deriving DecidableEq, Repr

/-- A `PackageVersion` (Package.hpp is not part of the sources): the two `uint16_t` numbers
that `PackageVersion(majori, minori)` is built from and that `writePackageHeader` reads. -/
structure PackageVersion where
  major : Nat := 0
  minor : Nat := 0
  deriving DecidableEq, Repr

/-- The globals of the parser: the list `Class::classes()`, the enums, the types registered with
`Package::registerType`, the classes registered with `Package::registerClass` (positions in
`Class::classes()`) and the two globals of the 🏁 method; and the version `pkg->version()` of
the package that is parsed. -/
structure ParserState where
  classes : List Class := []
  enums : List Enum := []
  types : List (EmojicodeChar × RawType) := []
  packageClasses : List Nat := []
  foundStartingFlag : Bool := false
  startingFlag : Option (Nat × EmojicodeChar) := none
  version : PackageVersion := {}
  deriving DecidableEq, Repr

/-- Modelled from the spec: `Package::fetchRawType` (Package.cpp is not part of the sources):
a type name is looked up among the types registered so far (spec 5: a class cannot reference an
undeclared superclass), and the fetched type carries the optional flag of the name. Namespaces
and imported packages are left out. -/
def fetchRawType (st : ParserState) (n : TypeName) : Option RawType :=
  (st.types.find? fun t => t.1 == n.name).map fun t => { t.2 with optional := n.optional }

/-- The function `parseAndValidateTypeName`: an optional cannot be declared as a type, and the
name must not be registered yet. -/
def parseAndValidateTypeName (st : ParserState) (n : TypeName) : Option CompilerError :=
  if n.optional then some .optionalTypeName
  else
    match fetchRawType st n with
    | some _ => some (.typeAlreadyDefined n.name)
    | none => none

/-- The state with which `parseClassBody` is entered for the class `eclass` and the set pointer
`required`. -/
def bodyStart (st : ParserState) (eclass : Class) (required : Option (List EmojicodeChar)) :
    BodyState :=
  { eclass := eclass
    requiredInitializers := required
    foundStartingFlag := st.foundStartingFlag
    startingFlag := st.startingFlag }

/-- The class object that `parseClass` creates: it receives the next position of
`Class::classes()` as its index (the constructor is in Class.cpp, not part of the sources;
spec 3: a dense class index). -/
def newClass (st : ParserState) (name : EmojicodeChar) (superclass : Option Nat) : Class :=
  { name := name, index := st.classes.length % UINT16, superclass := superclass }

/-- A class declaration (🐇) as `parseClass` reads it: the name and whether it was written as an
optional, the superclass name, if one is written, and the body. -/
structure ClassDeclaration where
  name : EmojicodeChar
  optional : Bool := false
  superclass : Option TypeName := none
  body : List BodyDeclaration := []
  deriving DecidableEq, Repr

/-- Lines 341-366 of `parseClass`: the superclass pointer, or the error of one of the three
checks. Without a superclass name the pointer is null. -/
def parseSuperclass (st : ParserState) (d : ClassDeclaration) :
    Except CompilerError (Option Nat) :=
  match d.superclass with
  | none => .ok none
  | some n =>
    match fetchRawType st n with
    | none => .error .superclassDoesNotExist
    | some type =>
      if type.type ≠ TypeType.TT_CLASS then .error .superclassNotAClass
      else if type.optional then .error .superclassOptional
      else .ok (some type.eclass)

/-- Lines 371-376 of `parseClass`: the set of the names that must be implemented, a copy of the
set of the superclass, or the empty set. -/
def requiredOfSuperclass (cs : List Class) (superclass : Option Nat) : List EmojicodeChar :=
  match superclass with
  | none => []
  | some s =>
    match cs[s]? with
    | some sc => sc.requiredInitializers
    | none => []

/-- Lines 380-383 of `parseClass`: if the set is not empty, the error names `*begin()`, the
least element of the set. -/
def checkRequiredInitializers : List EmojicodeChar → Option CompilerError
  | [] => none
  | n :: rest => some (.missingRequiredInitializer (rest.foldl min n))

/-- The state after a class declaration was parsed: the class stands at the next position of
`Class::classes()`, its name is registered as a class type (`registerType`, line 368) and the
class is registered in the package (`registerClass`, line 369; Package.cpp is not part of the
sources). -/
def registerClass (st : ParserState) (name : EmojicodeChar) (bst : BodyState) : ParserState :=
  { classes := st.classes ++ [bst.eclass]
    enums := st.enums
    types := st.types ++ [(name, { type := TypeType.TT_CLASS, eclass := st.classes.length })]
    packageClasses := st.packageClasses ++ [st.classes.length]
    foundStartingFlag := bst.foundStartingFlag
    startingFlag := bst.startingFlag
    version := st.version }

/-- The function `parseClass`; the generic arguments are left out. An error ends the
compilation, so the registration of lines 368-369 shows in the state of a successful
declaration only. -/
def parseClass (env : ParserEnv) (st : ParserState) (d : ClassDeclaration) :
    Except CompilerError ParserState :=
  match parseAndValidateTypeName st { name := d.name, optional := d.optional } with
  | some e => .error e
  | none =>
    match parseSuperclass st d with
    | .error e => .error e
    | .ok superclass =>
      match parseClassBody env st.classes.length d.body
          (bodyStart st (newClass st d.name superclass)
            (some (requiredOfSuperclass st.classes superclass))) with
      | .error e => .error e
      | .ok bst =>
        match checkRequiredInitializers (bst.requiredInitializers.getD []) with
        | some e => .error e
        | none => .ok (registerClass st d.name bst)

/-- A class extension (🐋) as `parseFile` reads it (lines 461-484): the name of the class,
whether it was written as an optional, and the body. -/
structure ExtensionDeclaration where
  name : EmojicodeChar
  optional : Bool := false
  body : List BodyDeclaration := []
  deriving DecidableEq, Repr

/-- The case 🐋 of `parseFile` (lines 461-484): the body is parsed into the existing class,
with a null `requiredInitializers` pointer. -/
def parseExtension (env : ParserEnv) (st : ParserState) (d : ExtensionDeclaration) :
    Except CompilerError ParserState :=
  if d.optional then .error .optionalNotExtendable
  else
    match fetchRawType st { name := d.name, optional := d.optional } with
    | none => .error .classDoesNotExist
    | some type =>
      if type.type ≠ TypeType.TT_CLASS then .error .onlyClassesExtendable
      else
        match st.classes[type.eclass]? with
        | none => .ok st
        | some eclass =>
          match parseClassBody env type.eclass d.body (bodyStart st eclass none) with
          | .error e => .error e
          | .ok bst =>
            .ok { st with
              classes := st.classes.set type.eclass bst.eclass
              foundStartingFlag := bst.foundStartingFlag
              startingFlag := bst.startingFlag }

/-- Modelled from the spec: `Enum::getValueFor` (Class.cpp is not part of the sources): whether
the enum has a member of the name, and its value (spec 3: a mapping from member name to
integer). -/
def Enum.getValueFor (e : Enum) (c : EmojicodeChar) : Bool × Nat :=
  match e.map_.find? fun m => m.1 == c with
  | some m => (true, m.2)
  | none => (false, 0)

/-- Modelled from the spec: `Enum::addValueFor` (Class.cpp is not part of the sources; spec 3):
a name is given the value of the counter the first time it is declared, the first declared
member 0 and each subsequent one the previous value plus one; re-declaring a name is a
declaration error, not an overwrite. The result is the enum after the call and the error, if
any. The counter is an `EmojicodeInteger`, far from its limit. -/
def Enum.addValueFor (e : Enum) (c : EmojicodeChar) : Enum × Option CompilerError :=
  if (e.getValueFor c).1 then (e, some (.duplicateDeclaration c))
  else ({ e with map_ := e.map_ ++ [(c, e.valuesCounter)], valuesCounter := e.valuesCounter + 1 },
        none)

/-- The loop of `parseEnum` (lines 187-189) over the member names up to 🍉: the enum when the
loop ended, and the error that ended the compilation, if any. -/
def parseEnumMembers : List EmojicodeChar → Enum → Enum × Option CompilerError
  | [], eenum => (eenum, none)
  | c :: rest, eenum =>
    match eenum.addValueFor c with
    | (eenum', some e) => (eenum', some e)
    | (eenum', none) => parseEnumMembers rest eenum'

/-- An enum declaration (🦃) as `parseEnum` reads it: the name, whether it was written as an
optional, and the member names up to 🍉. -/
structure EnumDeclaration where
  name : EmojicodeChar
  optional : Bool := false
  members : List EmojicodeChar := []
  deriving DecidableEq, Repr

/-- The function `parseEnum`: the name is validated, the enum is created and registered as a
type, and the members are added. -/
def parseEnum (st : ParserState) (d : EnumDeclaration) : Except CompilerError ParserState :=
  match parseAndValidateTypeName st { name := d.name, optional := d.optional } with
  | some e => .error e
  | none =>
    match parseEnumMembers d.members { name := d.name } with
    | (_, some e) => .error e
    | (eenum, none) =>
      .ok { st with
        enums := st.enums ++ [eenum]
        types := st.types ++ [(d.name, { type := TypeType.TT_ENUM })] }

/-- The conversion of the `long` that `strtol` returns to a `uint16_t` (lines 449-450). -/
def toUInt16 (v : Int) : Nat := (v % Int.ofNat UINT16).toNat

/-- The case 🔮 of `parseFile` (lines 440-460): the attribute check, the test of the version
that the package has, and the new version. `exported` tells whether 🌍 stood in front of the
declaration; `major` and `minor` are the values that `strtol` returns for the two integer
tokens. -/
def parseVersion (st : ParserState) (exported : Bool) (major minor : Int) :
    Except CompilerError ParserState :=
  match invalidAttribute exported .E_EARTH_GLOBE_EUROPE_AFRICA with
  | some e => .error e
  | none =>
    if st.version.minor ≠ 0 ∧ st.version.major ≠ 0 then .error .versionAlreadyDeclared
    else .ok { st with version := { major := toUInt16 major, minor := toUInt16 minor } }

/-- The declarations of a source file that create or change a class or an enum or set the
version of the package. -/
inductive FileDeclaration
  /-- A class declaration (🐇, `parseClass`). -/
  | E_RABBIT (d : ClassDeclaration)
  /-- A class extension (🐋). -/
  | E_WALE (d : ExtensionDeclaration)
  /-- An enum declaration (🦃, `parseEnum`). -/
  | E_TURKEY (d : EnumDeclaration)
  /-- A package version declaration (🔮). -/
  | E_CRYSTAL_BALL (exported : Bool) (major minor : Int)
  deriving DecidableEq, Repr

/-- The loop of `parseFile` over the class declarations, class extensions, enum declarations and
version declarations of the program, in source order. -/
def parseDeclarations (env : ParserEnv) :
    List FileDeclaration → ParserState → Except CompilerError ParserState
  | [], st => .ok st
  | .E_RABBIT d :: rest, st =>
    match parseClass env st d with
    | .error e => .error e
    | .ok st' => parseDeclarations env rest st'
  | .E_WALE d :: rest, st =>
    match parseExtension env st d with
    | .error e => .error e
    | .ok st' => parseDeclarations env rest st'
  | .E_TURKEY d :: rest, st =>
    match parseEnum st d with
    | .error e => .error e
    | .ok st' => parseDeclarations env rest st'
  | .E_CRYSTAL_BALL exported major minor :: rest, st =>
    match parseVersion st exported major minor with
    | .error e => .error e
    | .ok st' => parseDeclarations env rest st'

/-- The state of the parser after the classes `cs` were declared, in this order, in one
package. -/
def declaredClasses (cs : List Class) : ParserState :=
  { classes := cs
    types := cs.enum.map fun p => (p.2.name, { type := TypeType.TT_CLASS, eclass := p.1 })
    packageClasses := List.range cs.length }

/-- The names of the initializers that a class body declares. -/
def declaredInitializers (body : List BodyDeclaration) : List EmojicodeChar :=
  body.filterMap fun d =>
    match d.keyword with
    | .E_CAT name _ => some name
    | _ => none

/-! ## Serialization (`analyzeClass`, `writePackageHeader`, `analyzeClassesAndWrite`) -/

/-- Modelled from the spec: the writer operation `Writer::writeByte` (Writer.cpp is not part of
the sources): the value is stored as one byte. -/
def writeByte (v : Nat) : Field := Field.byte (v % 256)

/-- Modelled from the spec: the writer operation `Writer::writeEmojicodeChar` (Writer.cpp is not
part of the sources): the code point is written as one field. -/
def writeEmojicodeChar (c : EmojicodeChar) : Field := Field.emojicodeChar c

/-- The loop of lines 35-38 of `analyzeClass`: starting at the class pointer `aClass`, the
numbers of instance variables of the classes along the superclass chain are added to the
`uint16_t offset`. The loop ends at the null pointer; the Boolean tells whether it was reached
within `fuel` steps. -/
def superclassOffset (cs : List Class) : Nat → Option Nat → Nat → Nat × Bool
  | _, none, offset => (offset, true)
  | 0, some _, offset => (offset, false)
  | fuel + 1, some a, offset =>
    match cs[a]? with
    | none => (offset, false)
    | some aClass =>
      superclassOffset cs fuel aClass.superclass
        ((offset + aClass.instanceVariables.length) % UINT16)

/-- The value of `offset` after the loop of lines 35-38 for the class `c`. -/
def instanceVariableOffset (cs : List Class) (c : Class) : Nat :=
  (superclassOffset cs cs.length c.superclass 0).1

/-- Lines 23-29: the index of the superclass, or the own index of a class without superclass. -/
def inheritIndex (cs : List Class) (c : Class) : Nat :=
  match c.superclass with
  | some s => (cs.getD s { name := 0 }).index
  | none => c.index

/-- Lines 22-51 of `analyzeClass`: the fields written for a class before its members. -/
def writeClassHeader (cs : List Class) (c : Class) : List Field :=
  [writeEmojicodeChar c.name,
   writeUInt16 (inheritIndex cs c),
   writeUInt16 (c.instanceVariables.length + instanceVariableOffset cs c),
   writeUInt16 c.nextMethodVti,
   writeUInt16 c.nextClassMethodVti,
   writeByte (if c.inheritsContructors then 1 else 0),
   writeUInt16 c.nextInitializerVti,
   writeUInt16 c.methodList.length,
   writeUInt16 c.initializerList.length,
   writeUInt16 c.classMethodList.length]

/-- The loop of lines 53-56: each instance variable becomes a variable of the object scope with
the id `offset++` (`offset` is a `uint16_t`). -/
def objectScope : List Variable → Nat → List (Variable × Nat)
  | [], _ => []
  | var :: rest, offset => (var, offset) :: objectScope rest ((offset + 1) % UINT16)

/-- The function `StaticFunctionAnalyzer::writeAndAnalyzeProcedure`, which is not part of the
sources, as a parameter: what it writes for the procedure `p` of the class `classType`, given the
variables of the object scope on the scoper (none for a class method), the flag
`inClassContext` and whether `p` is passed as the initializer. -/
structure FunctionAnalyzer where
  writeAndAnalyzeProcedure : Procedure → Class → List (Variable × Nat) → Bool → Bool → Emit

/-- One of the loops of lines 60-72 over a member list. -/
def writeProcedures (write : Procedure → Emit) : List Procedure → Emit
  | [] => {}
  | p :: rest => (write p).andThen (writeProcedures write rest)

/-- The bookkeeping of lines 92-97 over the conformances: the pair of the smallest and the
biggest protocol index seen so far. -/
def protocolRange : List Protocol → Nat × Nat → Nat × Nat
  | [], range => range
  | p :: rest, (smallest, biggest) =>
    protocolRange rest
      (if p.index < smallest then p.index else smallest,
       if p.index > biggest then p.index else biggest)

/-- Lines 80-127 of `analyzeClass`: the conformance count and, if the class has conformances,
the two placeholders, the records of the conformances, and the two placeholders written at the
end, the first with the biggest and the second with the smallest protocol index.
`UINT_FAST16_MAX` is the greatest value of the type `uint_fast16_t` of the platform.
`Writer::writePlaceholder` and `WriterPlaceholder::write` are in Writer.hpp, which is not part
of the sources: a placeholder reserves a field at its place in the stream and `write` stores
the value there. -/
def writeProtocolSection (chk : Checks) (UINT_FAST16_MAX : Nat)
    (lookup : EmojicodeChar → Option Procedure) (c : Class) : Emit :=
  Emit.andThen { written := [writeUInt16 c.protocols.length] }
    (if c.protocols.length > 0 then
      let body := Emit.andThen { written := [Field.placeholder, Field.placeholder] }
        (writeProtocolRecords chk lookup c c.protocols)
      match body.error with
      | some _ => body
      | none =>
        let range := protocolRange c.protocols (UINT_FAST16_MAX, 0)
        { body with
          written := (body.written.set 0 (writeUInt16 range.2)).set 1 (writeUInt16 range.1) }
    else {})

/-- The function `analyzeClass` for the class at position `i` of `Class::classes()`: the header,
the methods, the initializers and the class methods, and the conformances. The warning of lines
74-78 writes nothing and does not end the compilation. -/
def analyzeClass (chk : Checks) (fa : FunctionAnalyzer) (UINT_FAST16_MAX : Nat)
    (cs : List Class) (i : Nat) : Emit :=
  match cs[i]? with
  | none => {}
  | some c =>
    let scope := objectScope c.instanceVariables (instanceVariableOffset cs c)
    Emit.andThen { written := writeClassHeader cs c }
      (Emit.andThen
        (writeProcedures (fun p => fa.writeAndAnalyzeProcedure p c scope false false)
          c.methodList)
        (Emit.andThen
          (writeProcedures (fun p => fa.writeAndAnalyzeProcedure p c scope false true)
            c.initializerList)
          (Emit.andThen
            (writeProcedures (fun p => fa.writeAndAnalyzeProcedure p c [] true false)
              c.classMethodList)
            (writeProtocolSection chk UINT_FAST16_MAX (lookupMethod cs i) c))))

/-- A `Package` as `analyzeClassesAndWrite` reads it (Package.hpp is not part of the sources):
the bytes of the C string `name()`, none of which is 0, the version, the flag `requiresBinary()`
and the positions of the classes `classes()` in `Class::classes()`. -/
structure Package where
  name : List Nat
  major : Nat := 0
  minor : Nat := 0
  requiresBinary : Bool := false
  classes : List Nat := []
  deriving DecidableEq, Repr

/-- The function `writePackageHeader`: the length `l` of the name with its terminating zero, as
a `uint16_t`, `l` bytes of the name, the version and the flag. -/
def writePackageHeader (pkg : Package) : List Field :=
  let l := (pkg.name.length + 1) % UINT16
  [writeUInt16 l] ++ ((pkg.name ++ [0]).take l).map writeByte ++
    [writeUInt16 pkg.major, writeUInt16 pkg.minor, writeByte (if pkg.requiresBinary then 1 else 0)]

/-- The loop over the classes of a package (lines 261-268, and 230-237 and 238-245): a byte 1
is written before a class when `classWritten` is set, then the class; the second component is
`classWritten` after the loop. `analyze` is the call `analyzeClass(Type(cl), writer)`. -/
def writeClassList (analyze : Nat → Emit) : List Nat → Bool → Emit × Bool
  | [], classWritten => ({}, classWritten)
  | cl :: rest, classWritten =>
    let marker : Emit := if classWritten then { written := [writeByte 1] } else {}
    let r := writeClassList analyze rest true
    ((marker.andThen (analyze cl)).andThen r.1, r.2)

/-- The body of the loop over the packages (lines 257-270): the header, the classes and the
byte 0. -/
def writePackageSection (analyze : Nat → Emit) (pkg : Package) : Emit :=
  Emit.andThen { written := writePackageHeader pkg }
    ((writeClassList analyze pkg.classes false).1.andThen { written := [writeByte 0] })

/-- The loop over the packages (lines 256-271). -/
def writePackageSections (analyze : Nat → Emit) : List Package → Emit
  | [] => {}
  | pkg :: rest => (writePackageSection analyze pkg).andThen (writePackageSections analyze rest)

/-- Lines 219-272 of `analyzeClassesAndWrite`: with exactly two packages, the byte 1, the header
of the first package, the classes of both packages and one byte 0; otherwise the package count
and the package sections, or the error for more than 253 packages. -/
def writePackages (analyze : Nat → Emit) : List Package → Emit
  | [first, second] =>
    Emit.andThen { written := [writeByte 1] ++ writePackageHeader first }
      (((writeClassList analyze first.classes false).1.andThen
          (writeClassList analyze second.classes
            (writeClassList analyze first.classes false).2).1).andThen
        { written := [writeByte 0] })
  | pkgs =>
    if pkgs.length > 253 then { error := some .packageLimit }
    else Emit.andThen { written := [writeByte pkgs.length] } (writePackageSections analyze pkgs)

/-- Lines 217-272 of `analyzeClassesAndWrite`, the serialization of the classes after the VTI
pass: the number of classes and the packages, each class written by `analyzeClass`. -/
def writeClassesAndPackages (chk : Checks) (fa : FunctionAnalyzer) (UINT_FAST16_MAX : Nat)
    (cs : List Class) (pkgs : List Package) : Emit :=
  Emit.andThen { written := [writeUInt16 cs.length] }
    (writePackages (analyzeClass chk fa UINT_FAST16_MAX cs) pkgs)

/-- The value of a `Token` (`token->value`, an `EmojicodeString`; Lexer.hpp is not part of the
sources): its characters. The token `new Token()` of line 145 has the empty value. -/
abbrev Token := List EmojicodeChar

/-- Modelled from the spec: the list `stringPool` when line 274 is reached: the pool with which
`analyzeClassesAndWrite` was entered, the token pushed by line 145, and the tokens `pooled`
that the analysis of the class bodies pushed after it, in this order. The function analyser,
which pushes them, is not part of the sources; spec 4.5: the literal pool is serialized entry
by entry, so a literal is pooled by appending it. -/
def finalPool (stringPool pooled : List Token) : List Token :=
  stringPool ++ [[]] ++ pooled

/-- Lines 274-281 of `analyzeClassesAndWrite`: the size of the pool and, for each token, the
size of its value and its characters. -/
def writeStringPool (stringPool : List Token) : List Field :=
  writeUInt16 stringPool.length ::
    stringPool.flatMap fun token => writeUInt16 token.length :: token.map writeEmojicodeChar

/-- Lines 283-284 of `analyzeClassesAndWrite`: the index of the class `startingFlag.eclass` and
the VTI of the class method that its lookup finds under `E_CHEQUERED_FLAG`. The result is
`none` when a null pointer is dereferenced: `startingFlag.eclass` when no class was recorded,
or the result of the lookup when it finds nothing. -/
def writeStartingFlag (E_CHEQUERED_FLAG : EmojicodeChar) (cs : List Class)
    (startingFlag : Option (Nat × EmojicodeChar)) : Option (List Field) :=
  match startingFlag with
  | none => none
  | some (eclass, _) =>
    match cs[eclass]? with
    | none => none
    | some c =>
      match lookupClassMethod cs eclass E_CHEQUERED_FLAG with
      | none => none
      | some m => some [writeUInt16 c.index, writeUInt16 m.vti]

/-- How a call of `analyzeClassesAndWrite` ends: it returns, having written the stream; a
compiler error ends the compilation; or a null pointer is dereferenced after the stream was
written. -/
inductive Outcome
  | written (stream : List Field)
  | compilerError (e : CompilerError)
  | nullDereference (stream : List Field)
  deriving DecidableEq, Repr

/-- The function `analyzeClassesAndWrite`: the version byte (line 147), the VTI pass
(lines 151-215), the classes and packages (lines 217-272), the string pool (lines 274-281) and
the entry point (lines 283-284). `ByteCodeSpecificationVersion` and `E_CHEQUERED_FLAG` are
constants that are not part of the sources; `stringPool` is the pool on entry, `pooled` are
the tokens pushed during the analysis of the class bodies, and `startingFlag` is the global
that the parser sets. -/
def analyzeClassesAndWrite (chk : Checks) (fa : FunctionAnalyzer) (UINT_FAST16_MAX : Nat)
    (ByteCodeSpecificationVersion : Nat) (E_CHEQUERED_FLAG : EmojicodeChar)
    (cs : List Class) (pkgs : List Package) (stringPool pooled : List Token)
    (startingFlag : Option (Nat × EmojicodeChar)) : Outcome :=
  match assignVtis chk cs with
  | .error e => .compilerError e
  | .ok st =>
    let classes := Emit.andThen { written := [writeByte ByteCodeSpecificationVersion] }
      (writeClassesAndPackages chk fa UINT_FAST16_MAX st.classes pkgs)
    match classes.error with
    | some e => .compilerError e
    | none =>
      let stream := classes.written ++ writeStringPool (finalPool stringPool pooled)
      match writeStartingFlag E_CHEQUERED_FLAG st.classes startingFlag with
      | none => .nullDereference stream
      | some fields => .written (stream ++ fields)

/-- The macro `emptyString` of `EmojicodeString.h`: entry 0 of the string pool. -/
def emptyString (stringPool : List Token) : Option Token := stringPool[0]?

/-! ## Ancestors, class lists and the trailing section -/

/-- The superclass chain of a class pointer: the class it points to, the superclass of that
class, and so on, for at most `fuel` classes. -/
def superclassChain (cs : List Class) : Nat → Option Nat → List Class
  | _, none => []
  | 0, some _ => []
  | fuel + 1, some a =>
    match cs[a]? with
    | none => []
    | some aClass => aClass :: superclassChain cs fuel aClass.superclass

/-- The positions in the class list of the classes along the superclass chain of a class
pointer, nearest first, for at most `fuel` classes: the positions of the ancestors. -/
def superclassPositions (cs : List Class) : Nat → Option Nat → List Nat
  | _, none => []
  | 0, some _ => []
  | fuel + 1, some a =>
    match cs[a]? with
    | none => []
    | some aClass => a :: superclassPositions cs fuel aClass.superclass

/-- The ancestors of a class of the class list `cs`, nearest first. -/
def ancestors (cs : List Class) (c : Class) : List Class :=
  superclassChain cs cs.length c.superclass

/-- The sum of the numbers of own instance variables of the ancestors of a class. -/
def inheritedVariableCount (cs : List Class) (c : Class) : Nat :=
  ((ancestors cs c).map fun a => a.instanceVariables.length).sum

/-- The records of the classes at the given positions as one stream: the record of the first
class and, for each further class, a byte 1 and the record of the class. -/
def classRecords (analyze : Nat → Emit) : List Nat → List Field
  | [] => []
  | cl :: rest => (analyze cl).written ++ rest.flatMap fun i => writeByte 1 :: (analyze i).written

/-- The number of class methods of the name `name` that the class declares. -/
def Class.classMethodCount (c : Class) (name : EmojicodeChar) : Nat :=
  (c.classMethodList.filter fun m => m.name == name).length

/-- The number of class methods of the name `name` declared in the classes of the program. -/
def classMethodCount (cs : List Class) (name : EmojicodeChar) : Nat :=
  (cs.map fun c => c.classMethodCount name).sum

/-- The record of a pool entry as the specification describes it: the length of the entry,
followed by its character codes. -/
def poolEntry (t : Token) : List Field := Field.uint16 t.length :: t.map Field.emojicodeChar

/-- The trailing section as the specification describes it: the number of pool entries, the
records of the entries in pool order, the index of the entry-point class and the VTI of the
entry-point class method, the last two as 16-bit values. -/
def trailingSection (pool : List Token) (classIndex vti : Nat) : List Field :=
  Field.uint16 pool.length :: pool.flatMap poolEntry ++ [writeUInt16 classIndex, writeUInt16 vti]

/-! ## States of the parser -/

/-- The registry and the class list of a state of the parser agree: every type registered as a
class points into `Class::classes()`, and the superclass of every class stands before the
class. -/
structure ParserState.Consistent (st : ParserState) : Prop where
  registered : ∀ t ∈ st.types, t.2.type = TypeType.TT_CLASS → t.2.eclass < st.classes.length
  ordered : superclassesFirst st.classes = true

/-- The two globals of the 🏁 method after a part of a class body was parsed, compared with
their values before: once set they stay as they are; the flag is set exactly when a class
method of the name `flag` was added to the class at position `i`, which is then the recorded
class; no class method is removed. -/
structure FlagStep (i : Nat) (flag : EmojicodeChar) (st st' : BodyState) : Prop where
  kept : st.foundStartingFlag = true →
    st'.foundStartingFlag = true ∧ st'.startingFlag = st.startingFlag
  count : st'.eclass.classMethodCount flag + (if st.foundStartingFlag then 1 else 0) =
    st.eclass.classMethodCount flag + (if st'.foundStartingFlag then 1 else 0)
  recorded : st.foundStartingFlag = false → st'.foundStartingFlag = true →
    st'.startingFlag = some (i, flag) ∧ ∃ m ∈ st'.eclass.classMethodList, m.name = flag
  untouched : st'.foundStartingFlag = false → st'.startingFlag = st.startingFlag
  grows : ∀ m ∈ st.eclass.classMethodList, m ∈ st'.eclass.classMethodList

/-- The globals of the 🏁 method and the classes of a state of the parser agree: the program
declares one class method of the name of the 🏁 method if the flag `foundStartingFlag` is set
and none otherwise; if the flag is set, the recorded class declares such a class method; if it
is not set, no class is recorded. -/
structure ParserState.FlagRecorded (env : ParserEnv) (st : ParserState) : Prop where
  count : classMethodCount st.classes env.E_CHEQUERED_FLAG =
    if st.foundStartingFlag then 1 else 0
  recorded : st.foundStartingFlag = true →
    ∃ i c, st.startingFlag = some (i, env.E_CHEQUERED_FLAG) ∧ st.classes[i]? = some c ∧
      ∃ m ∈ c.classMethodList, m.name = env.E_CHEQUERED_FLAG
  absent : st.foundStartingFlag = false → st.startingFlag = none

/-! ## Example programs -/

/-- The checks used in the examples: the spec's checks over type equality. -/
def exampleChecks : Checks := specChecks fun a b => a == b

/-- Class `A` of the example of the specification: it declares the method `m`. -/
def classA : Class := { name := 65, index := 0, methodList := [{ name := 109 }] }

/-- Class `B < A` of the example: it overrides `m` and declares `n`. -/
def classB : Class :=
  { name := 66, index := 1, superclass := some 0
    methodList := [{ name := 109, overriding := true }, { name := 110 }] }

/-- Class `C < A` of the example: it declares `p` only. -/
def classC : Class :=
  { name := 67, index := 2, superclass := some 0, methodList := [{ name := 112 }] }

/-- The example program of the specification. -/
def exampleProgram : List Class := [classA, classB, classC]

/-- The state reached from `st` by the loop body for the class at position `i`. -/
def stateAfter (chk : Checks) (st : AnalysisState) (i : Nat) : AnalysisState :=
  match analyzeClassVti chk st i with
  | .ok st' => st'
  | .error _ => st

/-- A protocol with the single method named 0. -/
def protocolZero : Protocol := { name := 80, index := 2, methods := [{ name := 0 }] }

/-- A class without members and without superclass. -/
def rootClass : Class := { name := 79 }

/-- The class `rootClass` after the loop body. -/
def rootDone : Class := numberClass none rootClass

/-- The view that the subclasses of `rootClass` read. -/
def rootView : Super := superAt [rootDone] 0

/-- A subclass of the class at position 0 that declares the `k` methods named `0 .. k-1` and
conformance to `protocolZero`. -/
def manyMethods (k : Nat) : Class :=
  { name := 83, index := 1, superclass := some 0, protocols := [protocolZero]
    methodList := (List.range k).map fun j => { name := j } }

/-- The class `manyMethods k` after the loop body. -/
def manyDone (k : Nat) : Class := numberClass (some rootView) (manyMethods k)

/-- A subclass of the class at position 1 with two new methods. -/
def wrapSubclass : Class :=
  { name := 84, index := 2, superclass := some 1
    methodList := [{ name := 70000 }, { name := 70001 }] }

/-- A class without members, a subclass with 65535 methods, which fill all but one of the 65536
slots of a method table, and a subclass of that class with two new methods. -/
def wrapProgram : List Class := [rootClass, manyMethods 65535, wrapSubclass]

/-- The example program after the VTI pass. -/
def exampleFinal : AnalysisState :=
  match assignVtis exampleChecks exampleProgram with
  | .ok st => st
  | .error _ => { classes := [] }

/-- A subclass of `rootClass` with a required initializer (name 1) and a plain one (name 2). -/
def initS : Class :=
  { name := 83, index := 1, superclass := some 0
    initializerList := [{ name := 1, required := true }, { name := 2 }] }

/-- A subclass of `initS` that implements the required initializer 1, introduces the required
initializer 3 and declares the plain initializer 4. -/
def initT : Class :=
  { name := 84, index := 2, superclass := some 1
    initializerList := [{ name := 1, required := true, overriding := true },
      { name := 3, required := true }, { name := 4 }] }

/-- The classes `rootClass`, `initS` and `initT` in declaration order. -/
def initProgram : List Class := [rootClass, initS, initT]

/-- The program `initProgram` after `rootClass` and `initS` were processed. -/
def initAfterS : AnalysisState :=
  stateAfter exampleChecks (stateAfter exampleChecks { classes := initProgram } 0) 1

/-- A subclass of `rootClass` that declares one plain initializer (name 5). -/
def initV : Class :=
  { name := 86, index := 1, superclass := some 0, initializerList := [{ name := 5 }] }

/-- A subclass of `initV` without instance variables and without initializers. -/
def initW : Class := { name := 87, index := 2, superclass := some 1 }

/-- A subclass of `initV` that declares one plain initializer (name 6). -/
def initX : Class :=
  { name := 88, index := 3, superclass := some 1, initializerList := [{ name := 6 }] }

/-- The classes `rootClass`, `initV`, `initW` and `initX` in declaration order. -/
def inheritProgram : List Class := [rootClass, initV, initW, initX]

/-- The program `inheritProgram` after the VTI pass. -/
def inheritFinal : AnalysisState :=
  match assignVtis exampleChecks inheritProgram with
  | .ok st => st
  | .error _ => { classes := [] }

/-- A subclass of `initS` that introduces the required initializer 3 and implements the
required initializer 1 of its superclass without the required attribute. -/
def initY : Class :=
  { name := 89, index := 2, superclass := some 1
    initializerList := [{ name := 3, required := true }, { name := 1, overriding := true }] }

/-- The classes `rootClass`, `initS` and `initY` in declaration order. -/
def collisionProgram : List Class := [rootClass, initS, initY]

/-- The program `collisionProgram` after the VTI pass. -/
def collisionFinal : AnalysisState :=
  match assignVtis exampleChecks collisionProgram with
  | .ok st => st
  | .error _ => { classes := [] }

/-- The protocol `Eq` of the example of the specification: one method `equals` (name 101)
with one argument. -/
def protocolEq : Protocol :=
  { name := 69, index := 0, methods := [{ name := 101, arguments := [1], returnType := 2 }] }

/-- A protocol with the methods `size` (name 115, no argument) and `equals` (name 101). -/
def protocolSized : Protocol :=
  { name := 83, index := 1
    methods := [{ name := 115, returnType := 3 }, { name := 101, arguments := [1], returnType := 2 }] }

/-- Class `X` of the example: it conforms to `Eq` and implements `equals`. -/
def classX : Class :=
  { name := 88, index := 1, superclass := some 0, protocols := [protocolEq]
    methodList := [{ name := 120 }, { name := 101, arguments := [1], returnType := 2 }] }

/-- Class `Y` of the example: it conforms to `Eq` and omits `equals`. -/
def classY : Class := { name := 89, index := 2, superclass := some 0, protocols := [protocolEq] }

/-- A class that conforms to `protocolSized`, declares `size` with one argument too many and
omits `equals`. -/
def classZ : Class :=
  { name := 90, index := 3, superclass := some 0, protocols := [protocolSized]
    methodList := [{ name := 115, arguments := [1], returnType := 3 }] }

/-- A class that conforms to `Eq` and declares `equals` without an argument. -/
def classQ : Class :=
  { name := 81, index := 4, superclass := some 0, protocols := [protocolEq]
    methodList := [{ name := 101, returnType := 2 }] }

/-- A protocol without methods whose index does not fit into 16 bits. -/
def protocolBig : Protocol := { name := 66, index := 65536 }

/-- A class that conforms to `protocolBig`. -/
def classR : Class := { name := 82, index := 5, superclass := some 0, protocols := [protocolBig] }

/-- The class `rootClass` and five subclasses that declare a conformance, in declaration
order. -/
def protocolProgram : List Class := [rootClass, classX, classY, classZ, classQ, classR]

/-- The program `protocolProgram` after the VTI pass. -/
def protocolFinal : AnalysisState :=
  match assignVtis exampleChecks protocolProgram with
  | .ok st => st
  | .error _ => { classes := [] }

/-- The program `initProgram` after the VTI pass. -/
def initFinal : AnalysisState :=
  match assignVtis exampleChecks initProgram with
  | .ok st => st
  | .error _ => { classes := [] }

/-- The class `wrapSubclass` after the loop body, below a class with `k` methods. -/
def wrapDone (k : Nat) : Class :=
  numberClass (some (superAt [rootDone, manyDone k, wrapSubclass] 1)) wrapSubclass

/-- An environment for the examples: 🏁 is the code point 127937, three names are reserved, and
the integer type is the type 1. -/
def exampleEnv : ParserEnv :=
  { E_CHEQUERED_FLAG := 127937
    reservedEmojis := [127854, 127849, 127856]
    returnsInteger := fun t => t == 1 }

/-- The declaration of the class `initT`: a subclass of the class `initS` (name 83) with the
initializers 1 (required, overriding), 3 (required) and 4. -/
def declT : ClassDeclaration :=
  { name := 84
    superclass := some { name := 83 }
    body := [{ required := true, override := true, keyword := .E_CAT 1 [] },
      { required := true, keyword := .E_CAT 3 [] }, { keyword := .E_CAT 4 [] }] }

/-- A class with the required initializers 7, 3 and 5, declared in this order. -/
def initR : Class :=
  { name := 82, index := 1, superclass := some 0
    initializerList := [{ name := 7, required := true }, { name := 3, required := true },
      { name := 5, required := true }] }

/-- The declaration of a subclass of the class `initR` (name 82) that declares the initializer
5 and a method. -/
def declU : ClassDeclaration :=
  { name := 85
    superclass := some { name := 82 }
    body := [{ keyword := .E_PIG 109 [] 0 }, { required := true, keyword := .E_CAT 5 [] }] }

/-- A class that holds `k` instance variables. -/
def variableClass (k : Nat) : Class :=
  { name := 86, instanceVariables := List.replicate k { name := 1 } }

/-- The declaration of the instance variable 2 of type 0, without attributes. -/
def declVariable : BodyDeclaration := { keyword := .E_SHORTCAKE { name := 2 } }

/-- A subclass of the class at position 0 with two instance variables. -/
def variableSubclass : Class :=
  { name := 87, index := 1, superclass := some 0
    instanceVariables := [{ name := 2 }, { name := 3 }] }

/-- A class with `k` instance variables and a subclass with two instance variables. -/
def variableProgram (k : Nat) : List Class := [variableClass k, variableSubclass]

/-- A function analyser for the examples: it writes the name and the VTI of the procedure. -/
def exampleAnalyzer : FunctionAnalyzer :=
  { writeAndAnalyzeProcedure := fun p _ _ _ _ =>
      { written := [writeEmojicodeChar p.name, writeUInt16 p.vti] } }

/-- The greatest value of a 64-bit `uint_fast16_t`. -/
def exampleFastMax : Nat := 18446744073709551615

/-- Six classes: a class without members; a subclass with an instance variable, a method, a
required and a plain initializer; a subclass of that class; a subclass of the first class
without members; one that conforms to `protocolEq` and `protocolSized`; and a subclass of the
third class with one more instance variable. -/
def packProgram : List Class :=
  [rootClass,
   { name := 97, index := 1, superclass := some 0, instanceVariables := [{ name := 1 }]
     methodList := [{ name := 109 }]
     initializerList := [{ name := 1, required := true }, { name := 2 }] },
   { name := 98, index := 2, superclass := some 1
     instanceVariables := [{ name := 2 }, { name := 3 }]
     methodList := [{ name := 109, overriding := true }, { name := 110 }]
     initializerList := [{ name := 1, required := true, overriding := true }] },
   { name := 99, index := 3, superclass := some 0 },
   { name := 100, index := 4, superclass := some 0, protocols := [protocolEq, protocolSized]
     methodList := [{ name := 115, returnType := 3 },
       { name := 101, arguments := [1], returnType := 2 }] },
   { name := 101, index := 5, superclass := some 2, instanceVariables := [{ name := 4 }]
     initializerList := [{ name := 1, required := true, overriding := true }] }]

/-- The program `packProgram` after the VTI pass. -/
def packFinal : List Class :=
  match assignVtis exampleChecks packProgram with
  | .ok st => st.classes
  | .error _ => []

/-- A protocol without methods with the index 1. -/
def protocolOne : Protocol := { name := 70, index := 1 }

/-- A class that conforms to `protocolBig`, whose index is 65536, and to `protocolOne`. -/
def classWide : Class :=
  { name := 87, index := 1, superclass := some 0, protocols := [protocolBig, protocolOne] }

/-- The classes `rootClass` and `classWide`. -/
def wideProgram : List Class := [rootClass, classWide]

/-- The program `wideProgram` after the VTI pass. -/
def wideFinal : List Class :=
  match assignVtis exampleChecks wideProgram with
  | .ok st => st.classes
  | .error _ => []

/-- A package with the classes at the positions 0 and 1. -/
def packageA : Package := { name := [97], major := 1, classes := [0, 1] }

/-- A package with the classes at the positions 2 and 3. -/
def packageB : Package := { name := [98], minor := 2, requiresBinary := true, classes := [2, 3] }

/-- A package with the classes at the positions 4 and 5. -/
def packageC : Package := { name := [99], classes := [4, 5] }

/-- A package with the class at position 3 only. -/
def packageD : Package := { name := [100], classes := [3] }

/-- The analysis of the classes of `packProgram` in the examples. -/
def packAnalyze : Nat → Emit := analyzeClass exampleChecks exampleAnalyzer exampleFastMax packFinal

/-- A program with `k` packages without classes. -/
def emptyPackages (k : Nat) : List Package := List.replicate k { name := [] }

/-- The declaration of an enum with the members 5, 9 and 2. -/
def declEnum : EnumDeclaration := { name := 69, members := [5, 9, 2] }

/-- The declaration of an enum in which the member 5 is declared a second time. -/
def declEnumTwice : EnumDeclaration := { name := 70, members := [5, 9, 5, 2] }

/-- A state of the parser in which the class 79 and the enum 69 are registered. -/
def registryState : ParserState :=
  { classes := [rootClass]
    enums := [{ name := 69 }]
    types := [(79, { type := TypeType.TT_CLASS, eclass := 0 }), (69, { type := TypeType.TT_ENUM })]
    packageClasses := [0] }

/-- The declarations of three classes, the second a subclass of the first and the third a
subclass of the second, and of an extension of the second. -/
def chainDeclarations : List FileDeclaration :=
  [.E_RABBIT { name := 65 },
   .E_RABBIT { name := 66, superclass := some { name := 65 }
               body := [{ keyword := .E_SHORTCAKE { name := 1 } }] },
   .E_RABBIT { name := 67, superclass := some { name := 66 } },
   .E_WALE { name := 66, body := [{ keyword := .E_SHORTCAKE { name := 2 } }] }]

/-- The declarations of the classes of `collisionProgram`: the class 79, its subclass 83 with
the required initializer 1 and the initializer 2, and the subclass 89 of 83 with the required
initializer 3 and the initializer 1, declared as an override without the required attribute. -/
def collisionDeclarations : List FileDeclaration :=
  [.E_RABBIT { name := 79 },
   .E_RABBIT { name := 83, superclass := some { name := 79 }
               body := [{ required := true, keyword := .E_CAT 1 [] }, { keyword := .E_CAT 2 [] }] },
   .E_RABBIT { name := 89, superclass := some { name := 83 }
               body := [{ required := true, keyword := .E_CAT 3 [] },
                 { override := true, keyword := .E_CAT 1 [] }] }]

/-- A subclass of `rootClass` with the required initializer 1 and the initializers 2 and 5. -/
def initP : Class :=
  { name := 80, index := 1, superclass := some 0
    initializerList := [{ name := 1, required := true }, { name := 2 }, { name := 5 }] }

/-- A subclass of `initP` that implements the required initializer 1 and overrides the
initializer 5 with a required initializer. -/
def initQ : Class :=
  { name := 81, index := 2, superclass := some 1
    initializerList := [{ name := 1, required := true, overriding := true },
      { name := 5, required := true, overriding := true }] }

/-- The classes `rootClass`, `initP` and `initQ` in declaration order. -/
def overflowProgram : List Class := [rootClass, initP, initQ]

/-- The program `overflowProgram` after the VTI pass. -/
def overflowFinal : AnalysisState :=
  match assignVtis exampleChecks overflowProgram with
  | .ok st => st
  | .error _ => { classes := [] }

/-- The declaration of a 🏁 class method that returns the integer type. -/
def declFlag : BodyDeclaration := { staticOnType := true, keyword := .E_PIG 127937 [] 1 }

/-- The declaration of a 🏁 class method that returns another type than the integer type. -/
def declFlagOther : BodyDeclaration := { staticOnType := true, keyword := .E_PIG 127937 [] 0 }

/-- The declarations of a class 65 with the class method 7 and of a class 66 with the 🏁 class
method. -/
def flagDeclarations : List FileDeclaration :=
  [.E_RABBIT { name := 65, body := [{ staticOnType := true, keyword := .E_PIG 7 [] 0 }] },
   .E_RABBIT { name := 66, body := [declFlag] }]

/-- The package of the examples that holds the class at position 0 and the class at
position 1. -/
def flagPackage : Package := { name := [102], classes := [0, 1] }

/-- The declaration of one class without members: a program without 🏁 method. -/
def plainDeclarations : List FileDeclaration := [.E_RABBIT { name := 65 }]

/-- The state of the parser after the declarations `flagDeclarations`. -/
def flagState : ParserState :=
  match parseDeclarations exampleEnv flagDeclarations {} with
  | .ok st => st
  | .error _ => {}

/-- The classes of `flagState` after the VTI pass. -/
def flagFinal : AnalysisState :=
  match assignVtis exampleChecks flagState.classes with
  | .ok st => st
  | .error _ => { classes := [] }

theorem superLookup_snd (sup : Option Super) (sel : Super → EmojicodeChar → Option Procedure)
    (name : EmojicodeChar) : (superLookup sup sel name).2 = nullCallsOf sup 1 := by
  cases sup <;> rfl

theorem assignMemberVti_ok {chk : Checks} {sup : Option Super}
    {sel : Super → EmojicodeChar → Option Procedure} {m m' : Procedure} {st st' : Counter}
    (h : assignMemberVti chk sup sel m st = .ok (m', st')) :
    m' = { m with vti := memberVti (superFind sup sel) m st.next } ∧
    st' = { next := memberNext (superFind sup sel) m st.next
            nullCalls := st.nullCalls + nullCallsOf sup 1 } := by
  unfold assignMemberVti at h
  simp only [superLookup_snd] at h
  unfold memberVti memberNext superFind
  split at h
  · cases h
  · split at h
    · rename_i s hs
      split at h
      · cases h
      · simp only [Except.ok.injEq, Prod.mk.injEq] at h
        simp [hs, ← h.1, ← h.2]
    · rename_i hs
      simp only [Except.ok.injEq, Prod.mk.injEq] at h
      simp [hs, ← h.1, ← h.2]

theorem assignMemberVtis_ok {chk : Checks} {sup : Option Super}
    {sel : Super → EmojicodeChar → Option Procedure} :
    ∀ {ms ms' : List Procedure} {st st' : Counter},
      assignMemberVtis chk sup sel ms st = .ok (ms', st') →
      ms' = (numberMembers (superFind sup sel) ms st.next).1 ∧
      st' = { next := (numberMembers (superFind sup sel) ms st.next).2
              nullCalls := st.nullCalls + nullCallsOf sup ms.length }
  | [], ms', st, st', h => by
    simp only [assignMemberVtis, Except.ok.injEq, Prod.mk.injEq] at h
    cases sup <;> simp [numberMembers, nullCallsOf, ← h.1, ← h.2]
  | m :: ms, ms', st, st', h => by
    simp only [assignMemberVtis] at h
    split at h
    · cases h
    · rename_i m1 st1 h1
      split at h
      · cases h
      · rename_i ms2 st2 h2
        simp only [Except.ok.injEq, Prod.mk.injEq] at h
        obtain ⟨hm, hst⟩ := assignMemberVti_ok h1
        obtain ⟨hms, hst2⟩ := assignMemberVtis_ok h2
        subst hm hst hms hst2
        obtain ⟨ha, hb⟩ := h
        subst ha hb
        refine ⟨rfl, ?_⟩
        simp only [List.length_cons, numberMembers, Counter.mk.injEq, true_and]
        cases sup <;> simp only [nullCallsOf] <;> omega

theorem assignInitializerVti_ok {chk : Checks} {sup : Option Super} {ini ini' : Procedure}
    {st st' : InitCounter} (h : assignInitializerVti chk sup ini st = .ok (ini', st')) :
    ini' = { ini with vti := initializerVti (superFind sup fun s => s.lookupInitializer) ini
                        st.next st.subRequired } ∧
    st' = { next := initializerNext ini st.next
            subRequired := initializerSub (superFind sup fun s => s.lookupInitializer) ini
                        st.subRequired
            nullCalls := st.nullCalls + nullCallsOf sup 1 } := by
  unfold assignInitializerVti at h
  simp only [superLookup_snd] at h
  unfold initializerVti initializerNext initializerSub superFind
  split at h
  · cases h
  · split at h
    · rename_i hreq
      split at h
      · rename_i s hs
        split at h
        · cases h
        · simp only [Except.ok.injEq, Prod.mk.injEq] at h
          simp [hs, hreq, ← h.1, ← h.2]
      · rename_i hs
        simp only [Except.ok.injEq, Prod.mk.injEq] at h
        simp [hs, hreq, ← h.1, ← h.2]
    · rename_i hreq
      simp only [Except.ok.injEq, Prod.mk.injEq] at h
      simp [hreq, ← h.1, ← h.2]

theorem assignInitializerVtis_ok {chk : Checks} {sup : Option Super} :
    ∀ {inis inis' : List Procedure} {st st' : InitCounter},
      assignInitializerVtis chk sup inis st = .ok (inis', st') →
      inis' = (numberInitializers (superFind sup fun s => s.lookupInitializer) inis
                st.next st.subRequired).1 ∧
      st' = { next := (numberInitializers (superFind sup fun s => s.lookupInitializer) inis
                st.next st.subRequired).2.1
              subRequired := (numberInitializers (superFind sup fun s => s.lookupInitializer) inis
                st.next st.subRequired).2.2
              nullCalls := st.nullCalls + nullCallsOf sup inis.length }
  | [], inis', st, st', h => by
    simp only [assignInitializerVtis, Except.ok.injEq, Prod.mk.injEq] at h
    cases sup <;> simp [numberInitializers, nullCallsOf, ← h.1, ← h.2]
  | ini :: rest, inis', st, st', h => by
    simp only [assignInitializerVtis] at h
    split at h
    · cases h
    · rename_i i1 st1 h1
      split at h
      · cases h
      · rename_i r2 st2 h2
        simp only [Except.ok.injEq, Prod.mk.injEq] at h
        obtain ⟨hm, hst⟩ := assignInitializerVti_ok h1
        obtain ⟨hms, hst2⟩ := assignInitializerVtis_ok h2
        subst hm hst hms hst2
        obtain ⟨ha, hb⟩ := h
        subst ha hb
        refine ⟨rfl, ?_⟩
        simp only [List.length_cons, numberInitializers, InitCounter.mk.injEq, true_and]
        cases sup <;> simp only [nullCallsOf] <;> omega

theorem decideInheritance_lists (c : Class) :
    (decideInheritance c).methodList = c.methodList ∧
    (decideInheritance c).classMethodList = c.classMethodList ∧
    (decideInheritance c).initializerList = c.initializerList ∧
    (decideInheritance c).instanceVariables = c.instanceVariables ∧
    (decideInheritance c).superclass = c.superclass ∧
    (decideInheritance c).name = c.name ∧
    (decideInheritance c).index = c.index ∧
    (decideInheritance c).protocols = c.protocols := by
  unfold decideInheritance
  split <;> simp

theorem seedCounters_lists (sup : Option Super) (c : Class) :
    (seedCounters sup c).methodList = c.methodList ∧
    (seedCounters sup c).classMethodList = c.classMethodList ∧
    (seedCounters sup c).initializerList = c.initializerList ∧
    (seedCounters sup c).instanceVariables = c.instanceVariables ∧
    (seedCounters sup c).superclass = c.superclass ∧
    (seedCounters sup c).name = c.name ∧
    (seedCounters sup c).index = c.index ∧
    (seedCounters sup c).protocols = c.protocols ∧
    (seedCounters sup c).inheritsContructors = c.inheritsContructors := by
  unfold seedCounters
  cases sup <;> simp

theorem assignClassVti_ok {chk : Checks} {sup : Option Super} {c c' : Class} {n : Nat}
    (h : assignClassVti chk sup c = .ok (c', n)) :
    c' = numberClass sup c ∧ n = nullCallsOf sup (memberCount c) := by
  unfold assignClassVti at h
  simp only at h
  split at h
  · cases h
  · rename_i ms mst hm
    split at h
    · cases h
    · rename_i cms cst hc
      split at h
      · cases h
      · rename_i inis ist hi
        obtain ⟨h1, h2⟩ := assignMemberVtis_ok hm
        obtain ⟨h3, h4⟩ := assignMemberVtis_ok hc
        obtain ⟨h5, h6⟩ := assignInitializerVtis_ok hi
        simp only [Except.ok.injEq, Prod.mk.injEq] at h
        obtain ⟨ha, hb⟩ := h
        subst h1 h2 h3 h4 h5 h6 ha hb
        refine ⟨rfl, ?_⟩
        have hl := seedCounters_lists sup (decideInheritance c)
        have hd := decideInheritance_lists c
        simp only [hl.1, hl.2.1, hl.2.2.1, hd.1, hd.2.1, hd.2.2.1, memberCount]
        cases sup <;> simp [nullCallsOf, Nat.add_assoc]

theorem numberMembers_signatures (lk : EmojicodeChar → Option Procedure) :
    ∀ (ms : List Procedure) (n : Nat),
      (numberMembers lk ms n).1.map (fun m => m.toSignature) = ms.map (fun m => m.toSignature)
  | [], _ => rfl
  | m :: ms, n => by
    simp only [numberMembers, List.map_cons]
    rw [numberMembers_signatures lk ms]

theorem numberMembers_of_signatures (lk : EmojicodeChar → Option Procedure) :
    ∀ (ms ms2 : List Procedure) (n : Nat),
      ms.map (fun m => m.toSignature) = ms2.map (fun m => m.toSignature) →
      numberMembers lk ms n = numberMembers lk ms2 n
  | [], [], _, _ => rfl
  | [], _ :: _, _, h => by simp at h
  | _ :: _, [], _, h => by simp at h
  | m :: ms, m2 :: ms2, n, h => by
    simp only [List.map_cons, List.cons.injEq] at h
    have hn : m.name = m2.name := congrArg Signature.name h.1
    simp only [numberMembers, memberVti, memberNext, hn, h.1]
    rw [numberMembers_of_signatures lk ms ms2 _ h.2]

theorem numberMembers_found (lk : EmojicodeChar → Option Procedure) :
    ∀ (ms : List Procedure) (n : Nat) (m : Procedure), m ∈ (numberMembers lk ms n).1 →
      ∀ s, lk m.name = some s → m.vti = s.vti
  | [], _, m, h => by simp [numberMembers] at h
  | m0 :: ms, n, m, h => by
    intro s hs
    simp only [numberMembers, List.mem_cons] at h
    rcases h with h | h
    · subst h
      simp only at hs
      simp [memberVti, hs]
    · exact numberMembers_found lk ms _ m h s hs

theorem numberMembers_next (lk : EmojicodeChar → Option Procedure) :
    ∀ (ms : List Procedure) (n : Nat), n < UINT16 →
      (numberMembers lk ms n).2 = (n + (freshMembers lk ms).length) % UINT16
  | [], n, hn => by simp [numberMembers, freshMembers, Nat.mod_eq_of_lt hn]
  | m :: ms, n, hn => by
    simp only [numberMembers, freshMembers, List.filter_cons]
    cases hl : lk m.name with
    | some s =>
      simp only [memberNext, hl, Option.isNone_some, Bool.false_eq_true, if_false]
      exact numberMembers_next lk ms n hn
    | none =>
      have hlt : (n + 1) % UINT16 < UINT16 := Nat.mod_lt _ (by decide)
      simp only [memberNext, hl, Option.isNone_none, if_true, List.length_cons]
      rw [numberMembers_next lk ms _ hlt, freshMembers, Nat.mod_add_mod]
      congr 1
      omega

theorem numberMembers_next_lt (lk : EmojicodeChar → Option Procedure)
    (ms : List Procedure) (n : Nat) (hn : n < UINT16) : (numberMembers lk ms n).2 < UINT16 := by
  rw [numberMembers_next lk ms n hn]
  exact Nat.mod_lt _ (by decide)

theorem numberMembers_fresh (lk : EmojicodeChar → Option Procedure) :
    ∀ (ms : List Procedure) (n : Nat), n < UINT16 →
      (freshMembers lk (numberMembers lk ms n).1).map (fun m => m.vti) =
        (List.range (freshMembers lk ms).length).map fun j => (n + j) % UINT16
  | [], n, _ => by simp [numberMembers, freshMembers]
  | m :: ms, n, hn => by
    simp only [numberMembers, freshMembers, List.filter_cons]
    cases hl : lk m.name with
    | some s =>
      simp only [memberNext, hl, Option.isNone_some, Bool.false_eq_true, if_false]
      exact numberMembers_fresh lk ms n hn
    | none =>
      have hlt : (n + 1) % UINT16 < UINT16 := Nat.mod_lt _ (by decide)
      have ih := numberMembers_fresh lk ms _ hlt
      simp only [freshMembers] at ih
      simp only [memberNext, memberVti, hl, Option.isNone_none, if_true, List.length_cons,
        List.map_cons, ih, List.range_succ_eq_map, List.map_map, Nat.add_zero,
        Nat.mod_eq_of_lt hn, List.cons.injEq, true_and]
      apply List.map_congr_left
      intro j _
      simp only [Function.comp, Nat.mod_add_mod]
      congr 1
      omega

/-! ## The class list during the pass -/

theorem superclassesFirst_lt {cs : List Class} (h : superclassesFirst cs = true) {i s : Nat}
    {c : Class} (hc : cs[i]? = some c) (hs : c.superclass = some s) : s < i := by
  have hi : i < cs.length := by
    rcases Nat.lt_or_ge i cs.length with h1 | h1
    · exact h1
    · rw [List.getElem?_eq_none h1] at hc
      cases hc
  unfold superclassesFirst at h
  rw [List.all_eq_true] at h
  have := h i (List.mem_range.mpr hi)
  simp only [hc, hs, decide_eq_true_eq] at this
  exact this

theorem superclassesFirst_of_forall {cs : List Class}
    (h : ∀ (i s : Nat) (c : Class), cs[i]? = some c → c.superclass = some s → s < i) :
    superclassesFirst cs = true := by
  unfold superclassesFirst
  rw [List.all_eq_true]
  intro i _
  cases hc : cs[i]? with
  | none => rfl
  | some c =>
    cases hs : c.superclass with
    | none => simp [hs]
    | some s => simpa [hs] using h i s c hc hs

theorem lookupIn_set_of_lt (table : Class → List Procedure) {cs : List Class}
    (hwf : superclassesFirst cs = true) (i : Nat) (c' : Class) :
    ∀ (fuel j : Nat) (name : EmojicodeChar), j < i →
      lookupIn table (cs.set i c') fuel j name = lookupIn table cs fuel j name
  | 0, _, _, _ => rfl
  | fuel + 1, j, name, hj => by
    have hne : i ≠ j := by omega
    simp only [lookupIn, List.getElem?_set_ne hne]
    cases hc : cs[j]? with
    | none => rfl
    | some c =>
      simp only
      cases findByName (table c) name with
      | some p => rfl
      | none =>
        simp only
        cases hs : c.superclass with
        | none => rfl
        | some s =>
          simp only
          exact lookupIn_set_of_lt table hwf i c' fuel s name
            (Nat.lt_trans (superclassesFirst_lt hwf hc hs) hj)

theorem superAt_set_of_lt {cs : List Class} (hwf : superclassesFirst cs = true) (i : Nat)
    (c' : Class) (s : Nat) (hs : s < i) : superAt (cs.set i c') s = superAt cs s := by
  have hne : i ≠ s := by omega
  have hget : (cs.set i c').getD s { name := 0 } = cs.getD s { name := 0 } := by
    simp [List.getD_eq_getElem?_getD, List.getElem?_set_ne hne]
  unfold superAt
  simp only [hget, Super.mk.injEq, true_and]
  refine ⟨?_, ?_, ?_⟩ <;> funext name
  · simp only [lookupMethod, List.length_set]
    exact lookupIn_set_of_lt _ hwf i c' _ s name hs
  · simp only [lookupClassMethod, List.length_set]
    exact lookupIn_set_of_lt _ hwf i c' _ s name hs
  · simp only [lookupInitializer, List.length_set]
    exact lookupIn_set_of_lt _ hwf i c' _ s name hs

theorem numberClass_static (sup : Option Super) (c : Class) :
    (numberClass sup c).superclass = c.superclass ∧
    (numberClass sup c).name = c.name ∧
    (numberClass sup c).index = c.index ∧
    (numberClass sup c).protocols = c.protocols ∧
    (numberClass sup c).instanceVariables = c.instanceVariables := by
  have hl := seedCounters_lists sup (decideInheritance c)
  have hd := decideInheritance_lists c
  simp only [numberClass]
  refine ⟨?_, ?_, ?_, ?_, ?_⟩
  · rw [hl.2.2.2.2.1, hd.2.2.2.2.1]
  · rw [hl.2.2.2.2.2.1, hd.2.2.2.2.2.1]
  · rw [hl.2.2.2.2.2.2.1, hd.2.2.2.2.2.2.1]
  · rw [hl.2.2.2.2.2.2.2.1, hd.2.2.2.2.2.2.2]
  · rw [hl.2.2.2.1, hd.2.2.2.1]

theorem numberClass_methodList (sup : Option Super) (c : Class) :
    (numberClass sup c).methodList =
      (numberMembers (superFind sup fun s => s.lookupMethod) c.methodList
        (seedCounters sup (decideInheritance c)).nextMethodVti).1 := by
  have hl := seedCounters_lists sup (decideInheritance c)
  have hd := decideInheritance_lists c
  simp only [numberClass, hl.1, hd.1]

theorem numberClass_classMethodList (sup : Option Super) (c : Class) :
    (numberClass sup c).classMethodList =
      (numberMembers (superFind sup fun s => s.lookupClassMethod) c.classMethodList
        (seedCounters sup (decideInheritance c)).nextClassMethodVti).1 := by
  have hl := seedCounters_lists sup (decideInheritance c)
  have hd := decideInheritance_lists c
  simp only [numberClass, hl.2.1, hd.2.1]

theorem numberClass_nextMethodVti (sup : Option Super) (c : Class) :
    (numberClass sup c).nextMethodVti =
      (numberMembers (superFind sup fun s => s.lookupMethod) c.methodList
        (seedCounters sup (decideInheritance c)).nextMethodVti).2 := by
  have hl := seedCounters_lists sup (decideInheritance c)
  have hd := decideInheritance_lists c
  simp only [numberClass, hl.1, hd.1]

theorem analyzeClassVti_ok {chk : Checks} {st st' : AnalysisState} {i : Nat} {c : Class}
    (hc : st.classes[i]? = some c) (h : analyzeClassVti chk st i = .ok st') :
    st' = { classes := st.classes.set i (numberClass (superOf st.classes c) c)
            nullCalls := st.nullCalls + nullCallsOf (superOf st.classes c) (memberCount c) } := by
  unfold analyzeClassVti at h
  simp only [hc] at h
  split at h
  · cases h
  · rename_i c' n hcl
    obtain ⟨h1, h2⟩ := assignClassVti_ok hcl
    subst h1 h2
    simp only [Except.ok.injEq] at h
    exact h.symm

theorem assignMemberVti_of_pass {chk : Checks} {sup : Option Super}
    {sel : Super → EmojicodeChar → Option Procedure} {m : Procedure} (st : Counter)
    (h1 : chk.checkOverride m.toSignature
      ((superFind sup sel m.name).map fun p => p.toSignature) = none)
    (h2 : ∀ s, superFind sup sel m.name = some s →
      chk.checkPromises m.toSignature s.toSignature = none) :
    assignMemberVti chk sup sel m st =
      .ok ({ m with vti := memberVti (superFind sup sel) m st.next },
           { next := memberNext (superFind sup sel) m st.next
             nullCalls := st.nullCalls + nullCallsOf sup 1 }) := by
  unfold superFind at h1 h2
  unfold assignMemberVti memberVti memberNext superFind
  simp only [superLookup_snd, h1]
  cases hl : (superLookup sup sel m.name).1 with
  | none => rfl
  | some s => simp only [h2 s hl]

theorem assignMemberVtis_of_pass {chk : Checks} {sup : Option Super}
    {sel : Super → EmojicodeChar → Option Procedure} :
    ∀ (ms : List Procedure) (st : Counter), membersPass chk (superFind sup sel) ms →
      assignMemberVtis chk sup sel ms st =
        .ok ((numberMembers (superFind sup sel) ms st.next).1,
             { next := (numberMembers (superFind sup sel) ms st.next).2
               nullCalls := st.nullCalls + nullCallsOf sup ms.length })
  | [], st, _ => by cases sup <;> simp [assignMemberVtis, numberMembers, nullCallsOf]
  | m :: ms, st, h => by
    have hm := h m (List.mem_cons_self _ _)
    have hms : membersPass chk (superFind sup sel) ms :=
      fun x hx => h x (List.mem_cons_of_mem _ hx)
    simp only [assignMemberVtis, assignMemberVti_of_pass st hm.1 hm.2,
      assignMemberVtis_of_pass ms _ hms, numberMembers, List.length_cons, Except.ok.injEq,
      Prod.mk.injEq, Counter.mk.injEq, true_and]
    cases sup <;> simp only [nullCallsOf] <;> omega

theorem assignInitializerVti_of_pass {chk : Checks} {sup : Option Super} {ini : Procedure}
    (st : InitCounter)
    (h1 : chk.checkOverride ini.toSignature
      ((superFind sup (fun s => s.lookupInitializer) ini.name).map fun p => p.toSignature) = none)
    (h2 : ini.required = true → ∀ s, superFind sup (fun s => s.lookupInitializer) ini.name = some s →
      chk.checkPromises ini.toSignature s.toSignature = none) :
    assignInitializerVti chk sup ini st =
      .ok ({ ini with vti := initializerVti (superFind sup fun s => s.lookupInitializer) ini
                        st.next st.subRequired },
           { next := initializerNext ini st.next
             subRequired := initializerSub (superFind sup fun s => s.lookupInitializer) ini
                        st.subRequired
             nullCalls := st.nullCalls + nullCallsOf sup 1 }) := by
  unfold superFind at h1 h2
  unfold assignInitializerVti initializerVti initializerNext initializerSub superFind
  simp only [superLookup_snd, h1]
  cases hr : ini.required with
  | false => simp
  | true =>
    cases hl : (superLookup sup (fun s => s.lookupInitializer) ini.name).1 with
    | none => simp
    | some s => simp [h2 hr s hl]

theorem assignInitializerVtis_of_pass {chk : Checks} {sup : Option Super} :
    ∀ (inis : List Procedure) (st : InitCounter),
      initializersPass chk (superFind sup fun s => s.lookupInitializer) inis →
      assignInitializerVtis chk sup inis st =
        .ok ((numberInitializers (superFind sup fun s => s.lookupInitializer) inis
                st.next st.subRequired).1,
             { next := (numberInitializers (superFind sup fun s => s.lookupInitializer) inis
                st.next st.subRequired).2.1
               subRequired := (numberInitializers (superFind sup fun s => s.lookupInitializer)
                inis st.next st.subRequired).2.2
               nullCalls := st.nullCalls + nullCallsOf sup inis.length })
  | [], st, _ => by cases sup <;> simp [assignInitializerVtis, numberInitializers, nullCallsOf]
  | m :: ms, st, h => by
    have hm := h m (List.mem_cons_self _ _)
    have hms : initializersPass chk (superFind sup fun s => s.lookupInitializer) ms :=
      fun x hx => h x (List.mem_cons_of_mem _ hx)
    simp only [assignInitializerVtis, assignInitializerVti_of_pass st hm.1 hm.2,
      assignInitializerVtis_of_pass ms _ hms, numberInitializers, List.length_cons,
      Except.ok.injEq, Prod.mk.injEq, InitCounter.mk.injEq, true_and]
    cases sup <;> simp only [nullCallsOf] <;> omega

theorem assignClassVti_of_pass {chk : Checks} {sup : Option Super} {c : Class}
    (h : classPasses chk sup c) :
    assignClassVti chk sup c = .ok (numberClass sup c, nullCallsOf sup (memberCount c)) := by
  have hl := seedCounters_lists sup (decideInheritance c)
  have hd := decideInheritance_lists c
  obtain ⟨h1, h2, h3⟩ := h
  unfold assignClassVti
  simp only [hl.1, hl.2.1, hl.2.2.1, hd.1, hd.2.1, hd.2.2.1, assignMemberVtis_of_pass _ _ h1,
    assignMemberVtis_of_pass _ _ h2, assignInitializerVtis_of_pass _ _ h3, numberClass,
    memberCount, Except.ok.injEq, Prod.mk.injEq, true_and]
  cases sup <;> simp [nullCallsOf, Nat.add_assoc]

theorem assignMemberVti_passes {chk : Checks} {sup : Option Super}
    {sel : Super → EmojicodeChar → Option Procedure} {m : Procedure} {st : Counter}
    {r : Procedure × Counter} (h : assignMemberVti chk sup sel m st = .ok r) :
    chk.checkOverride m.toSignature ((superFind sup sel m.name).map fun p => p.toSignature) = none ∧
    ∀ s, superFind sup sel m.name = some s →
      chk.checkPromises m.toSignature s.toSignature = none := by
  unfold assignMemberVti at h
  unfold superFind
  simp only at h
  split at h
  · cases h
  · rename_i h1
    refine ⟨h1, ?_⟩
    intro s hs
    simp only [hs] at h
    split at h
    · cases h
    · assumption

theorem assignMemberVtis_passes {chk : Checks} {sup : Option Super}
    {sel : Super → EmojicodeChar → Option Procedure} :
    ∀ {ms : List Procedure} {st : Counter} {r : List Procedure × Counter},
      assignMemberVtis chk sup sel ms st = .ok r → membersPass chk (superFind sup sel) ms
  | [], _, _, _ => by intro m hm; cases hm
  | m :: ms, st, r, h => by
    simp only [assignMemberVtis] at h
    split at h
    · cases h
    · rename_i m1 st1 h1
      split at h
      · cases h
      · rename_i ms2 st2 h2
        intro x hx
        rcases List.mem_cons.mp hx with hx | hx
        · subst hx
          exact assignMemberVti_passes h1
        · exact assignMemberVtis_passes h2 x hx

theorem assignInitializerVti_passes {chk : Checks} {sup : Option Super} {ini : Procedure}
    {st : InitCounter} {r : Procedure × InitCounter}
    (h : assignInitializerVti chk sup ini st = .ok r) :
    chk.checkOverride ini.toSignature
      ((superFind sup (fun s => s.lookupInitializer) ini.name).map fun p => p.toSignature) = none ∧
    (ini.required = true → ∀ s, superFind sup (fun s => s.lookupInitializer) ini.name = some s →
      chk.checkPromises ini.toSignature s.toSignature = none) := by
  unfold assignInitializerVti at h
  unfold superFind
  simp only at h
  split at h
  · cases h
  · rename_i h1
    refine ⟨h1, ?_⟩
    intro hr s hs
    simp only [hr, hs, if_true] at h
    split at h
    · cases h
    · assumption

theorem assignInitializerVtis_passes {chk : Checks} {sup : Option Super} :
    ∀ {inis : List Procedure} {st : InitCounter} {r : List Procedure × InitCounter},
      assignInitializerVtis chk sup inis st = .ok r →
      initializersPass chk (superFind sup fun s => s.lookupInitializer) inis
  | [], _, _, _ => by intro m hm; cases hm
  | m :: ms, st, r, h => by
    simp only [assignInitializerVtis] at h
    split at h
    · cases h
    · rename_i m1 st1 h1
      split at h
      · cases h
      · rename_i ms2 st2 h2
        intro x hx
        rcases List.mem_cons.mp hx with hx | hx
        · subst hx
          exact assignInitializerVti_passes h1
        · exact assignInitializerVtis_passes h2 x hx

theorem assignClassVti_passes {chk : Checks} {sup : Option Super} {c : Class}
    {r : Class × Nat} (h : assignClassVti chk sup c = .ok r) : classPasses chk sup c := by
  have hl := seedCounters_lists sup (decideInheritance c)
  have hd := decideInheritance_lists c
  unfold assignClassVti at h
  simp only [hl.1, hl.2.1, hl.2.2.1, hd.1, hd.2.1, hd.2.2.1] at h
  split at h
  · cases h
  · rename_i ms mst hm
    split at h
    · cases h
    · rename_i cms cst hc
      split at h
      · cases h
      · rename_i inis ist hi
        exact ⟨assignMemberVtis_passes hm, assignMemberVtis_passes hc,
          assignInitializerVtis_passes hi⟩

theorem classPasses_root {chk : Checks} (hover : ∀ a, chk.checkOverride a none = none)
    (c : Class) : classPasses chk none c := by
  refine ⟨?_, ?_, ?_⟩
  · intro m _
    exact ⟨hover _, fun s hs => by cases hs⟩
  · intro m _
    exact ⟨hover _, fun s hs => by cases hs⟩
  · intro m _
    exact ⟨hover _, fun _ s hs => by cases hs⟩

theorem membersPass_fresh {chk : Checks} (hover : ∀ a, chk.checkOverride a none = none)
    (lk : EmojicodeChar → Option Procedure) (ms : List Procedure)
    (h : ∀ m ∈ ms, lk m.name = none) : membersPass chk lk ms := by
  intro m hm
  rw [h m hm]
  exact ⟨hover _, fun s hs => by cases hs⟩

theorem findByName_eq_none {table : List Procedure} {name : EmojicodeChar} :
    findByName table name = none ↔ ∀ p ∈ table, p.name ≠ name := by
  simp [findByName, List.find?_eq_none]

theorem numberMembers_names (lk : EmojicodeChar → Option Procedure) (ms : List Procedure)
    (n : Nat) : (numberMembers lk ms n).1.map (fun m => m.name) = ms.map fun m => m.name := by
  have h := congrArg (List.map Signature.name) (numberMembers_signatures lk ms n)
  simpa [List.map_map, Function.comp] using h

theorem findByName_numberMembers_none (lk : EmojicodeChar → Option Procedure)
    (ms : List Procedure) (n : Nat) (name : EmojicodeChar) (h : findByName ms name = none) :
    findByName (numberMembers lk ms n).1 name = none := by
  rw [findByName_eq_none] at h ⊢
  intro p hp
  have hmem : p.name ∈ (numberMembers lk ms n).1.map fun m => m.name :=
    List.mem_map.mpr ⟨p, hp, rfl⟩
  rw [numberMembers_names] at hmem
  obtain ⟨q, hq, hqn⟩ := List.mem_map.mp hmem
  rw [← hqn]
  exact h q hq

theorem freshMembers_of_forall (lk : EmojicodeChar → Option Procedure) (ms : List Procedure)
    (h : ∀ m ∈ ms, lk m.name = none) : freshMembers lk ms = ms := by
  unfold freshMembers
  rw [List.filter_eq_self]
  intro m hm
  simp [h m hm]

theorem analyzeClassVti_of_pass {chk : Checks} {st : AnalysisState} {i : Nat} {c : Class}
    (hc : st.classes[i]? = some c) (h : classPasses chk (superOf st.classes c) c) :
    analyzeClassVti chk st i =
      .ok { classes := st.classes.set i (numberClass (superOf st.classes c) c)
            nullCalls := st.nullCalls + nullCallsOf (superOf st.classes c) (memberCount c) } := by
  unfold analyzeClassVti
  simp only [hc, assignClassVti_of_pass h]

theorem superFind_some (v : Super) (sel : Super → EmojicodeChar → Option Procedure) :
    superFind (some v) sel = sel v := rfl

theorem superAt_nextMethodVti {cs : List Class} {s : Nat} {sc : Class} (h : cs[s]? = some sc) :
    (superAt cs s).nextMethodVti = sc.nextMethodVti ∧
    (superAt cs s).nextClassMethodVti = sc.nextClassMethodVti ∧
    (superAt cs s).nextInitializerVti = sc.nextInitializerVti ∧
    (superAt cs s).requiredInitializerCount = sc.requiredInitializers.length := by
  simp [superAt, List.getD_eq_getElem?_getD, h]

theorem getElem?_lt_length {cs : List Class} {i : Nat} {c : Class} (hc : cs[i]? = some c) :
    i < cs.length := by
  rcases Nat.lt_or_ge i cs.length with h1 | h1
  · exact h1
  · rw [List.getElem?_eq_none h1] at hc
    cases hc

/-! ## Claims -/

theorem exampleChecks_override (a : Signature) (b : Option Signature) :
    exampleChecks.checkOverride a b = none := rfl

theorem manyMethods_methodList (k : Nat) :
    (manyMethods k).methodList = (List.range k).map fun j => { name := j } := rfl

theorem numberInitializers_signatures (lk : EmojicodeChar → Option Procedure) :
    ∀ (ms : List Procedure) (n k : Nat),
      (numberInitializers lk ms n k).1.map (fun m => m.toSignature) =
        ms.map (fun m => m.toSignature)
  | [], _, _ => rfl
  | m :: ms, n, k => by
    simp only [numberInitializers, List.map_cons]
    rw [numberInitializers_signatures lk ms]

theorem numberInitializers_of_signatures (lk : EmojicodeChar → Option Procedure) :
    ∀ (ms ms2 : List Procedure) (n k : Nat),
      ms.map (fun m => m.toSignature) = ms2.map (fun m => m.toSignature) →
      numberInitializers lk ms n k = numberInitializers lk ms2 n k
  | [], [], _, _, _ => rfl
  | [], _ :: _, _, _, h => by simp at h
  | _ :: _, [], _, _, h => by simp at h
  | m :: ms, m2 :: ms2, n, k, h => by
    simp only [List.map_cons, List.cons.injEq] at h
    have hn : m.name = m2.name := congrArg Signature.name h.1
    have hr : m.required = m2.required := congrArg Signature.required h.1
    simp only [numberInitializers, initializerVti, initializerNext, initializerSub, hn, hr, h.1]
    rw [numberInitializers_of_signatures lk ms ms2 _ _ h.2]

theorem requiredInitializers_of_signatures (c c2 : Class)
    (h : c.initializerList.map (fun m => m.toSignature) =
      c2.initializerList.map (fun m => m.toSignature)) :
    c.requiredInitializers = c2.requiredInitializers := by
  have key : ∀ (l : List Procedure),
      (l.filter (fun i => i.required)).map (fun i => i.name) =
        ((l.map fun m => m.toSignature).filter (fun g => g.required)).map (fun g => g.name) := by
    intro l
    induction l with
    | nil => rfl
    | cons a l ih =>
      simp only [List.filter_cons, List.map_cons]
      cases a.required <;> simp [ih]
  unfold Class.requiredInitializers
  rw [key, key, h]

theorem numberClass_eq (sup : Option Super) (c : Class) :
    numberClass sup c =
      { name := c.name
        index := c.index
        superclass := c.superclass
        inheritsContructors := inheritFlag c
        instanceVariables := c.instanceVariables
        methodList := (numberMembers (superFind sup fun s => s.lookupMethod) c.methodList
          (seedMethod sup)).1
        initializerList := (numberInitializers (superFind sup fun s => s.lookupInitializer)
          c.initializerList
          ((seedInitializer sup (inheritFlag c) + c.requiredInitializers.length) % UINT16)
          (subRequiredStart sup)).1
        classMethodList := (numberMembers (superFind sup fun s => s.lookupClassMethod)
          c.classMethodList (seedClassMethod sup)).1
        protocols := c.protocols
        nextMethodVti := (numberMembers (superFind sup fun s => s.lookupMethod) c.methodList
          (seedMethod sup)).2
        nextClassMethodVti := (numberMembers (superFind sup fun s => s.lookupClassMethod)
          c.classMethodList (seedClassMethod sup)).2
        nextInitializerVti := (numberInitializers (superFind sup fun s => s.lookupInitializer)
          c.initializerList
          ((seedInitializer sup (inheritFlag c) + c.requiredInitializers.length) % UINT16)
          (subRequiredStart sup)).2.1 } := by
  unfold numberClass seedCounters decideInheritance inheritFlag seedMethod seedClassMethod
    seedInitializer Class.requiredInitializers
  by_cases h : c.instanceVariables.length = 0 ∧ c.initializerList.length = 0
  · rw [if_pos h, if_pos h]
    cases sup <;> rfl
  · rw [if_neg h, if_neg h]
    cases sup <;> rfl

theorem numberClass_initializerList (sup : Option Super) (c : Class) :
    (numberClass sup c).initializerList.map (fun m => m.toSignature) =
      c.initializerList.map (fun m => m.toSignature) := by
  rw [numberClass_eq]
  exact numberInitializers_signatures _ _ _ _

theorem numberClass_inheritFlag (sup : Option Super) (c : Class) :
    inheritFlag (numberClass sup c) = inheritFlag c := by
  have hlen : (numberClass sup c).initializerList.length = c.initializerList.length := by
    have := congrArg List.length (numberClass_initializerList sup c)
    simpa using this
  have hiv := (numberClass_static sup c).2.2.2.2
  have hfl : (numberClass sup c).inheritsContructors = inheritFlag c := by
    rw [numberClass_eq]
  unfold inheritFlag at hfl ⊢
  rw [hlen, hiv, hfl]
  split <;> rfl

theorem numberClass_idem (sup : Option Super) (c : Class) :
    numberClass sup (numberClass sup c) = numberClass sup c := by
  have e1 := numberClass_eq sup (numberClass sup c)
  have hs := numberClass_static sup c
  have hm : (numberClass sup c).methodList.map (fun m => m.toSignature) =
      c.methodList.map (fun m => m.toSignature) := by
    rw [numberClass_methodList, numberMembers_signatures]
  have hc : (numberClass sup c).classMethodList.map (fun m => m.toSignature) =
      c.classMethodList.map (fun m => m.toSignature) := by
    rw [numberClass_classMethodList, numberMembers_signatures]
  have hi := numberClass_initializerList sup c
  rw [numberClass_inheritFlag, requiredInitializers_of_signatures _ c hi,
    numberMembers_of_signatures _ _ _ _ hm, numberMembers_of_signatures _ _ _ _ hc,
    numberInitializers_of_signatures _ _ _ _ _ hi, hs.1, hs.2.1, hs.2.2.1, hs.2.2.2.1,
    hs.2.2.2.2] at e1
  rw [e1]
  exact (numberClass_eq sup c).symm

theorem classPasses_of_signatures {chk : Checks} {sup : Option Super} {c c2 : Class}
    (hm : c2.methodList.map (fun m => m.toSignature) = c.methodList.map (fun m => m.toSignature))
    (hc : c2.classMethodList.map (fun m => m.toSignature) =
      c.classMethodList.map (fun m => m.toSignature))
    (hi : c2.initializerList.map (fun m => m.toSignature) =
      c.initializerList.map (fun m => m.toSignature))
    (h : classPasses chk sup c) : classPasses chk sup c2 := by
  have key : ∀ (l l2 : List Procedure),
      l2.map (fun m => m.toSignature) = l.map (fun m => m.toSignature) →
      ∀ m2 ∈ l2, ∃ m ∈ l, m.toSignature = m2.toSignature := by
    intro l l2 hl m2 hm2
    have : m2.toSignature ∈ l2.map (fun m => m.toSignature) := List.mem_map.mpr ⟨m2, hm2, rfl⟩
    rw [hl] at this
    obtain ⟨m, hm, he⟩ := List.mem_map.mp this
    exact ⟨m, hm, he⟩
  obtain ⟨h1, h2, h3⟩ := h
  refine ⟨?_, ?_, ?_⟩
  · intro m2 hm2
    obtain ⟨m, hmem, he⟩ := key _ _ hm m2 hm2
    have := h1 m hmem
    rw [he] at this
    exact this
  · intro m2 hm2
    obtain ⟨m, hmem, he⟩ := key _ _ hc m2 hm2
    have := h2 m hmem
    rw [he] at this
    exact this
  · intro m2 hm2
    obtain ⟨m, hmem, he⟩ := key _ _ hi m2 hm2
    have := h3 m hmem
    rw [he] at this
    exact this

theorem numberClass_memberCount (sup : Option Super) (c : Class) :
    memberCount (numberClass sup c) = memberCount c := by
  have hm : (numberClass sup c).methodList.map (fun m => m.toSignature) =
      c.methodList.map (fun m => m.toSignature) := by
    rw [numberClass_methodList, numberMembers_signatures]
  have hc : (numberClass sup c).classMethodList.map (fun m => m.toSignature) =
      c.classMethodList.map (fun m => m.toSignature) := by
    rw [numberClass_classMethodList, numberMembers_signatures]
  have hi := numberClass_initializerList sup c
  have h1 := congrArg List.length hm
  have h2 := congrArg List.length hc
  have h3 := congrArg List.length hi
  simp only [List.length_map] at h1 h2 h3
  simp only [memberCount, h1, h2, h3]

theorem nullCallsOf_superOf (cs : List Class) (c : Class) :
    nullCallsOf (superOf cs c) (memberCount c) = rootCalls c := by
  unfold superOf rootCalls nullCallsOf
  cases c.superclass <;> rfl

theorem Processed.superclass_eq {chk : Checks} {cs0 : List Class} {k : Nat}
    {st : AnalysisState} (h : Processed chk cs0 k st) (j : Nat) :
    (st.classes[j]?).map (fun c => c.superclass) = (cs0[j]?).map (fun c => c.superclass) := by
  rcases Nat.lt_or_ge j k with hj | hj
  · cases hc : cs0[j]? with
    | none =>
      have hlen : cs0.length ≤ j := by
        rcases Nat.lt_or_ge j cs0.length with h1 | h1
        · rw [List.getElem?_eq_getElem h1] at hc
          cases hc
        · exact h1
      rw [List.getElem?_eq_none (by rw [h.length_eq]; exact hlen)]
    | some c0 =>
      rw [(h.processed j c0 hj hc).1]
      simp [(numberClass_static _ c0).1]
  · rw [h.untouched j hj]

theorem Processed.wf {chk : Checks} {cs0 : List Class} {k : Nat} {st : AnalysisState}
    (h : Processed chk cs0 k st) (hwf : superclassesFirst cs0 = true) :
    superclassesFirst st.classes = true := by
  apply superclassesFirst_of_forall
  intro i s c hc hs
  have := h.superclass_eq i
  rw [hc] at this
  cases hc0 : cs0[i]? with
  | none => rw [hc0] at this; cases this
  | some c0 =>
    rw [hc0] at this
    simp only [Option.map_some', Option.some.injEq] at this
    exact superclassesFirst_lt hwf hc0 (by rw [← this, hs])

theorem superOf_set_of_lt {cs : List Class} (hwf : superclassesFirst cs = true) (i : Nat)
    (c' : Class) (c : Class) (h : ∀ s, c.superclass = some s → s < i) :
    superOf (cs.set i c') c = superOf cs c := by
  unfold superOf
  cases hs : c.superclass with
  | none => rfl
  | some s => simp only [Option.map_some', superAt_set_of_lt hwf i c' s (h s hs)]

theorem Processed.step {chk : Checks} {cs0 : List Class} {k : Nat} {st st' : AnalysisState}
    (h : Processed chk cs0 k st) (hwf : superclassesFirst cs0 = true) (hk : k < cs0.length)
    (hst : analyzeClassVti chk st k = .ok st') : Processed chk cs0 (k + 1) st' := by
  have hwf' := h.wf hwf
  have hc0 : cs0[k]? = some cs0[k] := List.getElem?_eq_getElem hk
  have hc : st.classes[k]? = some cs0[k] := by rw [h.untouched k (Nat.le_refl k), hc0]
  have hpass : classPasses chk (superOf st.classes cs0[k]) cs0[k] := by
    unfold analyzeClassVti at hst
    simp only [hc] at hst
    split at hst
    · cases hst
    · rename_i r hr
      exact assignClassVti_passes hr
  have hst' := analyzeClassVti_ok hc hst
  subst hst'
  have hsup : ∀ j c0, j ≤ k → cs0[j]? = some c0 →
      superOf (st.classes.set k (numberClass (superOf st.classes cs0[k]) cs0[k])) c0 =
        superOf st.classes c0 := by
    intro j c0 hj hcj
    apply superOf_set_of_lt hwf'
    intro s hs
    exact Nat.lt_of_lt_of_le (superclassesFirst_lt hwf hcj hs) hj
  refine ⟨?_, ?_, ?_, ?_⟩
  · simp [h.length_eq]
  · intro j hj
    have hne : k ≠ j := by omega
    simp only [List.getElem?_set_ne hne]
    exact h.untouched j (by omega)
  · intro j c0 hj hcj
    simp only
    rw [hsup j c0 (by omega) hcj]
    rcases Nat.lt_or_ge j k with hlt | hge
    · have hne : k ≠ j := by omega
      simp only [List.getElem?_set_ne hne]
      exact h.processed j c0 hlt hcj
    · have hjk : j = k := by omega
      subst hjk
      have : c0 = cs0[j] := by
        rw [hc0] at hcj
        exact (Option.some.inj hcj).symm
      subst this
      refine ⟨?_, hpass⟩
      rw [List.getElem?_set_self (by rw [h.length_eq]; exact hk)]
  · have htake : cs0.take (k + 1) = cs0.take k ++ [cs0[k]] := by
      rw [List.take_succ, hc0]
      rfl
    simp only
    rw [h.nullCalls_eq, nullCallsOf_superOf, htake, List.map_append, List.sum_append]
    simp only [List.map_cons, List.map_nil, List.sum_cons, List.sum_nil, Nat.add_zero]

theorem assignVtisFrom_append (chk : Checks) :
    ∀ (xs ys : List Nat) (st : AnalysisState),
      assignVtisFrom chk (xs ++ ys) st =
        match assignVtisFrom chk xs st with
        | .error e => .error e
        | .ok st1 => assignVtisFrom chk ys st1
  | [], _, _ => rfl
  | x :: xs, ys, st => by
    simp only [List.cons_append, assignVtisFrom]
    cases analyzeClassVti chk st x with
    | error e => rfl
    | ok st1 => exact assignVtisFrom_append chk xs ys st1

theorem processed_range {chk : Checks} {cs0 : List Class} (hwf : superclassesFirst cs0 = true) :
    ∀ (k : Nat) (st : AnalysisState), k ≤ cs0.length →
      assignVtisFrom chk (List.range k) { classes := cs0 } = .ok st → Processed chk cs0 k st
  | 0, st, _, h => by
    simp only [List.range_zero, assignVtisFrom, Except.ok.injEq] at h
    subst h
    exact ⟨rfl, fun _ _ => rfl, fun j c0 hj _ => by omega, by simp⟩
  | k + 1, st, hk, h => by
    rw [List.range_succ, assignVtisFrom_append] at h
    split at h
    · cases h
    · rename_i st1 h1
      have ih := processed_range hwf k st1 (by omega) h1
      simp only [assignVtisFrom] at h
      split at h
      · cases h
      · rename_i st2 h2
        simp only [Except.ok.injEq] at h
        subst h
        exact ih.step hwf (by omega) h2

theorem processed_of_assignVtis {chk : Checks} {cs0 : List Class} {st : AnalysisState}
    (hwf : superclassesFirst cs0 = true) (h : assignVtis chk cs0 = .ok st) :
    Processed chk cs0 cs0.length st :=
  processed_range hwf cs0.length st (Nat.le_refl _) h

theorem set_getElem_same (cs : List Class) (i : Nat) (h : i < cs.length) :
    cs.set i cs[i] = cs := by
  apply List.ext_getElem?
  intro j
  by_cases hij : i = j
  · subst hij
    rw [List.getElem?_set_self h, List.getElem?_eq_getElem h]
  · rw [List.getElem?_set_ne hij]

theorem superOf_congr (cs : List Class) {c c2 : Class} (h : c.superclass = c2.superclass) :
    superOf cs c = superOf cs c2 := by
  unfold superOf
  rw [h]

theorem rootCalls_numberClass (sup : Option Super) (c : Class) :
    rootCalls (numberClass sup c) = rootCalls c := by
  unfold rootCalls
  rw [(numberClass_static sup c).1, numberClass_memberCount]

theorem Processed.final {chk : Checks} {cs0 : List Class} {st : AnalysisState}
    (h : Processed chk cs0 cs0.length st) {j : Nat} {c : Class} (hc : st.classes[j]? = some c) :
    ∃ c0, cs0[j]? = some c0 ∧ c = numberClass (superOf st.classes c0) c0 ∧
      classPasses chk (superOf st.classes c0) c0 ∧
      superOf st.classes c = superOf st.classes c0 := by
  have hj : j < cs0.length := by
    rw [← h.length_eq]
    exact getElem?_lt_length hc
  have hc0 : cs0[j]? = some cs0[j] := List.getElem?_eq_getElem hj
  obtain ⟨h1, h2⟩ := h.processed j cs0[j] hj hc0
  rw [hc] at h1
  have h3 := Option.some.inj h1
  refine ⟨cs0[j], hc0, h3, h2, ?_⟩
  apply superOf_congr
  rw [h3, (numberClass_static _ _).1]

theorem Processed.rerun {chk : Checks} {cs0 : List Class} {st : AnalysisState}
    (h : Processed chk cs0 cs0.length st) :
    ∀ k, k ≤ cs0.length →
      assignVtisFrom chk (List.range k) { classes := st.classes } =
        .ok { classes := st.classes, nullCalls := ((st.classes.take k).map rootCalls).sum }
  | 0, _ => by simp [assignVtisFrom]
  | k + 1, hk => by
    have hlt : k < st.classes.length := by rw [h.length_eq]; omega
    have hc : st.classes[k]? = some st.classes[k] := List.getElem?_eq_getElem hlt
    obtain ⟨c0, hc0, he, hpass, hsup⟩ := h.final hc
    have hpass' : classPasses chk (superOf st.classes st.classes[k]) st.classes[k] := by
      rw [hsup]
      have hm : st.classes[k].methodList.map (fun m => m.toSignature) =
          c0.methodList.map (fun m => m.toSignature) := by
        rw [he, numberClass_methodList, numberMembers_signatures]
      have hcm : st.classes[k].classMethodList.map (fun m => m.toSignature) =
          c0.classMethodList.map (fun m => m.toSignature) := by
        rw [he, numberClass_classMethodList, numberMembers_signatures]
      have hi : st.classes[k].initializerList.map (fun m => m.toSignature) =
          c0.initializerList.map (fun m => m.toSignature) := by
        rw [he]
        exact numberClass_initializerList _ _
      exact classPasses_of_signatures hm hcm hi hpass
    have hidem : numberClass (superOf st.classes st.classes[k]) st.classes[k] = st.classes[k] := by
      rw [hsup]
      conv => lhs; rw [he]
      rw [numberClass_idem]
      exact he.symm
    have hstep := @analyzeClassVti_of_pass chk
      { classes := st.classes, nullCalls := ((st.classes.take k).map rootCalls).sum } k _
      hc hpass'
    have htake : st.classes.take (k + 1) = st.classes.take k ++ [st.classes[k]] := by
      rw [List.take_succ, hc]
      rfl
    rw [List.range_succ, assignVtisFrom_append, Processed.rerun h k (by omega)]
    simp only [assignVtisFrom, hstep, hidem, set_getElem_same _ _ hlt, nullCallsOf_superOf, htake,
      List.map_append, List.sum_append, List.map_cons, List.map_nil, List.sum_cons, List.sum_nil,
      Nat.add_zero]

theorem Processed.rootCalls_eq {chk : Checks} {cs0 : List Class} {st : AnalysisState}
    (h : Processed chk cs0 cs0.length st) :
    st.classes.map rootCalls = cs0.map rootCalls := by
  apply List.ext_getElem?
  intro j
  simp only [List.getElem?_map]
  cases hc : st.classes[j]? with
  | none =>
    have : cs0.length ≤ j := by
      rw [← h.length_eq]
      rcases Nat.lt_or_ge j st.classes.length with h1 | h1
      · rw [List.getElem?_eq_getElem h1] at hc
        cases hc
      · exact h1
    rw [List.getElem?_eq_none this]
  | some c =>
    obtain ⟨c0, hc0, he, _, _⟩ := h.final hc
    rw [hc0, he]
    simp [rootCalls_numberClass]

/-- C5: when the classes stand in superclass-before-subclass order and the VTI pass succeeds on
them, a second run of the pass on the classes it left behind succeeds as well and leaves exactly
the same state: the same VTI in every method, class method and initializer, the same three
counters and the same initializer-inheritance flag in every class. -/
theorem vti_assignment_idempotent (chk : Checks) (cs : List Class) (st : AnalysisState)
    (hwf : superclassesFirst cs = true) (h : assignVtis chk cs = .ok st) :
    assignVtis chk st.classes = .ok st := by
  have hp := processed_of_assignVtis hwf h
  unfold assignVtis
  rw [hp.length_eq, hp.rerun cs.length (Nat.le_refl _)]
  have h1 : st.classes.take cs.length = st.classes := by
    rw [← hp.length_eq]
    exact List.take_length _
  have h2 : st.nullCalls = (cs.map rootCalls).sum := by
    rw [hp.nullCalls_eq, List.take_length]
  rw [h1, hp.rootCalls_eq, ← h2]

/-- C5, witness: the example program `A{m}`, `B<A{m,n}`, `C<A{p}`. -/
theorem vti_assignment_idempotent_witness :
    superclassesFirst exampleProgram = true ∧
    assignVtis exampleChecks exampleProgram = .ok exampleFinal ∧
    assignVtis exampleChecks exampleFinal.classes = .ok exampleFinal :=
  ⟨rfl, rfl, vti_assignment_idempotent exampleChecks exampleProgram exampleFinal rfl rfl⟩

/-- C3: on class `A` of the example program, which has no superclass and declares one method,
the loop body makes its lookup through the null superclass pointer (line 171): the call is
counted. The lookup yields "not found", the method receives the fresh slot 0 and the three
counters start at zero. -/
theorem root_class_lookup_through_null_superclass :
    classA.superclass = none ∧ superOf exampleProgram classA = none ∧
    ∃ c', assignClassVti exampleChecks (superOf exampleProgram classA) classA = .ok (c', 1) ∧
      c'.methodList.map (fun m => (m.name, m.vti)) = [(109, 0)] ∧
      c'.nextMethodVti = 1 ∧ c'.nextClassMethodVti = 0 ∧ c'.nextInitializerVti = 0 :=
  ⟨rfl, rfl, _, rfl, rfl, rfl, rfl, rfl⟩

/-- C4, counterexample: `initT` declares initializers of its own, so its initializer counter is
seeded with 0 although the next free initializer VTI of its superclass `initS` is 2. -/
theorem initializer_counter_not_seeded_from_superclass :
    assignVtisFrom exampleChecks [0, 1] { classes := initProgram } = .ok initAfterS ∧
    initAfterS.nullCalls = 0 ∧
    initAfterS.classes[2]? = some initT ∧ initT.superclass = some 1 ∧
    ∃ sc, initAfterS.classes[1]? = some sc ∧ sc.nextInitializerVti = 2 ∧
      (seedCounters (superOf initAfterS.classes initT)
        (decideInheritance initT)).nextInitializerVti = 0 ∧
      (seedCounters (superOf initAfterS.classes initT)
        (decideInheritance initT)).nextInitializerVti ≠ sc.nextInitializerVti :=
  ⟨rfl, rfl, rfl, rfl, _, rfl, rfl, rfl, by decide⟩

/-- C4 (amended): for a class with a superclass the method counter and the class-method counter
are seeded with the next free value of the superclass; the initializer counter is seeded with the
next free value of the superclass when the class is eligible for initializer inheritance and
with 0 otherwise. The three member loops start from these seeds (the initializer loop after the
number of required initializers of the class was added). -/
theorem counters_seeded_from_superclass (st : AnalysisState) (i s : Nat) (c sc : Class)
    (hc : st.classes[i]? = some c) (hs : c.superclass = some s)
    (hsc : st.classes[s]? = some sc) :
    (seedCounters (superOf st.classes c) (decideInheritance c)).nextMethodVti
      = sc.nextMethodVti ∧
    (seedCounters (superOf st.classes c) (decideInheritance c)).nextClassMethodVti
      = sc.nextClassMethodVti ∧
    (seedCounters (superOf st.classes c) (decideInheritance c)).nextInitializerVti
      = (if inheritFlag c then sc.nextInitializerVti else 0) ∧
    ∀ (chk : Checks) (st' : AnalysisState), analyzeClassVti chk st i = .ok st' →
      ∃ c', st'.classes[i]? = some c' ∧
        c'.methodList =
          (numberMembers (lookupMethod st.classes s) c.methodList sc.nextMethodVti).1 ∧
        c'.classMethodList =
          (numberMembers (lookupClassMethod st.classes s) c.classMethodList
            sc.nextClassMethodVti).1 ∧
        c'.initializerList =
          (numberInitializers (lookupInitializer st.classes s) c.initializerList
            (((if inheritFlag c then sc.nextInitializerVti else 0)
              + c.requiredInitializers.length) % UINT16)
            sc.requiredInitializers.length).1 := by
  have hsup : superOf st.classes c = some (superAt st.classes s) := by simp [superOf, hs]
  have hv := superAt_nextMethodVti hsc
  have hflag : (decideInheritance c).inheritsContructors = inheritFlag c := by
    unfold decideInheritance inheritFlag
    split <;> rfl
  refine ⟨?_, ?_, ?_, ?_⟩
  · rw [hsup]
    simp [seedCounters, hv.1]
  · rw [hsup]
    simp [seedCounters, hv.2.1]
  · rw [hsup]
    simp [seedCounters, hv.2.2.1, hflag]
  · intro chk st' h
    have hst := analyzeClassVti_ok hc h
    subst hst
    refine ⟨_, List.getElem?_set_self (getElem?_lt_length hc), ?_⟩
    rw [numberClass_eq, hsup]
    simp only [seedMethod, seedClassMethod, seedInitializer, subRequiredStart, hv.1, hv.2.1,
      hv.2.2.1, hv.2.2.2, superFind_some]
    exact ⟨rfl, rfl, rfl⟩

/-- C4, witness: class `initT` of `initProgram`, processed after its superclass `initS`. -/
theorem counters_seeded_from_superclass_witness :
    (seedCounters (superOf initAfterS.classes initT) (decideInheritance initT)).nextMethodVti
      = (numberClass (some rootView) initS).nextMethodVti ∧
    (seedCounters (superOf initAfterS.classes initT) (decideInheritance initT)).nextClassMethodVti
      = (numberClass (some rootView) initS).nextClassMethodVti ∧
    (seedCounters (superOf initAfterS.classes initT) (decideInheritance initT)).nextInitializerVti
      = (if inheritFlag initT then (numberClass (some rootView) initS).nextInitializerVti else 0) ∧
    ∀ (chk : Checks) (st' : AnalysisState), analyzeClassVti chk initAfterS 2 = .ok st' →
      ∃ c', st'.classes[2]? = some c' ∧
        c'.methodList =
          (numberMembers (lookupMethod initAfterS.classes 1) initT.methodList
            (numberClass (some rootView) initS).nextMethodVti).1 ∧
        c'.classMethodList =
          (numberMembers (lookupClassMethod initAfterS.classes 1) initT.classMethodList
            (numberClass (some rootView) initS).nextClassMethodVti).1 ∧
        c'.initializerList =
          (numberInitializers (lookupInitializer initAfterS.classes 1) initT.initializerList
            (((if inheritFlag initT then (numberClass (some rootView) initS).nextInitializerVti
              else 0) + initT.requiredInitializers.length) % UINT16)
            (numberClass (some rootView) initS).requiredInitializers.length).1 :=
  counters_seeded_from_superclass initAfterS 2 1 initT (numberClass (some rootView) initS)
    rfl rfl rfl

theorem numberInitializers_next_lt (lk : EmojicodeChar → Option Procedure) :
    ∀ (ms : List Procedure) (n k : Nat), n < UINT16 → (numberInitializers lk ms n k).2.1 < UINT16
  | [], _, _, h => h
  | m :: ms, n, k, h => by
    simp only [numberInitializers]
    apply numberInitializers_next_lt lk ms
    unfold initializerNext
    split
    · exact h
    · exact Nat.mod_lt _ (by decide)

theorem Processed.nextInitializerVti_lt {chk : Checks} {cs0 : List Class} {st : AnalysisState}
    (h : Processed chk cs0 cs0.length st) {j : Nat} {c : Class} (hc : st.classes[j]? = some c) :
    c.nextInitializerVti < UINT16 := by
  obtain ⟨c0, _, he, _, _⟩ := h.final hc
  rw [he, numberClass_eq]
  exact numberInitializers_next_lt _ _ _ _ (Nat.mod_lt _ (by decide))

/-- C8: after a successful VTI pass over classes in superclass-before-subclass order, every class
that has a superclass and declares neither instance variables nor initializers is marked as
inheriting its initializers, and its initializer-table size `nextInitializerVti` equals that of
its superclass. -/
theorem initializer_inheritance (chk : Checks) (cs : List Class) (st : AnalysisState)
    (i s : Nat) (c sc : Class) (hwf : superclassesFirst cs = true)
    (h : assignVtis chk cs = .ok st) (hc : st.classes[i]? = some c)
    (hs : c.superclass = some s) (hsc : st.classes[s]? = some sc)
    (hiv : c.instanceVariables = []) (hin : c.initializerList = []) :
    c.inheritsContructors = true ∧ c.nextInitializerVti = sc.nextInitializerVti := by
  have hp := processed_of_assignVtis hwf h
  obtain ⟨c0, hc0, he, _, hsup⟩ := hp.final hc
  have hlt := hp.nextInitializerVti_lt hsc
  have hsup' : superOf st.classes c0 = some (superAt st.classes s) := by
    rw [← hsup]
    simp [superOf, hs]
  have hiv0 : c0.instanceVariables = [] := by
    rw [← hiv, he, (numberClass_static _ _).2.2.2.2]
  have hin0 : c0.initializerList = [] := by
    have := numberClass_initializerList (superOf st.classes c0) c0
    rw [← he, hin] at this
    simpa using this.symm
  have hflag : inheritFlag c0 = true := by simp [inheritFlag, hiv0, hin0]
  have hreq : c0.requiredInitializers = [] := by simp [Class.requiredInitializers, hin0]
  rw [he, numberClass_eq]
  simp only [hflag, hin0, hreq, numberInitializers, List.length_nil, Nat.add_zero, hsup',
    seedInitializer, if_true, (superAt_nextMethodVti hsc).2.2.1, true_and]
  exact Nat.mod_eq_of_lt hlt

/-- C8, witness: class `initW` of `inheritProgram`, whose superclass `initV` has one
initializer. -/
theorem initializer_inheritance_witness :
    assignVtis exampleChecks inheritProgram = .ok inheritFinal ∧
    (numberClass (superOf inheritFinal.classes initW) initW).inheritsContructors = true ∧
    (numberClass (superOf inheritFinal.classes initW) initW).nextInitializerVti
      = (numberClass (some rootView) initV).nextInitializerVti ∧
    (numberClass (some rootView) initV).nextInitializerVti = 1 :=
  ⟨rfl, (initializer_inheritance exampleChecks inheritProgram inheritFinal 2 1
    (numberClass (superOf inheritFinal.classes initW) initW) (numberClass (some rootView) initV)
    rfl rfl rfl rfl rfl rfl rfl).1,
   (initializer_inheritance exampleChecks inheritProgram inheritFinal 2 1
    (numberClass (superOf inheritFinal.classes initW) initW) (numberClass (some rootView) initV)
    rfl rfl rfl rfl rfl rfl rfl).2, rfl⟩

theorem numberInitializers_plain (lk : EmojicodeChar → Option Procedure) :
    ∀ (ms : List Procedure) (n k : Nat), n < UINT16 →
      (plainInitializers (numberInitializers lk ms n k).1).map (fun m => m.vti) =
        (List.range (plainInitializers ms).length).map fun j => (n + j) % UINT16
  | [], _, _, _ => by simp [numberInitializers, plainInitializers]
  | m :: ms, n, k, hn => by
    simp only [numberInitializers, plainInitializers, List.filter_cons]
    cases hr : m.required with
    | true =>
      have ih := numberInitializers_plain lk ms n (initializerSub lk m k) hn
      simp only [plainInitializers] at ih
      simpa [initializerNext, hr] using ih
    | false =>
      have hlt : (n + 1) % UINT16 < UINT16 := Nat.mod_lt _ (by decide)
      have ih := numberInitializers_plain lk ms ((n + 1) % UINT16) (initializerSub lk m k) hlt
      simp only [plainInitializers] at ih
      simp only [initializerNext, initializerVti, hr, Bool.not_false, if_true, List.length_cons,
        List.map_cons, Bool.false_eq_true, if_false, ih, List.range_succ_eq_map, List.map_map,
        Nat.add_zero, Nat.mod_eq_of_lt hn, List.cons.injEq, true_and]
      apply List.map_congr_left
      intro j _
      simp only [Function.comp, Nat.mod_add_mod]
      congr 1
      omega

/-- C9, counterexample: `initX` has the superclass `initV`, which has no required initializer,
and builds its own initializer table; its plain initializer receives VTI 0, not 0 + 1. -/
theorem plain_initializer_starts_at_zero :
    assignVtis exampleChecks inheritProgram = .ok inheritFinal ∧
    inheritFinal.nullCalls = 0 ∧
    (inheritFinal.classes.map fun c =>
      (c.name, c.superclass, c.inheritsContructors, c.requiredInitializers.length,
        c.initializerList.map fun m => (m.name, m.required, m.vti))) =
      [(79, none, true, 0, []), (86, some 0, false, 0, [(5, false, 0)]),
        (87, some 1, true, 0, []), (88, some 1, false, 0, [(6, false, 0)])] ∧
    ∃ c sc, inheritFinal.classes[3]? = some c ∧ inheritFinal.classes[1]? = some sc ∧
      c.superclass = some 1 ∧ c.inheritsContructors = false ∧
      (plainInitializers c.initializerList).map (fun m => m.vti) ≠
        (List.range (plainInitializers c.initializerList).length).map
          (fun j => sc.requiredInitializers.length + 1 + j) :=
  ⟨rfl, rfl, rfl, _, _, rfl, rfl, rfl, rfl, by decide⟩

/-- C10: the VTI pass succeeds on `collisionProgram`. The superclass `initS` has one required
initializer. In `initY` the new required initializer 3, which the lookup of `initS` does not
find, receives VTI 1 + 0 = 1, the number of required initializers of the superclass plus 0
(lines 195 and 210), and the plain initializer 1 receives VTI 1 as well (lines 196 and 214):
the VTI of the new required initializer is not below the VTI of every initializer declared
without the required attribute, it does not lie inside a reserved required sub-range. -/
theorem fresh_required_initializer_not_below_plain :
    assignVtis exampleChecks collisionProgram = .ok collisionFinal ∧
    collisionFinal.nullCalls = 0 ∧
    lookupInitializer collisionFinal.classes 1 3 = none ∧
    (collisionFinal.classes.map fun c =>
      (c.name, c.superclass, c.inheritsContructors, c.requiredInitializers.length,
        c.initializerList.map fun m => (m.name, m.required, m.vti))) =
      [(79, none, true, 0, []), (83, some 0, false, 1, [(1, true, 0), (2, false, 1)]),
        (89, some 1, false, 1, [(3, true, 1), (1, false, 1)])] ∧
    ∃ c m q, collisionFinal.classes[2]? = some c ∧
      m ∈ freshRequired (lookupInitializer collisionFinal.classes 1) c.initializerList ∧
      q ∈ plainInitializers c.initializerList ∧ ¬ m.vti < q.vti :=
  ⟨rfl, rfl, rfl, rfl, _, { name := 3, required := true, vti := 1 },
    { name := 1, overriding := true, vti := 1 }, rfl, by decide, by decide, by decide⟩

theorem Emit.andThen_ok (w : List Field) (b : Emit) :
    Emit.andThen { written := w, error := none } b =
      { written := w ++ b.written, error := b.error } := rfl

theorem writeProtocolMethod_ok {chk : Checks} {lookup : EmojicodeChar → Option Procedure}
    {c : Class} {p : Protocol} {method : Procedure} (h : conformsTo chk lookup p method) :
    writeProtocolMethod chk lookup c p method =
      { written := [writeUInt16 (foundVti lookup method.name)], error := none } := by
  obtain ⟨clm, h1, h2⟩ := h
  simp only [writeProtocolMethod, foundVti, h1, h2]

theorem writeProtocolMethods_ok {chk : Checks} {lookup : EmojicodeChar → Option Procedure}
    {c : Class} {p : Protocol} :
    ∀ (ms : List Procedure), (∀ m ∈ ms, conformsTo chk lookup p m) →
      writeProtocolMethods chk lookup c p ms =
        { written := ms.map fun m => writeUInt16 (foundVti lookup m.name), error := none }
  | [], _ => rfl
  | m :: ms, h => by
    have hm := h m (List.mem_cons_self _ _)
    have hms := @writeProtocolMethods_ok chk lookup c p ms
      (fun x hx => h x (List.mem_cons_of_mem _ hx))
    simp only [writeProtocolMethods, writeProtocolMethod_ok hm, hms, Emit.andThen_ok,
      List.map_cons, List.singleton_append]

theorem writeProtocolMethods_missing {chk : Checks} {lookup : EmojicodeChar → Option Procedure}
    {c : Class} {p : Protocol} :
    ∀ (before : List Procedure) (missing : Procedure) (after : List Procedure),
      (∀ m ∈ before, conformsTo chk lookup p m) → lookup missing.name = none →
      writeProtocolMethods chk lookup c p (before ++ missing :: after) =
        { written := before.map fun m => writeUInt16 (foundVti lookup m.name)
          error := some (.missingProtocolMethod c.name p.name missing.name) }
  | [], missing, after, _, hmiss => by
    simp only [List.nil_append, writeProtocolMethods, writeProtocolMethod, hmiss, List.map_nil]
    rfl
  | m :: before, missing, after, h, hmiss => by
    have hm := h m (List.mem_cons_self _ _)
    have hms := @writeProtocolMethods_missing chk lookup c p before missing after
      (fun x hx => h x (List.mem_cons_of_mem _ hx)) hmiss
    rw [List.cons_append]
    show (writeProtocolMethod chk lookup c p m).andThen
        (writeProtocolMethods chk lookup c p (before ++ missing :: after)) = _
    rw [hms, writeProtocolMethod_ok hm]
    rfl

theorem writeProtocolRecord_ok {chk : Checks} {lookup : EmojicodeChar → Option Procedure}
    {c : Class} {p : Protocol} (h : ∀ m ∈ p.methods, conformsTo chk lookup p m) :
    writeProtocolRecord chk lookup c p =
      { written := writeUInt16 p.index :: writeUInt16 p.methods.length ::
          p.methods.map fun m => writeUInt16 (foundVti lookup m.name)
        error := none } := by
  simp only [writeProtocolRecord, writeProtocolMethods_ok _ h, Emit.andThen_ok,
    List.cons_append, List.nil_append]

theorem Emit.andThen_assoc (a b d : Emit) :
    (a.andThen b).andThen d = a.andThen (b.andThen d) := by
  obtain ⟨wa, ea⟩ := a
  obtain ⟨wb, eb⟩ := b
  cases ea with
  | some e => rfl
  | none =>
    cases eb with
    | some e => rfl
    | none => simp [Emit.andThen, List.append_assoc]

theorem Emit.empty_andThen (b : Emit) : Emit.andThen {} b = b := by
  obtain ⟨wb, eb⟩ := b
  simp [Emit.andThen]

theorem writeProtocolRecords_append {chk : Checks} {lookup : EmojicodeChar → Option Procedure}
    {c : Class} :
    ∀ (pre post : List Protocol),
      writeProtocolRecords chk lookup c (pre ++ post) =
        (writeProtocolRecords chk lookup c pre).andThen (writeProtocolRecords chk lookup c post)
  | [], post => by
    rw [List.nil_append]
    exact (Emit.empty_andThen _).symm
  | p :: pre, post => by
    have ih := @writeProtocolRecords_append chk lookup c pre post
    rw [List.cons_append]
    show (writeProtocolRecord chk lookup c p).andThen
        (writeProtocolRecords chk lookup c (pre ++ post)) =
      ((writeProtocolRecord chk lookup c p).andThen
        (writeProtocolRecords chk lookup c pre)).andThen (writeProtocolRecords chk lookup c post)
    rw [ih, Emit.andThen_assoc]

/-- C7, counterexample: `classZ` declares conformance to `protocolSized` and has no method
`equals` (name 101), but its analysis ends with the argument-count error for `size` (name 115),
the first method of the protocol, not with the error naming the missing method. -/
theorem conformance_error_not_for_missing_method :
    assignVtis exampleChecks protocolProgram = .ok protocolFinal ∧
    protocolFinal.nullCalls = 0 ∧
    lookupMethod protocolFinal.classes 3 101 = none ∧
    ∃ c, protocolFinal.classes[3]? = some c ∧ c.name = 90 ∧ c.protocols = [protocolSized] ∧
      writeProtocolRecords exampleChecks (lookupMethod protocolFinal.classes 3) c c.protocols =
        { written := [Field.uint16 1, Field.uint16 2, Field.uint16 0]
          error := some (.promiseViolation 115 1) } ∧
      (writeProtocolRecords exampleChecks (lookupMethod protocolFinal.classes 3) c
        c.protocols).error ≠ some (.missingProtocolMethod c.name protocolSized.name 101) :=
  ⟨rfl, rfl, rfl, _, rfl, rfl, rfl, rfl, by decide⟩

/-- C7 (amended): let `p` be a declared conformance of the class `c` at position `i` and let
`missing` be the first method of `p`, in declaration order, that the method lookup of the class
does not find. If the records of the conformances declared before `p` are written without error
and the methods of `p` before `missing` pass their promise checks, the conformance loop ends
with the error that names the class, the protocol and `missing`; what it wrote ends with the
index of `p`, the method count of `p` and the VTIs of the methods before `missing`: no VTI is
read or written for the missing method. -/
theorem missing_protocol_method_reported (chk : Checks) (cs : List Class) (i : Nat) (c : Class)
    (pre post : List Protocol) (p : Protocol) (before after : List Procedure)
    (missing : Procedure) (hc : cs[i]? = some c) (hprot : c.protocols = pre ++ p :: post)
    (hpre : (writeProtocolRecords chk (lookupMethod cs i) c pre).error = none)
    (hmeth : p.methods = before ++ missing :: after)
    (hbefore : ∀ m ∈ before, conformsTo chk (lookupMethod cs i) p m)
    (hmiss : lookupMethod cs i missing.name = none) :
    writeProtocolRecords chk (lookupMethod cs i) c c.protocols =
      { written := (writeProtocolRecords chk (lookupMethod cs i) c pre).written ++
          writeUInt16 p.index :: writeUInt16 p.methods.length ::
            before.map (fun m => writeUInt16 (foundVti (lookupMethod cs i) m.name))
        error := some (.missingProtocolMethod c.name p.name missing.name) } := by
  have _ := hc
  have hrec : writeProtocolRecord chk (lookupMethod cs i) c p =
      { written := writeUInt16 p.index :: writeUInt16 p.methods.length ::
          before.map (fun m => writeUInt16 (foundVti (lookupMethod cs i) m.name))
        error := some (.missingProtocolMethod c.name p.name missing.name) } := by
    unfold writeProtocolRecord
    conv => lhs; arg 2; rw [hmeth, writeProtocolMethods_missing before missing after hbefore hmiss]
    rfl
  have hpost : writeProtocolRecords chk (lookupMethod cs i) c (p :: post) =
      { written := writeUInt16 p.index :: writeUInt16 p.methods.length ::
          before.map (fun m => writeUInt16 (foundVti (lookupMethod cs i) m.name))
        error := some (.missingProtocolMethod c.name p.name missing.name) } := by
    show (writeProtocolRecord chk (lookupMethod cs i) c p).andThen _ = _
    rw [hrec]
    rfl
  rw [hprot, writeProtocolRecords_append, hpost]
  cases hw : writeProtocolRecords chk (lookupMethod cs i) c pre with
  | mk w e =>
    rw [hw] at hpre
    simp only at hpre
    subst hpre
    rfl

/-- C7, witness: class `Y` of the example of the specification conforms to `Eq` and omits
`equals`; the error names `Y`, `Eq` and `equals`. -/
theorem missing_protocol_method_reported_witness :
    assignVtis exampleChecks protocolProgram = .ok protocolFinal ∧
    writeProtocolRecords exampleChecks (lookupMethod protocolFinal.classes 2)
        (numberClass (some rootView) classY) (numberClass (some rootView) classY).protocols =
      { written := (writeProtocolRecords exampleChecks (lookupMethod protocolFinal.classes 2)
            (numberClass (some rootView) classY) []).written ++
          writeUInt16 protocolEq.index :: writeUInt16 protocolEq.methods.length ::
            ([] : List Procedure).map
              (fun m => writeUInt16 (foundVti (lookupMethod protocolFinal.classes 2) m.name))
        error := some (.missingProtocolMethod 89 69 101) } :=
  ⟨rfl, missing_protocol_method_reported exampleChecks protocolFinal.classes 2
    (numberClass (some rootView) classY) [] [] protocolEq [] []
    { name := 101, arguments := [1], returnType := 2 }
    rfl rfl rfl rfl (fun m hm => by cases hm) rfl⟩

theorem lookupIn_fuel (table : Class → List Procedure) {cs : List Class}
    (hwf : superclassesFirst cs = true) (name : EmojicodeChar) :
    ∀ (f1 f2 i : Nat), i < f1 → i < f2 →
      lookupIn table cs f1 i name = lookupIn table cs f2 i name
  | 0, _, _, h, _ => by omega
  | _ + 1, 0, _, _, h => by omega
  | f1 + 1, f2 + 1, i, h1, h2 => by
    simp only [lookupIn]
    cases hc : cs[i]? with
    | none => rfl
    | some c =>
      simp only
      cases findByName (table c) name with
      | some q => rfl
      | none =>
        simp only
        cases hs : c.superclass with
        | none => rfl
        | some s =>
          have hlt := superclassesFirst_lt hwf hc hs
          exact lookupIn_fuel table hwf name f1 f2 s (by omega) (by omega)

theorem lookupMethod_unfold {cs : List Class} (hwf : superclassesFirst cs = true) {i : Nat}
    {c : Class} (hc : cs[i]? = some c) (name : EmojicodeChar) :
    lookupMethod cs i name =
      match findByName c.methodList name with
      | some q => some q
      | none =>
        match c.superclass with
        | none => none
        | some s => lookupMethod cs s name := by
  have hi := getElem?_lt_length hc
  unfold lookupMethod
  obtain ⟨n, hn⟩ : ∃ n, cs.length = n + 1 := ⟨cs.length - 1, by omega⟩
  rw [hn]
  simp only [lookupIn, hc]
  cases findByName c.methodList name with
  | some q => rfl
  | none =>
    simp only
    cases hs : c.superclass with
    | none => rfl
    | some s =>
      have hlt := superclassesFirst_lt hwf hc hs
      exact lookupIn_fuel _ hwf name n (n + 1) s (by omega) (by omega)

theorem numberMembers_nowrap (lk : EmojicodeChar → Option Procedure) :
    ∀ (ms : List Procedure) (n : Nat), n + (freshMembers lk ms).length < UINT16 →
      (numberMembers lk ms n).2 = n + (freshMembers lk ms).length ∧
      ∀ m ∈ (numberMembers lk ms n).1,
        (∃ sm, lk m.name = some sm ∧ m.vti = sm.vti) ∨
        (n ≤ m.vti ∧ m.vti < n + (freshMembers lk ms).length)
  | [], n, _ => by simp [numberMembers, freshMembers]
  | m :: ms, n, h => by
    simp only [numberMembers, freshMembers, List.filter_cons] at h ⊢
    cases hl : lk m.name with
    | some sm =>
      simp only [hl, Option.isNone_some, Bool.false_eq_true, if_false] at h ⊢
      have ih := numberMembers_nowrap lk ms n h
      simp only [freshMembers] at ih
      simp only [memberNext, hl]
      refine ⟨ih.1, ?_⟩
      intro x hx
      rcases List.mem_cons.mp hx with hx | hx
      · subst hx
        exact Or.inl ⟨sm, hl, by simp [memberVti, hl]⟩
      · exact ih.2 x hx
    | none =>
      simp only [hl, Option.isNone_none, if_true, List.length_cons] at h ⊢
      have hmod : (n + 1) % UINT16 = n + 1 := Nat.mod_eq_of_lt (by omega)
      have ih := numberMembers_nowrap lk ms (n + 1) (by simp only [freshMembers]; omega)
      simp only [freshMembers] at ih
      simp only [memberNext, hl, hmod]
      refine ⟨by omega, ?_⟩
      intro x hx
      rcases List.mem_cons.mp hx with hx | hx
      · subst hx
        refine Or.inr ⟨?_, ?_⟩ <;> simp only [memberVti, hl] <;> omega
      · rcases ih.2 x hx with h1 | h1
        · exact Or.inl h1
        · exact Or.inr ⟨by omega, by omega⟩

theorem freshMembers_length_of_signatures (lk : EmojicodeChar → Option Procedure) :
    ∀ (ms ms2 : List Procedure),
      ms.map (fun m => m.toSignature) = ms2.map (fun m => m.toSignature) →
      (freshMembers lk ms).length = (freshMembers lk ms2).length
  | [], [], _ => rfl
  | [], _ :: _, h => by simp at h
  | _ :: _, [], h => by simp at h
  | m :: ms, m2 :: ms2, h => by
    simp only [List.map_cons, List.cons.injEq] at h
    have hn : m.name = m2.name := congrArg Signature.name h.1
    have ih := freshMembers_length_of_signatures lk ms ms2 h.2
    simp only [freshMembers] at ih
    simp only [freshMembers, List.filter_cons, hn]
    split <;> simp [ih]

theorem methodTablesFit_get {cs : List Class} (h : methodTablesFit cs = true) {j : Nat}
    {c : Class} (hc : cs[j]? = some c) :
    seedMethod (superOf cs c)
      + (freshMembers (superFind (superOf cs c) fun s => s.lookupMethod) c.methodList).length
        < UINT16 := by
  unfold methodTablesFit at h
  rw [List.all_eq_true] at h
  have := h c (List.getElem?_mem hc)
  simpa using this

theorem findByName_mem {table : List Procedure} {name : EmojicodeChar} {q : Procedure}
    (h : findByName table name = some q) : q ∈ table :=
  List.mem_of_find?_eq_some h

theorem Processed.method_bounds {chk : Checks} {cs0 : List Class} {st : AnalysisState}
    (hp : Processed chk cs0 cs0.length st) (hwf : superclassesFirst cs0 = true)
    (hfit : methodTablesFit st.classes = true) :
    ∀ (j : Nat) (c : Class), st.classes[j]? = some c →
      (∀ name m, lookupMethod st.classes j name = some m → m.vti < c.nextMethodVti) ∧
      c.nextMethodVti = seedMethod (superOf st.classes c)
        + (freshMembers (superFind (superOf st.classes c) fun s => s.lookupMethod)
            c.methodList).length := by
  have hwf' := hp.wf hwf
  intro j
  induction j using Nat.strong_induction_on with
  | _ j ih =>
    intro c hc
    obtain ⟨c0, hc0, he, _, hsup⟩ := hp.final hc
    have hfitj := methodTablesFit_get hfit hc
    have hsig : c.methodList.map (fun m => m.toSignature) =
        c0.methodList.map (fun m => m.toSignature) := by
      rw [he, numberClass_methodList, numberMembers_signatures]
    have hlen := freshMembers_length_of_signatures
      (superFind (superOf st.classes c) fun s => s.lookupMethod) _ _ hsig
    have hml : c.methodList = (numberMembers
        (superFind (superOf st.classes c) fun s => s.lookupMethod) c0.methodList
        (seedMethod (superOf st.classes c))).1 := by
      rw [hsup]
      conv => lhs; rw [he, numberClass_eq]
    have hnx : c.nextMethodVti = (numberMembers
        (superFind (superOf st.classes c) fun s => s.lookupMethod) c0.methodList
        (seedMethod (superOf st.classes c))).2 := by
      rw [hsup]
      conv => lhs; rw [he, numberClass_eq]
    rw [hlen] at hfitj
    obtain ⟨hn1, hn2⟩ := numberMembers_nowrap _ c0.methodList _ hfitj
    rw [← hml] at hn2
    rw [← hnx] at hn1
    have hnext : c.nextMethodVti = seedMethod (superOf st.classes c)
        + (freshMembers (superFind (superOf st.classes c) fun s => s.lookupMethod)
            c.methodList).length := by
      rw [hlen]
      exact hn1
    refine ⟨?_, hnext⟩
    have hsuper : ∀ s, c.superclass = some s → ∀ name m,
        lookupMethod st.classes s name = some m →
        m.vti < seedMethod (superOf st.classes c) := by
      intro s hs name m hm
      have hlt := superclassesFirst_lt hwf' hc hs
      have hsl : s < st.classes.length := Nat.lt_trans hlt (getElem?_lt_length hc)
      have hsc : st.classes[s]? = some st.classes[s] := List.getElem?_eq_getElem hsl
      have := (ih s hlt st.classes[s] hsc).1 name m hm
      have hseed : seedMethod (superOf st.classes c) = st.classes[s].nextMethodVti := by
        simp [superOf, hs, seedMethod, (superAt_nextMethodVti hsc).1]
      rw [hseed]
      exact this
    intro name m hm
    rw [lookupMethod_unfold hwf' hc] at hm
    cases hf : findByName c.methodList name with
    | some q =>
      rw [hf] at hm
      simp only [Option.some.injEq] at hm
      subst hm
      rcases hn2 q (findByName_mem hf) with ⟨sm, hsm, hv⟩ | ⟨_, hv⟩
      · cases hs : c.superclass with
        | none =>
          simp only [superOf, hs, Option.map_none'] at hsm
          cases hsm
        | some s =>
          have hsm' : lookupMethod st.classes s q.name = some sm := by
            simpa [superOf, hs, superFind_some, superAt] using hsm
          have := hsuper s hs q.name sm hsm'
          rw [hv, hn1]
          omega
      · rw [hn1]
        exact hv
    | none =>
      rw [hf] at hm
      simp only at hm
      cases hs : c.superclass with
      | none =>
        rw [hs] at hm
        cases hm
      | some s =>
        rw [hs] at hm
        have := hsuper s hs name m hm
        rw [hn1]
        omega

/-- C6 (amended): let the VTI pass succeed on classes in superclass-before-subclass order and let
every method table fit into 16 bits. If the class `c` at position `i` declares conformance to the
protocol `p`, its method lookup finds a same-named method for each method of `p` and each found
method passes the promise checks, then the record written for the conformance is complete and
consists of the index of `p` and the number of methods of `p`, each as a 16-bit value, followed
by exactly one VTI per method of `p`, in the declaration order of `p`: the VTI of the method the
lookup of the class finds under the name of the protocol method. Each of these VTIs is smaller
than the method-table size `nextMethodVti` of the class. -/
theorem protocol_record_layout (chk : Checks) (cs : List Class) (st : AnalysisState) (i : Nat)
    (c : Class) (p : Protocol) (hwf : superclassesFirst cs = true)
    (h : assignVtis chk cs = .ok st) (hfit : methodTablesFit st.classes = true)
    (hc : st.classes[i]? = some c) (hp : p ∈ c.protocols)
    (hconf : ∀ m ∈ p.methods, conformsTo chk (lookupMethod st.classes i) p m) :
    writeProtocolRecord chk (lookupMethod st.classes i) c p =
      { written := writeUInt16 p.index :: writeUInt16 p.methods.length ::
          p.methods.map (fun m => Field.uint16 (foundVti (lookupMethod st.classes i) m.name))
        error := none } ∧
    ∀ m ∈ p.methods, foundVti (lookupMethod st.classes i) m.name < c.nextMethodVti := by
  have _ := hp
  have hproc := processed_of_assignVtis hwf h
  obtain ⟨hb, hnext⟩ := hproc.method_bounds hwf hfit i c hc
  have hlt : c.nextMethodVti < UINT16 := by
    rw [hnext]
    exact methodTablesFit_get hfit hc
  have hvti : ∀ m ∈ p.methods, foundVti (lookupMethod st.classes i) m.name < c.nextMethodVti := by
    intro m hm
    obtain ⟨clm, hclm, _⟩ := hconf m hm
    rw [foundVti, hclm]
    exact hb m.name clm hclm
  refine ⟨?_, hvti⟩
  rw [writeProtocolRecord_ok hconf]
  simp only [Emit.mk.injEq, List.cons.injEq, true_and, and_true]
  apply List.map_congr_left
  intro m hm
  unfold writeUInt16
  rw [Nat.mod_eq_of_lt (Nat.lt_trans (hvti m hm) hlt)]

/-- C6, witness: class `X` of the example of the specification conforms to `Eq` and implements
`equals`, its second method; the record holds the VTI 1 of `X.equals`. -/
theorem protocol_record_layout_witness :
    assignVtis exampleChecks protocolProgram = .ok protocolFinal ∧
    (writeProtocolRecord exampleChecks (lookupMethod protocolFinal.classes 1)
        (numberClass (some rootView) classX) protocolEq =
      { written := writeUInt16 protocolEq.index :: writeUInt16 protocolEq.methods.length ::
          protocolEq.methods.map
            (fun m => Field.uint16 (foundVti (lookupMethod protocolFinal.classes 1) m.name))
        error := none } ∧
    ∀ m ∈ protocolEq.methods,
      foundVti (lookupMethod protocolFinal.classes 1) m.name
        < (numberClass (some rootView) classX).nextMethodVti) ∧
    protocolEq.methods.map
      (fun m => Field.uint16 (foundVti (lookupMethod protocolFinal.classes 1) m.name))
      = [Field.uint16 1] :=
  ⟨rfl, protocol_record_layout exampleChecks protocolProgram protocolFinal 1
    (numberClass (some rootView) classX) protocolEq rfl rfl rfl rfl (List.mem_singleton.mpr rfl)
    (fun m hm => by
      have hm' : m = { name := 101, arguments := [1], returnType := 2 } :=
        List.mem_singleton.mp hm
      subst hm'
      exact ⟨_, rfl, rfl⟩), rfl⟩

/-! ## The final state of the pass -/

theorem Processed.fixpoint {chk : Checks} {cs0 : List Class} {st : AnalysisState}
    (h : Processed chk cs0 cs0.length st) {j : Nat} {c : Class} (hc : st.classes[j]? = some c) :
    numberClass (superOf st.classes c) c = c := by
  obtain ⟨c0, _, he, _, hsup⟩ := h.final hc
  rw [hsup]
  conv => lhs; rw [he]
  rw [numberClass_idem]
  exact he.symm

theorem Processed.declared {chk : Checks} {cs0 : List Class} {st : AnalysisState}
    (h : Processed chk cs0 cs0.length st) {j : Nat} {c : Class} (hc : st.classes[j]? = some c) :
    ∃ c0, cs0[j]? = some c0 ∧ c.name = c0.name ∧ c.superclass = c0.superclass ∧
      c.instanceVariables = c0.instanceVariables ∧ c.protocols = c0.protocols ∧
      c.methodList.map (fun m => m.toSignature) = c0.methodList.map (fun m => m.toSignature) ∧
      c.classMethodList.map (fun m => m.toSignature) =
        c0.classMethodList.map (fun m => m.toSignature) ∧
      c.initializerList.map (fun m => m.toSignature) =
        c0.initializerList.map (fun m => m.toSignature) := by
  obtain ⟨c0, hc0, he, _, _⟩ := h.final hc
  have hs := numberClass_static (superOf st.classes c0) c0
  refine ⟨c0, hc0, ?_, ?_, ?_, ?_, ?_, ?_, ?_⟩
  · rw [he, hs.2.1]
  · rw [he, hs.1]
  · rw [he, hs.2.2.2.2]
  · rw [he, hs.2.2.2.1]
  · rw [he, numberClass_methodList, numberMembers_signatures]
  · rw [he, numberClass_classMethodList, numberMembers_signatures]
  · rw [he]
    exact numberClass_initializerList _ _

theorem settled_of_fixpoint {sup : Option Super} {c : Class} (h : numberClass sup c = c) :
    Settled sup c := by
  have e := numberClass_eq sup c
  rw [h] at e
  refine ⟨?_, ?_, ?_, ?_, ?_, ?_, ?_⟩
  · exact congrArg Class.inheritsContructors e
  · exact congrArg Class.methodList e
  · exact congrArg Class.nextMethodVti e
  · exact congrArg Class.classMethodList e
  · exact congrArg Class.nextClassMethodVti e
  · exact congrArg Class.initializerList e
  · exact congrArg Class.nextInitializerVti e

theorem Processed.settled {chk : Checks} {cs0 : List Class} {st : AnalysisState}
    (h : Processed chk cs0 cs0.length st) {j : Nat} {c : Class} (hc : st.classes[j]? = some c) :
    Settled (superOf st.classes c) c :=
  settled_of_fixpoint (h.fixpoint hc)

theorem superOf_some {cs : List Class} {c : Class} {s : Nat} (hs : c.superclass = some s) :
    superOf cs c = some (superAt cs s) := by
  simp [superOf, hs]

theorem Processed.nextMethodVti_lt {chk : Checks} {cs0 : List Class} {st : AnalysisState}
    (hp : Processed chk cs0 cs0.length st) (hwf : superclassesFirst cs0 = true) :
    ∀ (j : Nat) (c : Class), st.classes[j]? = some c → c.nextMethodVti < UINT16 := by
  have hwf' := hp.wf hwf
  intro j
  induction j using Nat.strong_induction_on with
  | _ j ih =>
    intro c hc
    rw [(hp.settled hc).nextMethod]
    apply numberMembers_next_lt
    cases hs : c.superclass with
    | none =>
      simp only [superOf, hs, Option.map_none', seedMethod]
      decide
    | some s =>
      have hlt := superclassesFirst_lt hwf' hc hs
      have hsl : s < st.classes.length := Nat.lt_trans hlt (getElem?_lt_length hc)
      have hsc : st.classes[s]? = some st.classes[s] := List.getElem?_eq_getElem hsl
      rw [superOf_some hs]
      simp only [seedMethod, (superAt_nextMethodVti hsc).1]
      exact ih s hlt _ hsc

/-- C1: after a successful VTI pass over classes in superclass-before-subclass order, let `c` be
a class with the superclass at position `s`. The methods and class methods of `c` are the
declared ones, and whenever the lookup of the superclass finds a member under the name of a
method (or, independently, of a class method) of `c`, that member of `c` carries exactly the
VTI of the found member: no member of `c` shares a name with a member reachable from the
superclass under a different VTI. The loop iteration for such a member stores the VTI of the
found member and hands the counter on unchanged; it fails only with the error of one of its two
checks. -/
theorem override_reuses_superclass_vti (chk : Checks) (cs : List Class) (st : AnalysisState)
    (i s : Nat) (c : Class) (hwf : superclassesFirst cs = true)
    (h : assignVtis chk cs = .ok st) (hc : st.classes[i]? = some c)
    (hs : c.superclass = some s) :
    (∃ c0, cs[i]? = some c0 ∧
      c.methodList.map (fun m => m.toSignature) = c0.methodList.map (fun m => m.toSignature) ∧
      c.classMethodList.map (fun m => m.toSignature) =
        c0.classMethodList.map (fun m => m.toSignature)) ∧
    (∀ m ∈ c.methodList, ∀ sm, lookupMethod st.classes s m.name = some sm → m.vti = sm.vti) ∧
    (∀ m ∈ c.classMethodList, ∀ sm, lookupClassMethod st.classes s m.name = some sm →
      m.vti = sm.vti) ∧
    (∀ (sel : Super → EmojicodeChar → Option Procedure) (m sm : Procedure) (cnt : Counter),
      sel (superAt st.classes s) m.name = some sm →
      assignMemberVti chk (superOf st.classes c) sel m cnt =
        match chk.checkOverride m.toSignature (some sm.toSignature) with
        | some e => .error e
        | none =>
          match chk.checkPromises m.toSignature sm.toSignature with
          | some e => .error e
          | none => .ok ({ m with vti := sm.vti }, cnt)) := by
  have hp := processed_of_assignVtis hwf h
  have hset := hp.settled hc
  have hsup : superOf st.classes c = some (superAt st.classes s) := superOf_some hs
  rw [hsup] at hset
  obtain ⟨c0, hc0, _, _, _, _, hm, hcm, _⟩ := hp.declared hc
  refine ⟨⟨c0, hc0, hm, hcm⟩, ?_, ?_, ?_⟩
  · intro m hmem sm hsm
    rw [hset.methods] at hmem
    exact numberMembers_found _ _ _ m hmem sm hsm
  · intro m hmem sm hsm
    rw [hset.classMethods] at hmem
    exact numberMembers_found _ _ _ m hmem sm hsm
  · intro sel m sm cnt hsel
    rw [hsup]
    simp only [assignMemberVti, superLookup, hsel, Option.map_some', Nat.add_zero]

/-- C1, witness: class `B` of the example program overrides the method `m` of its superclass
`A`. -/
theorem override_reuses_superclass_vti_witness :
    assignVtis exampleChecks exampleProgram = .ok exampleFinal ∧
    (lookupMethod exampleFinal.classes 0 109).isSome = true ∧
    (∀ m ∈ (numberClass (superOf exampleFinal.classes classB) classB).methodList, ∀ sm,
      lookupMethod exampleFinal.classes 0 m.name = some sm → m.vti = sm.vti) :=
  ⟨rfl, rfl, (override_reuses_superclass_vti exampleChecks exampleProgram exampleFinal 1 0
    (numberClass (superOf exampleFinal.classes classB) classB) rfl rfl rfl rfl).2.1⟩

/-- C2 (amended): after a successful VTI pass over classes in superclass-before-subclass order,
let `c` be a class with the superclass `sc` at position `s`. The methods of `c` are the declared
ones; those that the lookup of the superclass does not find carry, in declaration order, the
consecutive VTIs `(sc.nextMethodVti + j) mod 65536` for `j = 0, 1, ...`, and the counter of `c`
ends at `(sc.nextMethodVti + k) mod 65536` for `k` such methods. In the example program `A{m}`,
`B<A{m,n}`, `C<A{p}` the pass yields `A.m = 0`, `B.m = 0`, `B.n = 1`, `C.p = 1`. -/
theorem fresh_methods_numbered_from_superclass :
    (∀ (chk : Checks) (cs : List Class) (st : AnalysisState) (i s : Nat) (c sc : Class),
      superclassesFirst cs = true → assignVtis chk cs = .ok st →
      st.classes[i]? = some c → c.superclass = some s → st.classes[s]? = some sc →
      (∃ c0, cs[i]? = some c0 ∧
        c.methodList.map (fun m => m.toSignature) =
          c0.methodList.map (fun m => m.toSignature)) ∧
      (freshMembers (lookupMethod st.classes s) c.methodList).map (fun m => m.vti) =
        (List.range (freshMembers (lookupMethod st.classes s) c.methodList).length).map
          (fun j => (sc.nextMethodVti + j) % UINT16) ∧
      c.nextMethodVti =
        (sc.nextMethodVti + (freshMembers (lookupMethod st.classes s) c.methodList).length)
          % UINT16) ∧
    (∃ st, assignVtis exampleChecks exampleProgram = .ok st ∧
      st.classes.map (fun c => (c.name, c.nextMethodVti, c.methodList.map fun m => (m.name, m.vti)))
        = [(65, 1, [(109, 0)]), (66, 2, [(109, 0), (110, 1)]), (67, 2, [(112, 1)])]) := by
  refine ⟨?_, _, rfl, rfl⟩
  intro chk cs st i s c sc hwf h hc hs hsc
  have hp := processed_of_assignVtis hwf h
  have hset := hp.settled hc
  have hlt := hp.nextMethodVti_lt hwf s sc hsc
  rw [superOf_some hs] at hset
  have hseed : seedMethod (some (superAt st.classes s)) = sc.nextMethodVti :=
    (superAt_nextMethodVti hsc).1
  have hlk : superFind (some (superAt st.classes s)) (fun v => v.lookupMethod)
      = lookupMethod st.classes s := rfl
  obtain ⟨c0, hc0, _, _, _, _, hm, _, _⟩ := hp.declared hc
  have hfresh := numberMembers_fresh (lookupMethod st.classes s) c.methodList
    sc.nextMethodVti hlt
  have hnext := numberMembers_next (lookupMethod st.classes s) c.methodList
    sc.nextMethodVti hlt
  have h1 := hset.methods
  have h2 := hset.nextMethod
  rw [hseed, hlk] at h1 h2
  rw [← h1] at hfresh
  rw [← h2] at hnext
  exact ⟨⟨c0, hc0, hm⟩, hfresh, hnext⟩

/-- C2, witness: class `B` of the example program: its new method `n` receives the VTI 1, the
next free VTI of its superclass `A`, and its counter ends at 2. -/
theorem fresh_methods_numbered_from_superclass_witness :
    assignVtis exampleChecks exampleProgram = .ok exampleFinal ∧
    (numberClass none classA).nextMethodVti = 1 ∧
    (freshMembers (lookupMethod exampleFinal.classes 0)
        (numberClass (superOf exampleFinal.classes classB) classB).methodList).map
          (fun m => m.vti) =
      (List.range (freshMembers (lookupMethod exampleFinal.classes 0)
        (numberClass (superOf exampleFinal.classes classB) classB).methodList).length).map
          (fun j => ((numberClass none classA).nextMethodVti + j) % UINT16) ∧
    (numberClass (superOf exampleFinal.classes classB) classB).nextMethodVti =
      ((numberClass none classA).nextMethodVti + (freshMembers (lookupMethod exampleFinal.classes 0)
        (numberClass (superOf exampleFinal.classes classB) classB).methodList).length)
        % UINT16 :=
  ⟨rfl, rfl, (fresh_methods_numbered_from_superclass.1 exampleChecks exampleProgram exampleFinal
    1 0 (numberClass (superOf exampleFinal.classes classB) classB) (numberClass none classA)
    rfl rfl rfl rfl rfl).2⟩

/-- C9 (amended): after a successful VTI pass over classes in superclass-before-subclass order,
let `c` be a class that has a superclass and builds its own initializer table. Its initializers
are the declared ones; those declared without the required attribute carry, in declaration
order, the consecutive VTIs `(R + j) mod 65536` for `j = 0, 1, ...`, where `R` is the number of
required initializers of `c` itself. -/
theorem plain_initializers_numbered_after_own_required (chk : Checks) (cs : List Class)
    (st : AnalysisState) (i s : Nat) (c : Class) (hwf : superclassesFirst cs = true)
    (h : assignVtis chk cs = .ok st) (hc : st.classes[i]? = some c)
    (hs : c.superclass = some s) (hown : c.inheritsContructors = false) :
    (∃ c0, cs[i]? = some c0 ∧
      c.initializerList.map (fun m => m.toSignature) =
        c0.initializerList.map (fun m => m.toSignature)) ∧
    (plainInitializers c.initializerList).map (fun m => m.vti) =
      (List.range (plainInitializers c.initializerList).length).map
        (fun j => (c.requiredInitializers.length + j) % UINT16) := by
  have hp := processed_of_assignVtis hwf h
  have hset := hp.settled hc
  rw [superOf_some hs] at hset
  obtain ⟨c0, hc0, _, _, _, _, _, _, hi⟩ := hp.declared hc
  have hflag : inheritFlag c = false := by rw [← hset.flag, hown]
  have h1 := hset.initializers
  simp only [hflag, seedInitializer, Bool.false_eq_true, if_false, Nat.zero_add] at h1
  have hplain := numberInitializers_plain
    (superFind (some (superAt st.classes s)) fun v => v.lookupInitializer) c.initializerList
    (c.requiredInitializers.length % UINT16) (subRequiredStart (some (superAt st.classes s)))
    (Nat.mod_lt _ (by decide))
  rw [← h1] at hplain
  refine ⟨⟨c0, hc0, hi⟩, ?_⟩
  rw [hplain]
  apply List.map_congr_left
  intro j _
  exact Nat.mod_add_mod _ _ _

/-- C9, witness: class `initT` of `initProgram` has two required initializers of its own; its
plain initializer receives VTI 2. -/
theorem plain_initializers_numbered_after_own_required_witness :
    assignVtis exampleChecks initProgram = .ok initFinal ∧
    (numberClass (superOf initFinal.classes initT) initT).requiredInitializers.length = 2 ∧
    (plainInitializers (numberClass (superOf initFinal.classes initT) initT).initializerList).map
        (fun m => m.vti) =
      (List.range (plainInitializers
        (numberClass (superOf initFinal.classes initT) initT).initializerList).length).map
        (fun j => ((numberClass (superOf initFinal.classes initT) initT).requiredInitializers.length
          + j) % UINT16) ∧
    (plainInitializers (numberClass (superOf initFinal.classes initT) initT).initializerList).map
        (fun m => m.vti) = [2] :=
  ⟨rfl, rfl, (plain_initializers_numbered_after_own_required exampleChecks initProgram initFinal
    2 1 (numberClass (superOf initFinal.classes initT) initT) rfl rfl rfl rfl rfl).2, rfl⟩

/-! ## Programs with very many methods -/

theorem lookupIn_rootDone (table : Class → List Procedure) (htable : table rootDone = [])
    (rest : List Class) (name : EmojicodeChar) :
    ∀ fuel, lookupIn table (rootDone :: rest) fuel 0 name = none
  | 0 => rfl
  | fuel + 1 => by
    have hs : rootDone.superclass = none := rfl
    simp [lookupIn, htable, findByName, hs]

theorem superAt_rootDone (rest : List Class) : superAt (rootDone :: rest) 0 = rootView := by
  unfold rootView superAt
  simp only [List.getD_cons_zero, Super.mk.injEq, true_and]
  refine ⟨?_, ?_, ?_⟩ <;> funext name
  · simp only [lookupMethod]
    rw [lookupIn_rootDone _ rfl, lookupIn_rootDone _ rfl]
  · simp only [lookupClassMethod]
    rw [lookupIn_rootDone _ rfl, lookupIn_rootDone _ rfl]
  · simp only [lookupInitializer]
    rw [lookupIn_rootDone _ rfl, lookupIn_rootDone _ rfl]

theorem rootView_lookupMethod (name : EmojicodeChar) : rootView.lookupMethod name = none := by
  unfold rootView superAt
  simp only [lookupMethod]
  exact lookupIn_rootDone _ rfl _ _ _

theorem rootClass_step (rest : List Class) :
    analyzeClassVti exampleChecks { classes := rootClass :: rest } 0 =
      .ok { classes := rootDone :: rest, nullCalls := 0 } := by
  have hc : ({ classes := rootClass :: rest } : AnalysisState).classes[0]? = some rootClass := by
    simp
  have hsup : superOf (rootClass :: rest) rootClass = none := rfl
  rw [analyzeClassVti_of_pass hc
    (by rw [hsup]; exact classPasses_root (fun a => exampleChecks_override a none) _)]
  simp only [hsup, List.set_cons_zero]
  rfl

theorem manyMethods_passes (k : Nat) : classPasses exampleChecks (some rootView) (manyMethods k) := by
  refine ⟨membersPass_fresh (fun a => exampleChecks_override a none) _ _ ?_, ?_, ?_⟩
  · intro m _
    exact rootView_lookupMethod m.name
  · intro m hm
    cases hm
  · intro m hm
    cases hm

theorem manyMethods_step (k : Nat) (rest : List Class) :
    analyzeClassVti exampleChecks { classes := rootDone :: manyMethods k :: rest } 1 =
      .ok { classes := rootDone :: manyDone k :: rest, nullCalls := 0 } := by
  have hc : ({ classes := rootDone :: manyMethods k :: rest } : AnalysisState).classes[1]? =
      some (manyMethods k) := by simp
  have hsup : superOf (rootDone :: manyMethods k :: rest) (manyMethods k) = some rootView := by
    rw [superOf_some (rfl : (manyMethods k).superclass = some 0), superAt_rootDone]
  rw [analyzeClassVti_of_pass hc (by rw [hsup]; exact manyMethods_passes k)]
  simp only [hsup, nullCallsOf, List.set_cons_succ, List.set_cons_zero, Nat.add_zero]
  rfl

theorem manyDone_nextMethodVti (k : Nat) : (manyDone k).nextMethodVti = k % UINT16 := by
  unfold manyDone
  rw [numberClass_nextMethodVti]
  have hseed : (seedCounters (some rootView) (decideInheritance (manyMethods k))).nextMethodVti
      = 0 := rfl
  rw [hseed, numberMembers_next _ _ 0 (by decide), superFind_some,
    freshMembers_of_forall (fun name => rootView.lookupMethod name) _
      (fun m _ => rootView_lookupMethod m.name),
    manyMethods_methodList, List.length_map, List.length_range, Nat.zero_add]

theorem manyDone_static (k : Nat) :
    (manyDone k).superclass = some 0 ∧ (manyDone k).protocols = [protocolZero] := by
  unfold manyDone
  rw [(numberClass_static _ _).1, (numberClass_static _ _).2.2.2.1]
  exact ⟨rfl, rfl⟩

theorem manyDone_find_none (k name : Nat) (h : k ≤ name) :
    findByName (manyDone k).methodList name = none := by
  unfold manyDone
  rw [numberClass_methodList]
  apply findByName_numberMembers_none
  rw [findByName_eq_none]
  intro q hq
  rw [manyMethods_methodList, List.mem_map] at hq
  obtain ⟨j, hj, rfl⟩ := hq
  rw [List.mem_range] at hj
  show j ≠ name
  omega

theorem manyDone_find_zero (k : Nat) :
    findByName (manyDone (k + 1)).methodList 0 = some { name := 0, vti := 0 } := by
  have hml : (manyDone (k + 1)).methodList =
      (numberMembers (superFind (some rootView) fun s => s.lookupMethod)
        ((List.range (k + 1)).map fun j => ({ name := j } : Procedure)) 0).1 := by
    unfold manyDone
    rw [numberClass_methodList, manyMethods_methodList]
    rfl
  have hroot : superFind (some rootView) (fun s => s.lookupMethod) 0 = none :=
    rootView_lookupMethod 0
  rw [hml, List.range_succ_eq_map]
  simp [numberMembers, findByName, memberVti, hroot]

theorem lookupMethod_manyDone (k : Nat) (rest : List Class) (name : EmojicodeChar) :
    lookupMethod (rootDone :: manyDone k :: rest) 1 name =
      findByName (manyDone k).methodList name := by
  have hfuel : (rootDone :: manyDone k :: rest).length = rest.length + 1 + 1 := by simp
  unfold lookupMethod
  rw [hfuel, lookupIn.eq_2]
  simp only [List.getElem?_cons_succ, List.getElem?_cons_zero, (manyDone_static k).1]
  cases findByName (manyDone k).methodList name with
  | some q => rfl
  | none => exact lookupIn_rootDone (fun c => c.methodList) rfl _ _ _

theorem wrapSubclass_step (k : Nat) (hk : k ≤ 70000) :
    analyzeClassVti exampleChecks { classes := [rootDone, manyDone k, wrapSubclass] } 2 =
      .ok { classes := [rootDone, manyDone k, wrapDone k], nullCalls := 0 } := by
  have hc : ({ classes := [rootDone, manyDone k, wrapSubclass] } : AnalysisState).classes[2]? =
      some wrapSubclass := by simp
  have hsup : superOf [rootDone, manyDone k, wrapSubclass] wrapSubclass =
      some (superAt [rootDone, manyDone k, wrapSubclass] 1) := rfl
  have hpass : classPasses exampleChecks
      (superOf [rootDone, manyDone k, wrapSubclass] wrapSubclass) wrapSubclass := by
    rw [hsup]
    refine ⟨membersPass_fresh (fun a => exampleChecks_override a none) _ _ ?_, ?_, ?_⟩
    · intro m hm
      have hm' : m = { name := 70000 } ∨ m = { name := 70001 } := by
        simpa [wrapSubclass] using hm
      show lookupMethod [rootDone, manyDone k, wrapSubclass] 1 m.name = none
      rw [lookupMethod_manyDone]
      rcases hm' with rfl | rfl
      · exact manyDone_find_none k 70000 hk
      · exact manyDone_find_none k 70001 (by omega)
    · intro m hm
      cases hm
    · intro m hm
      cases hm
  rw [analyzeClassVti_of_pass hc hpass]
  simp only [hsup, nullCallsOf, List.set_cons_succ, List.set_cons_zero, Nat.add_zero]
  rfl

theorem wrapProgram_result (k : Nat) (hk : k ≤ 70000) :
    assignVtis exampleChecks [rootClass, manyMethods k, wrapSubclass] =
      .ok { classes := [rootDone, manyDone k, wrapDone k], nullCalls := 0 } := by
  have hlen : List.range [rootClass, manyMethods k, wrapSubclass].length = [0, 1, 2] := rfl
  unfold assignVtis
  rw [hlen]
  simp only [assignVtisFrom, rootClass_step, manyMethods_step, wrapSubclass_step k hk]

theorem wrapDone_facts (k : Nat) (hk : k ≤ 70000) :
    (wrapDone k).superclass = some 1 ∧
    (wrapDone k).methodList.map (fun m => (m.name, m.vti)) =
      [(70000, k % UINT16), (70001, (k % UINT16 + 1) % UINT16)] ∧
    (wrapDone k).nextMethodVti = ((k % UINT16 + 1) % UINT16 + 1) % UINT16 := by
  have hml : wrapSubclass.methodList = [{ name := 70000 }, { name := 70001 }] := rfl
  have hseed : (seedCounters (some (superAt [rootDone, manyDone k, wrapSubclass] 1))
      (decideInheritance wrapSubclass)).nextMethodVti = k % UINT16 := by
    rw [← manyDone_nextMethodVti k]
    rfl
  have hf0 : superFind (some (superAt [rootDone, manyDone k, wrapSubclass] 1))
      (fun s => s.lookupMethod) 70000 = none := by
    show lookupMethod [rootDone, manyDone k, wrapSubclass] 1 70000 = none
    rw [lookupMethod_manyDone]
    exact manyDone_find_none k 70000 hk
  have hf1 : superFind (some (superAt [rootDone, manyDone k, wrapSubclass] 1))
      (fun s => s.lookupMethod) 70001 = none := by
    show lookupMethod [rootDone, manyDone k, wrapSubclass] 1 70001 = none
    rw [lookupMethod_manyDone]
    exact manyDone_find_none k 70001 (by omega)
  unfold wrapDone
  refine ⟨?_, ?_, ?_⟩
  · rw [(numberClass_static _ _).1]
    rfl
  · rw [numberClass_methodList, hseed, hml]
    simp [numberMembers, memberVti, memberNext, hf0, hf1]
  · rw [numberClass_nextMethodVti, hseed, hml]
    simp [numberMembers, memberNext, hf0, hf1]

theorem wrapProgram_facts (k : Nat) (hk : k ≤ 70000) :
    ∃ st s c, assignVtis exampleChecks [rootClass, manyMethods k, wrapSubclass] = .ok st ∧
      st.nullCalls = 0 ∧ st.classes[1]? = some s ∧ st.classes[2]? = some c ∧
      c.superclass = some 1 ∧
      lookupMethod st.classes 1 70000 = none ∧ lookupMethod st.classes 1 70001 = none ∧
      s.nextMethodVti = k % UINT16 ∧
      c.methodList.map (fun m => (m.name, m.vti)) =
        [(70000, k % UINT16), (70001, (k % UINT16 + 1) % UINT16)] ∧
      c.nextMethodVti = ((k % UINT16 + 1) % UINT16 + 1) % UINT16 := by
  obtain ⟨h1, h2, h3⟩ := wrapDone_facts k hk
  refine ⟨_, manyDone k, wrapDone k, wrapProgram_result k hk, rfl, rfl, rfl, h1, ?_, ?_,
    manyDone_nextMethodVti k, h2, h3⟩
  · show lookupMethod [rootDone, manyDone k, wrapDone k] 1 70000 = none
    rw [lookupMethod_manyDone]
    exact manyDone_find_none k 70000 hk
  · show lookupMethod [rootDone, manyDone k, wrapDone k] 1 70001 = none
    rw [lookupMethod_manyDone]
    exact manyDone_find_none k 70001 (by omega)

/-- C2, counterexample: the superclass holds 65535 methods, so its next free method VTI is
65535; the two new methods of the subclass receive the VTIs 65535 and 0 (not 65535 and 65536)
and the counter of the subclass ends at 1 (not at 65535 + 2). No class of the program lacks a
superclass while declaring members. -/
theorem fresh_methods_wrap_around :
    ∃ st s c, assignVtis exampleChecks wrapProgram = .ok st ∧
      st.nullCalls = 0 ∧ st.classes[1]? = some s ∧ st.classes[2]? = some c ∧
      c.superclass = some 1 ∧
      lookupMethod st.classes 1 70000 = none ∧ lookupMethod st.classes 1 70001 = none ∧
      s.nextMethodVti = 65535 ∧
      c.methodList.map (fun m => (m.name, m.vti)) = [(70000, 65535), (70001, 0)] ∧
      c.nextMethodVti = 1 ∧
      c.methodList.map (fun m => m.vti) ≠ [s.nextMethodVti, s.nextMethodVti + 1] ∧
      c.nextMethodVti ≠ s.nextMethodVti + 2 := by
  obtain ⟨st, s, c, h1, h2, h3, h4, h5, h6, h7, h8, h9, h10⟩ :=
    wrapProgram_facts 65535 (by decide)
  have h8' : s.nextMethodVti = 65535 := h8
  have h9' : c.methodList.map (fun m => (m.name, m.vti)) = [(70000, 65535), (70001, 0)] := h9
  have h10' : c.nextMethodVti = 1 := h10
  have hv : c.methodList.map (fun m => m.vti) = [65535, 0] := by
    have := congrArg (List.map Prod.snd) h9'
    simpa [List.map_map, Function.comp] using this
  refine ⟨st, s, c, h1, h2, h3, h4, h5, h6, h7, h8', h9', h10', ?_, ?_⟩
  · rw [hv, h8']
    decide
  · rw [h10', h8']
    decide

theorem manyProgram_result (k : Nat) :
    assignVtis exampleChecks [rootClass, manyMethods k] =
      .ok { classes := [rootDone, manyDone k], nullCalls := 0 } := by
  have hlen : List.range [rootClass, manyMethods k].length = [0, 1] := rfl
  unfold assignVtis
  rw [hlen]
  simp only [assignVtisFrom, rootClass_step, manyMethods_step]

/-- C6, counterexample: three classes that declare a conformance and have a same-named method
for each method of the protocol. `classQ` declares `equals` without its argument: the analysis
of the conformance ends with an error and the record is not completed. `classR` conforms to a
protocol with index 65536: the index field of its record holds 0. A class with 65536 methods
conforms to `protocolZero`: its method-table size `nextMethodVti` is 0 and the VTI 0 recorded
for the protocol method is not smaller. -/
theorem protocol_record_failures :
    (assignVtis exampleChecks protocolProgram = .ok protocolFinal ∧
      protocolFinal.nullCalls = 0 ∧
      ∃ c, protocolFinal.classes[4]? = some c ∧ protocolEq ∈ c.protocols ∧
        (lookupMethod protocolFinal.classes 4 101).isSome = true ∧
        writeProtocolRecord exampleChecks (lookupMethod protocolFinal.classes 4) c protocolEq =
          { written := [Field.uint16 0, Field.uint16 1, Field.uint16 0]
            error := some (.promiseViolation 101 1) } ∧
        (writeProtocolRecord exampleChecks (lookupMethod protocolFinal.classes 4) c
          protocolEq).error ≠ none) ∧
    (∃ c, protocolFinal.classes[5]? = some c ∧ protocolBig ∈ c.protocols ∧
        protocolBig.index = 65536 ∧
        writeProtocolRecord exampleChecks (lookupMethod protocolFinal.classes 5) c protocolBig =
          { written := [Field.uint16 0, Field.uint16 0], error := none } ∧
        (writeProtocolRecord exampleChecks (lookupMethod protocolFinal.classes 5) c
          protocolBig).written.head? ≠ some (Field.uint16 protocolBig.index)) ∧
    (∃ st c, assignVtis exampleChecks [rootClass, manyMethods 65536] = .ok st ∧
        st.nullCalls = 0 ∧ st.classes[1]? = some c ∧ protocolZero ∈ c.protocols ∧
        foundVti (lookupMethod st.classes 1) 0 = 0 ∧ c.nextMethodVti = 0 ∧
        writeProtocolRecord exampleChecks (lookupMethod st.classes 1) c protocolZero =
          { written := [Field.uint16 2, Field.uint16 1, Field.uint16 0], error := none } ∧
        ¬ foundVti (lookupMethod st.classes 1) 0 < c.nextMethodVti) := by
  refine ⟨⟨rfl, rfl, _, rfl, by decide, rfl, rfl, by decide⟩,
    ⟨_, rfl, by decide, rfl, rfl, by decide⟩, ?_⟩
  have hl : lookupMethod [rootDone, manyDone 65536] 1 0 = some { name := 0, vti := 0 } := by
    rw [lookupMethod_manyDone]
    exact manyDone_find_zero 65535
  have hn : (manyDone 65536).nextMethodVti = 0 := by
    rw [manyDone_nextMethodVti]
    rfl
  have hf : foundVti (lookupMethod [rootDone, manyDone 65536] 1) 0 = 0 := by
    rw [foundVti, hl]
  refine ⟨_, manyDone 65536, manyProgram_result 65536, rfl, rfl, ?_, hf, hn, ?_, ?_⟩
  · rw [(manyDone_static _).2]
    exact List.mem_singleton.mpr rfl
  · show writeProtocolRecord exampleChecks (lookupMethod [rootDone, manyDone 65536] 1)
      _ protocolZero = _
    have hconf : ∀ m ∈ protocolZero.methods,
        conformsTo exampleChecks (lookupMethod [rootDone, manyDone 65536] 1)
          protocolZero m := by
      intro m hm
      have : m = { name := 0 } := List.mem_singleton.mp hm
      subst this
      exact ⟨_, hl, rfl⟩
    rw [writeProtocolRecord_ok hconf]
    simp only [protocolZero, List.map_cons, List.map_nil, foundVti, hl]
    rfl
  · show ¬ foundVti (lookupMethod [rootDone, manyDone 65536] 1) 0 < (manyDone 65536).nextMethodVti
    rw [hf, hn]
    decide

/-! ## Overriding required initializers -/

theorem numberInitializers_found (lk : EmojicodeChar → Option Procedure) :
    ∀ (ms : List Procedure) (n k : Nat) (m : Procedure), m ∈ (numberInitializers lk ms n k).1 →
      m.required = true → ∀ s, lk m.name = some s → m.vti = s.vti
  | [], _, _, m, h => by simp [numberInitializers] at h
  | m0 :: ms, n, k, m, h => by
    intro hr s hs
    simp only [numberInitializers, List.mem_cons] at h
    rcases h with h | h
    · subst h
      simp only at hs hr
      simp [initializerVti, hs, hr]
    · exact numberInitializers_found lk ms _ _ m h hr s hs

/-- C11 (amended): after a successful VTI pass over classes in superclass-before-subclass order,
let `c` be a class with the superclass at position `s`. The initializers of `c` are the declared
ones, and every initializer of `c` that is declared with the required attribute and overrides a
required initializer, found under its name by the initializer lookup of the superclass, carries
exactly the VTI of that initializer. The loop iteration for such an initializer stores the VTI
of the overridden initializer and hands on both counters (`nextInitializerVti` and
`subRequiredInitializerNextVti`) unchanged; it fails only with the error of one of its two
checks. -/
theorem required_override_reuses_superclass_vti (chk : Checks) (cs : List Class)
    (st : AnalysisState) (i s : Nat) (c : Class) (hwf : superclassesFirst cs = true)
    (h : assignVtis chk cs = .ok st) (hc : st.classes[i]? = some c)
    (hs : c.superclass = some s) :
    (∃ c0, cs[i]? = some c0 ∧
      c.initializerList.map (fun m => m.toSignature) =
        c0.initializerList.map (fun m => m.toSignature)) ∧
    (∀ m ∈ c.initializerList, m.required = true →
      ∀ sm, lookupInitializer st.classes s m.name = some sm → sm.required = true →
        m.vti = sm.vti) ∧
    (∀ (m sm : Procedure) (cnt : InitCounter), m.required = true →
      lookupInitializer st.classes s m.name = some sm → sm.required = true →
      assignInitializerVti chk (superOf st.classes c) m cnt =
        match chk.checkOverride m.toSignature (some sm.toSignature) with
        | some e => .error e
        | none =>
          match chk.checkPromises m.toSignature sm.toSignature with
          | some e => .error e
          | none => .ok ({ m with vti := sm.vti }, cnt)) := by
  have hp := processed_of_assignVtis hwf h
  have hset := hp.settled hc
  have hsup : superOf st.classes c = some (superAt st.classes s) := superOf_some hs
  rw [hsup] at hset
  obtain ⟨c0, hc0, _, _, _, _, _, _, hi⟩ := hp.declared hc
  refine ⟨⟨c0, hc0, hi⟩, ?_, ?_⟩
  · intro m hmem hr sm hsm _
    rw [hset.initializers] at hmem
    exact numberInitializers_found _ _ _ _ m hmem hr sm hsm
  · intro m sm cnt hr hsel _
    rw [hsup]
    have hsel' : (superAt st.classes s).lookupInitializer m.name = some sm := hsel
    simp only [assignInitializerVti, superLookup, hsel', Option.map_some', Nat.add_zero, hr,
      if_true] <;> rfl

/-- C11, witness: class `initT` of `initProgram` declares the required initializer 1, which its
superclass `initS` declares as required with VTI 0: the initializer of `initT` carries VTI 0. -/
theorem required_override_reuses_superclass_vti_witness :
    assignVtis exampleChecks initProgram = .ok initFinal ∧
    (lookupInitializer initFinal.classes 1 1).map (fun sm => (sm.required, sm.vti))
      = some (true, 0) ∧
    ((numberClass (superOf initFinal.classes initT) initT).initializerList.map
      fun m => (m.name, m.required, m.vti)) = [(1, true, 0), (3, true, 1), (4, false, 2)] ∧
    (∀ m ∈ (numberClass (superOf initFinal.classes initT) initT).initializerList,
      m.required = true →
      ∀ sm, lookupInitializer initFinal.classes 1 m.name = some sm → sm.required = true →
        m.vti = sm.vti) :=
  ⟨rfl, rfl, rfl,
    (required_override_reuses_superclass_vti exampleChecks initProgram initFinal 2 1
      (numberClass (superOf initFinal.classes initT) initT) rfl rfl rfl rfl).2.1⟩

/-- C11, counterexample: the superclass `initS` declares the required initializer 1, which
carries VTI 0. The class `initY` overrides it with an initializer declared without the required
attribute: that initializer receives VTI 1, the value of the counter `nextInitializerVti`, and
the iteration advances the counter from 1 to 2. -/
theorem plain_override_of_required_initializer_gets_fresh_vti :
    assignVtis exampleChecks collisionProgram = .ok collisionFinal ∧
    collisionFinal.nullCalls = 0 ∧
    (∃ c m sm, collisionFinal.classes[2]? = some c ∧ c.superclass = some 1 ∧
      m ∈ c.initializerList ∧ m.overriding = true ∧
      lookupInitializer collisionFinal.classes 1 m.name = some sm ∧ sm.required = true ∧
      sm.vti = 0 ∧ m.vti = 1 ∧ m.vti ≠ sm.vti) ∧
    assignInitializerVti exampleChecks (superOf collisionFinal.classes initY)
        { name := 1, overriding := true } { next := 1, subRequired := 2 } =
      .ok ({ name := 1, overriding := true, vti := 1 }, { next := 2, subRequired := 2 }) ∧
    ({ next := 2, subRequired := 2 } : InitCounter) ≠ { next := 1, subRequired := 2 } :=
  ⟨rfl, rfl, ⟨_, { name := 1, overriding := true, vti := 1 },
    { name := 1, required := true, vti := 0 }, rfl, rfl, by decide, rfl, rfl, rfl, rfl, rfl,
    by decide⟩, rfl, by decide⟩

/-! ## Required initializers at the close of a class declaration -/

theorem parseBodyDeclaration_required {env : ParserEnv} {i : Nat} {d : BodyDeclaration}
    {st st' : BodyState} (h : parseBodyDeclaration env i d st = .ok st') :
    st'.requiredInitializers =
      st.requiredInitializers.map fun r => r.filter fun n => n ∉ declaredInitializers [d] := by
  unfold parseBodyDeclaration at h
  cases hk : d.keyword with
  | E_SHORTCAKE v =>
    simp only [hk] at h
    split at h
    · cases h
    · split at h
      · cases h
      · cases h
        simp [declaredInitializers, hk]
  | E_CROCODILE t =>
    simp only [hk] at h
    split at h
    · cases h
    · split at h
      · cases h
      · split at h
        · cases h
        · cases h
          simp [declaredInitializers, hk]
  | E_PIG name args ret =>
    simp only [hk] at h
    split at h
    · cases h
    · split at h
      · split at h
        · split at h
          · cases h
          · split at h
            · cases h
            · cases h
              simp [declaredInitializers, hk]
        · cases h
          simp [declaredInitializers, hk]
      · split at h
        · cases h
        · cases h
          simp [declaredInitializers, hk]
  | E_CAT name args =>
    simp only [hk] at h
    split at h
    · cases h
    · cases h
      simp only [declaredInitializers, hk, setErase, List.filterMap_cons, List.filterMap_nil,
        List.mem_singleton]
      congr 1
      funext r
      apply List.filter_congr
      intro x _
      by_cases hx : x = name <;> simp [hx]
  | unexpected c =>
    simp only [hk] at h
    cases h

theorem declaredInitializers_cons (d : BodyDeclaration) (rest : List BodyDeclaration) :
    declaredInitializers (d :: rest) = declaredInitializers [d] ++ declaredInitializers rest :=
  List.filterMap_append [d] rest _

theorem parseClassBody_required {env : ParserEnv} {i : Nat} :
    ∀ (body : List BodyDeclaration) {st st' : BodyState},
      parseClassBody env i body st = .ok st' →
      st'.requiredInitializers =
        st.requiredInitializers.map fun r => r.filter fun n => n ∉ declaredInitializers body
  | [], st, st', h => by
    simp only [parseClassBody, Except.ok.injEq] at h
    subst h
    cases st.requiredInitializers <;> simp [declaredInitializers]
  | d :: rest, st, st', h => by
    simp only [parseClassBody] at h
    cases h1 : parseBodyDeclaration env i d st with
    | error e => rw [h1] at h; cases h
    | ok st1 =>
      rw [h1] at h
      rw [parseClassBody_required rest h, parseBodyDeclaration_required h1]
      cases st.requiredInitializers with
      | none => rfl
      | some r =>
        simp only [Option.map_some', Option.some.injEq, List.filter_filter]
        apply List.filter_congr
        intro x _
        rw [declaredInitializers_cons d rest]
        simp only [List.mem_append, not_or, Bool.decide_and, Bool.and_comm]

theorem foldl_min_le_init : ∀ (rest : List Nat) (n : Nat), rest.foldl min n ≤ n
  | [], _ => Nat.le_refl _
  | x :: rest, n => by
    simp only [List.foldl_cons]
    exact Nat.le_trans (foldl_min_le_init rest _) (Nat.min_le_left _ _)

theorem foldl_min_le : ∀ (rest : List Nat) (n : Nat), ∀ m ∈ rest, rest.foldl min n ≤ m
  | [], _, m, h => by cases h
  | x :: rest, n, m, h => by
    simp only [List.foldl_cons]
    rcases List.mem_cons.mp h with h | h
    · subst h
      exact Nat.le_trans (foldl_min_le_init rest _) (Nat.min_le_right _ _)
    · exact foldl_min_le rest _ m h

theorem foldl_min_mem : ∀ (rest : List Nat) (n : Nat), rest.foldl min n ∈ n :: rest
  | [], _ => List.mem_cons_self _ _
  | x :: rest, n => by
    simp only [List.foldl_cons]
    have h := foldl_min_mem rest (min n x)
    rcases List.mem_cons.mp h with h | h
    · rw [h]
      rcases Nat.le_total n x with hle | hle
      · rw [Nat.min_eq_left hle]; exact List.mem_cons_self _ _
      · rw [Nat.min_eq_right hle]; exact List.mem_cons_of_mem _ (List.mem_cons_self _ _)
    · exact List.mem_cons_of_mem _ (List.mem_cons_of_mem _ h)

theorem checkRequiredInitializers_some {r : List EmojicodeChar} (h : r ≠ []) :
    ∃ n, checkRequiredInitializers r = some (.missingRequiredInitializer n) ∧ n ∈ r ∧
      ∀ m ∈ r, n ≤ m := by
  cases r with
  | nil => exact absurd rfl h
  | cons x rest =>
    refine ⟨rest.foldl min x, rfl, foldl_min_mem rest x, ?_⟩
    intro m hm
    rcases List.mem_cons.mp hm with hm | hm
    · subst hm; exact foldl_min_le_init rest _
    · exact foldl_min_le rest x m hm

theorem firstError_mem : ∀ {l : List (Option CompilerError)} {e : CompilerError},
    firstError l = some e → some e ∈ l
  | [], _, h => by cases h
  | some x :: rest, e, h => by
    simp only [firstError, Option.some.injEq] at h
    subst h
    exact List.mem_cons_self _ _
  | none :: rest, e, h => List.mem_cons_of_mem _ (firstError_mem (l := rest) h)

theorem invalidAttribute_eq {b : Bool} {a : Attribute} {e : CompilerError}
    (h : some e = invalidAttribute b a) : e = .inapplicableAttribute a := by
  unfold invalidAttribute at h
  split at h
  · exact Option.some.inj h
  · cases h

theorem noAttributeAllowed_eq {d : BodyDeclaration} {e : CompilerError}
    (h : noAttributeAllowed d = some e) : ∃ a, e = .inapplicableAttribute a := by
  have hm := firstError_mem h
  simp only [List.mem_cons, List.mem_singleton, List.not_mem_nil, or_false] at hm
  rcases hm with hm | hm | hm | hm | hm | hm <;> exact ⟨_, invalidAttribute_eq hm⟩

theorem methodAttributes_eq {d : BodyDeclaration} {e : CompilerError}
    (h : firstError [invalidAttribute d.required .E_KEY,
      invalidAttribute d.canReturnNothingness .E_CANDY] = some e) :
    ∃ a, e = .inapplicableAttribute a := by
  have hm := firstError_mem h
  simp only [List.mem_cons, List.mem_singleton, List.not_mem_nil, or_false] at hm
  rcases hm with hm | hm <;> exact ⟨_, invalidAttribute_eq hm⟩

theorem parseBodyDeclaration_not_missing {env : ParserEnv} {i : Nat} {d : BodyDeclaration}
    {st : BodyState} {e : CompilerError} (h : parseBodyDeclaration env i d st = .error e) :
    ∀ n, e ≠ .missingRequiredInitializer n := by
  intro n hn
  subst hn
  unfold parseBodyDeclaration at h
  cases hk : d.keyword with
  | E_SHORTCAKE v =>
    simp only [hk] at h
    split at h
    · next e he =>
      cases h
      obtain ⟨a, ha⟩ := noAttributeAllowed_eq he
      cases ha
    · split at h <;> cases h
  | E_CROCODILE t =>
    simp only [hk] at h
    split at h
    · next e he =>
      cases h
      obtain ⟨a, ha⟩ := noAttributeAllowed_eq he
      cases ha
    · split at h
      · cases h
      · split at h <;> cases h
  | E_PIG name args ret =>
    simp only [hk] at h
    split at h
    · next e he =>
      cases h
      obtain ⟨a, ha⟩ := methodAttributes_eq he
      cases ha
    · split at h
      · split at h
        · split at h
          · cases h
          · split at h <;> cases h
        · cases h
      · split at h
        · next e he =>
          cases h
          unfold reservedEmojis at he
          split at he <;> cases he
        · cases h
  | E_CAT name args =>
    simp only [hk] at h
    split at h
    · next e he =>
      cases h
      cases invalidAttribute_eq he.symm
    · cases h
  | unexpected c =>
    simp only [hk] at h
    cases h

theorem parseClassBody_not_missing {env : ParserEnv} {i : Nat} :
    ∀ (body : List BodyDeclaration) {st : BodyState} {e : CompilerError},
      parseClassBody env i body st = .error e → ∀ n, e ≠ .missingRequiredInitializer n
  | [], st, e, h => by cases h
  | d :: rest, st, e, h => by
    simp only [parseClassBody] at h
    cases h1 : parseBodyDeclaration env i d st with
    | error e1 =>
      rw [h1] at h
      cases h
      exact parseBodyDeclaration_not_missing h1
    | ok st1 =>
      rw [h1] at h
      exact parseClassBody_not_missing rest h

/-- C12: let a class be declared with a superclass `sc` (the declaration passes the checks of
the class name and of the superclass name). If parsing the class body ends with an error, this
error ends `parseClass` and it is not the missing-required-initializer error. If the body is
parsed, `parseClass` succeeds, registering the class, if and only if every name in the set of
required initializers of `sc` is the name of an initializer declared in the body; otherwise it
fails with the missing-required-initializer error that names the least element of the set of
required names that no initializer of the body carries. -/
theorem required_initializers_checked_at_close (env : ParserEnv) (st : ParserState)
    (d : ClassDeclaration) (s : Nat) (sc : Class)
    (hname : parseAndValidateTypeName st { name := d.name, optional := d.optional } = none)
    (hsup : parseSuperclass st d = .ok (some s)) (hsc : st.classes[s]? = some sc) :
    (∀ e, parseClassBody env st.classes.length d.body
        (bodyStart st (newClass st d.name (some s)) (some sc.requiredInitializers)) = .error e →
      parseClass env st d = .error e ∧ ∀ n, e ≠ .missingRequiredInitializer n) ∧
    (∀ bst, parseClassBody env st.classes.length d.body
        (bodyStart st (newClass st d.name (some s)) (some sc.requiredInitializers)) = .ok bst →
      ((∃ st', parseClass env st d = .ok st') ↔
        ∀ n ∈ sc.requiredInitializers, n ∈ declaredInitializers d.body) ∧
      ((∀ n ∈ sc.requiredInitializers, n ∈ declaredInitializers d.body) →
        parseClass env st d = .ok (registerClass st d.name bst)) ∧
      (¬ (∀ n ∈ sc.requiredInitializers, n ∈ declaredInitializers d.body) →
        ∃ n, parseClass env st d = .error (.missingRequiredInitializer n) ∧
          n ∈ sc.requiredInitializers ∧ n ∉ declaredInitializers d.body ∧
          ∀ m ∈ sc.requiredInitializers, m ∉ declaredInitializers d.body → n ≤ m)) := by
  have hreq : requiredOfSuperclass st.classes (some s) = sc.requiredInitializers := by
    simp [requiredOfSuperclass, hsc]
  have hunf : parseClass env st d =
      match parseClassBody env st.classes.length d.body
          (bodyStart st (newClass st d.name (some s)) (some sc.requiredInitializers)) with
      | .error e => .error e
      | .ok bst =>
        match checkRequiredInitializers (bst.requiredInitializers.getD []) with
        | some e => .error e
        | none => .ok (registerClass st d.name bst) := by
    unfold parseClass
    simp only [hname, hsup, hreq]
  refine ⟨?_, ?_⟩
  · intro e he
    rw [hunf, he]
    exact ⟨rfl, parseClassBody_not_missing d.body he⟩
  · intro bst hb
    have hr := parseClassBody_required d.body hb
    simp only [bodyStart, Option.map_some'] at hr
    have hget : bst.requiredInitializers.getD [] =
        sc.requiredInitializers.filter fun n => n ∉ declaredInitializers d.body := by
      rw [hr]; rfl
    rw [hunf, hb]
    simp only [hget]
    by_cases hall : ∀ n ∈ sc.requiredInitializers, n ∈ declaredInitializers d.body
    · have hnil : (sc.requiredInitializers.filter fun n => n ∉ declaredInitializers d.body)
          = [] := by
        rw [List.filter_eq_nil_iff]
        intro n hn
        simpa using hall n hn
      rw [hnil]
      exact ⟨Iff.intro (fun _ => hall) (fun _ => ⟨_, rfl⟩), fun _ => rfl,
        fun hne => absurd hall hne⟩
    · have hne : (sc.requiredInitializers.filter fun n => n ∉ declaredInitializers d.body)
          ≠ [] := by
        intro hnil
        rw [List.filter_eq_nil_iff] at hnil
        apply hall
        intro n hn
        simpa using hnil n hn
      obtain ⟨n, hn, hmem, hle⟩ := checkRequiredInitializers_some hne
      rw [hn]
      simp only [List.mem_filter, decide_eq_true_eq] at hmem hle
      refine ⟨Iff.intro ?_ (fun h' => absurd h' hall), fun h' => absurd h' hall,
        fun _ => ⟨n, rfl, hmem.1, hmem.2, fun m hm hd => hle m ⟨hm, hd⟩⟩⟩
      intro hex
      obtain ⟨st', h'⟩ := hex
      cases h'

/-- C12, witness: below the class `initS`, whose only required initializer is 1, the
declaration of `initT` declares the initializers 1, 3 and 4 and is accepted. Below the class
`initR`, whose required initializers are 7, 3 and 5, a class that declares only the initializer
5 is rejected with the error that names 3, the least of the names 7 and 3 that are not
declared. -/
theorem required_initializers_checked_at_close_witness :
    parseClass exampleEnv (declaredClasses [rootClass, initS]) declT
      = .ok (declaredClasses [rootClass, initS, initT]) ∧
    initR.requiredInitializers = [7, 3, 5] ∧ declaredInitializers declU.body = [5] ∧
    parseClass exampleEnv (declaredClasses [rootClass, initR]) declU
      = .error (.missingRequiredInitializer 3) ∧
    ((∃ st', parseClass exampleEnv (declaredClasses [rootClass, initS]) declT = .ok st') ↔
      ∀ n ∈ initS.requiredInitializers, n ∈ declaredInitializers declT.body) :=
  ⟨rfl, by decide, rfl, rfl,
    ((required_initializers_checked_at_close exampleEnv (declaredClasses [rootClass, initS])
      declT 1 initS rfl rfl rfl).2 _ rfl).1⟩

/-! ## The limit of instance variables -/

theorem parseBodyDeclaration_variables {env : ParserEnv} {i : Nat} {d : BodyDeclaration}
    {st st' : BodyState} (h : parseBodyDeclaration env i d st = .ok st')
    (hle : st.eclass.instanceVariables.length ≤ 65535) :
    st'.eclass.instanceVariables.length ≤ 65535 := by
  unfold parseBodyDeclaration at h
  cases hk : d.keyword with
  | E_SHORTCAKE v =>
    simp only [hk] at h
    split at h
    · cases h
    · split at h
      · cases h
      · next hne =>
        cases h
        simp only [List.length_append, List.length_singleton]
        omega
  | E_CROCODILE t =>
    simp only [hk] at h
    split at h
    · cases h
    · split at h
      · cases h
      · split at h
        · cases h
        · cases h
          exact hle
  | E_PIG name args ret =>
    simp only [hk] at h
    split at h
    · cases h
    · split at h
      · split at h
        · split at h
          · cases h
          · split at h
            · cases h
            · cases h
              exact hle
        · cases h
          exact hle
      · split at h
        · cases h
        · cases h
          exact hle
  | E_CAT name args =>
    simp only [hk] at h
    split at h
    · cases h
    · cases h
      exact hle
  | unexpected c =>
    simp only [hk] at h
    cases h

theorem parseClassBody_variables {env : ParserEnv} {i : Nat} :
    ∀ (body : List BodyDeclaration) {st st' : BodyState},
      parseClassBody env i body st = .ok st' → st.eclass.instanceVariables.length ≤ 65535 →
      st'.eclass.instanceVariables.length ≤ 65535
  | [], st, st', h, hle => by
    simp only [parseClassBody, Except.ok.injEq] at h
    subst h
    exact hle
  | d :: rest, st, st', h, hle => by
    simp only [parseClassBody] at h
    cases h1 : parseBodyDeclaration env i d st with
    | error e => rw [h1] at h; cases h
    | ok st1 =>
      rw [h1] at h
      exact parseClassBody_variables rest h (parseBodyDeclaration_variables h1 hle)

theorem parseClass_ok {env : ParserEnv} {st st' : ParserState} {d : ClassDeclaration}
    (h : parseClass env st d = .ok st') :
    ∃ superclass bst, parseSuperclass st d = .ok superclass ∧
      parseAndValidateTypeName st { name := d.name, optional := d.optional } = none ∧
      parseClassBody env st.classes.length d.body
        (bodyStart st (newClass st d.name superclass)
          (some (requiredOfSuperclass st.classes superclass))) = .ok bst ∧
      st' = registerClass st d.name bst := by
  unfold parseClass at h
  split at h
  · cases h
  · next hname =>
    split at h
    · cases h
    · next superclass hsup =>
      split at h
      · cases h
      · next bst hb =>
        split at h
        · cases h
        · cases h
          exact ⟨superclass, bst, hsup, hname, hb, rfl⟩

theorem parseClass_variables {env : ParserEnv} {st st' : ParserState} {d : ClassDeclaration}
    (h : parseClass env st d = .ok st')
    (hle : ∀ c ∈ st.classes, c.instanceVariables.length ≤ 65535) :
    ∀ c ∈ st'.classes, c.instanceVariables.length ≤ 65535 := by
  obtain ⟨superclass, bst, _, _, hb, rfl⟩ := parseClass_ok h
  intro c hc
  rcases List.mem_append.mp hc with hc | hc
  · exact hle c hc
  · rw [List.mem_singleton] at hc
    subst hc
    exact parseClassBody_variables d.body hb (Nat.zero_le _)

theorem parseExtension_ok {env : ParserEnv} {st st' : ParserState}
    {d : ExtensionDeclaration} (h : parseExtension env st d = .ok st') :
    st' = st ∨ ∃ k eclass bst, st.classes[k]? = some eclass ∧
      parseClassBody env k d.body (bodyStart st eclass none) = .ok bst ∧
      st' = { st with
        classes := st.classes.set k bst.eclass
        foundStartingFlag := bst.foundStartingFlag
        startingFlag := bst.startingFlag } := by
  unfold parseExtension at h
  split at h
  · cases h
  · split at h
    · cases h
    · next type _ =>
      split at h
      · cases h
      · split at h
        · cases h
          exact Or.inl rfl
        · next eclass he =>
          split at h
          · cases h
          · next bst hb =>
            cases h
            exact Or.inr ⟨type.eclass, eclass, bst, he, hb, rfl⟩

theorem parseExtension_variables {env : ParserEnv} {st st' : ParserState}
    {d : ExtensionDeclaration} (h : parseExtension env st d = .ok st')
    (hle : ∀ c ∈ st.classes, c.instanceVariables.length ≤ 65535) :
    ∀ c ∈ st'.classes, c.instanceVariables.length ≤ 65535 := by
  rcases parseExtension_ok h with rfl | ⟨k, eclass, bst, he, hb, rfl⟩
  · exact hle
  · intro c hc
    rcases List.mem_or_eq_of_mem_set hc with hc | hc
    · exact hle c hc
    · subst hc
      exact parseClassBody_variables d.body hb (hle _ (List.getElem?_mem he))

theorem parseEnum_ok {st st' : ParserState} {d : EnumDeclaration}
    (h : parseEnum st d = .ok st') :
    ∃ eenum, parseAndValidateTypeName st { name := d.name, optional := d.optional } = none ∧
      parseEnumMembers d.members { name := d.name } = (eenum, none) ∧
      st' = { st with
        enums := st.enums ++ [eenum]
        types := st.types ++ [(d.name, { type := TypeType.TT_ENUM })] } := by
  unfold parseEnum at h
  split at h
  · cases h
  · next hname =>
    split at h
    · cases h
    · next eenum hm =>
      cases h
      exact ⟨eenum, hname, hm, rfl⟩

theorem parseVersion_ok {st st' : ParserState} {exported : Bool} {major minor : Int}
    (h : parseVersion st exported major minor = .ok st') :
    st' = { st with version := { major := toUInt16 major, minor := toUInt16 minor } } := by
  unfold parseVersion at h
  split at h
  · cases h
  · split at h
    · cases h
    · cases h
      rfl

theorem parseDeclarations_variables {env : ParserEnv} :
    ∀ (decls : List FileDeclaration) {st st' : ParserState},
      parseDeclarations env decls st = .ok st' →
      (∀ c ∈ st.classes, c.instanceVariables.length ≤ 65535) →
      ∀ c ∈ st'.classes, c.instanceVariables.length ≤ 65535
  | [], st, st', h, hle => by
    simp only [parseDeclarations, Except.ok.injEq] at h
    subst h
    exact hle
  | .E_RABBIT d :: rest, st, st', h, hle => by
    simp only [parseDeclarations] at h
    cases h1 : parseClass env st d with
    | error e => rw [h1] at h; cases h
    | ok st1 =>
      rw [h1] at h
      exact parseDeclarations_variables rest h (parseClass_variables h1 hle)
  | .E_WALE d :: rest, st, st', h, hle => by
    simp only [parseDeclarations] at h
    cases h1 : parseExtension env st d with
    | error e => rw [h1] at h; cases h
    | ok st1 =>
      rw [h1] at h
      exact parseDeclarations_variables rest h (parseExtension_variables h1 hle)
  | .E_TURKEY d :: rest, st, st', h, hle => by
    simp only [parseDeclarations] at h
    cases h1 : parseEnum st d with
    | error e => rw [h1] at h; cases h
    | ok st1 =>
      rw [h1] at h
      obtain ⟨eenum, _, _, rfl⟩ := parseEnum_ok h1
      exact parseDeclarations_variables rest h hle
  | .E_CRYSTAL_BALL exported major minor :: rest, st, st', h, hle => by
    simp only [parseDeclarations] at h
    cases h1 : parseVersion st exported major minor with
    | error e => rw [h1] at h; cases h
    | ok st1 =>
      rw [h1] at h
      rw [parseVersion_ok h1] at h
      exact parseDeclarations_variables rest h hle

theorem variableClass_length (k : Nat) : (variableClass k).instanceVariables.length = k :=
  List.length_replicate _ _

/-- C20: let `d` be the declaration of an instance variable `v` to which no attribute is
applied, read by `parseClassBody` for a class body or for an extension (`st` is any state of
the loop, with or without a set of required initializers). The declaration is rejected with the
limit error if and only if the class already holds 65,535 instance variables; otherwise it is
accepted and `v` is appended to the instance variables of the class, nothing else changing.
Consequently every sequence of class declarations and extensions that the parser accepts
leaves every class with at most 65,535 instance variables. -/
theorem instance_variable_limit (env : ParserEnv) (i : Nat) (d : BodyDeclaration)
    (st : BodyState) (v : Variable) (hk : d.keyword = .E_SHORTCAKE v)
    (hattr : noAttributeAllowed d = none) :
    (parseBodyDeclaration env i d st = .error .instanceVariableLimit ↔
      st.eclass.instanceVariables.length = 65535) ∧
    (st.eclass.instanceVariables.length ≠ 65535 →
      parseBodyDeclaration env i d st =
        .ok { st with
          eclass := { st.eclass with
            instanceVariables := st.eclass.instanceVariables ++ [v] } }) ∧
    (∀ (decls : List FileDeclaration) (st0 st' : ParserState),
      parseDeclarations env decls st0 = .ok st' →
      (∀ c ∈ st0.classes, c.instanceVariables.length ≤ 65535) →
      ∀ c ∈ st'.classes, c.instanceVariables.length ≤ 65535) ∧
    (∀ (decls : List FileDeclaration) (st' : ParserState),
      parseDeclarations env decls {} = .ok st' →
      ∀ c ∈ st'.classes, c.instanceVariables.length ≤ 65535) := by
  have hunf : parseBodyDeclaration env i d st =
      if st.eclass.instanceVariables.length = 65535 then .error .instanceVariableLimit
      else
        .ok { st with
          eclass := { st.eclass with
            instanceVariables := st.eclass.instanceVariables ++ [v] } } := by
    unfold parseBodyDeclaration
    simp only [hk, hattr]
  refine ⟨?_, ?_, ?_, ?_⟩
  · rw [hunf]
    by_cases hlen : st.eclass.instanceVariables.length = 65535
    · simp [hlen]
    · simp [hlen]
  · intro hlen
    rw [hunf, if_neg hlen]
  · intro decls st0 st' h hle
    exact parseDeclarations_variables decls h hle
  · intro decls st' h
    exact parseDeclarations_variables decls h (fun c hc => by cases hc)

/-- C20, witness: an instance variable declared on a class that holds one instance variable is
appended; declared on a class that holds 65,535 instance variables it is rejected with the
limit error, in a class body as well as in an extension. -/
theorem instance_variable_limit_witness :
    noAttributeAllowed declVariable = none ∧
    parseBodyDeclaration exampleEnv 0 declVariable
        { eclass := variableClass 1, requiredInitializers := some [] } =
      .ok { eclass := { name := 86, instanceVariables := [{ name := 1 }, { name := 2 }] }
            requiredInitializers := some [] } ∧
    parseBodyDeclaration exampleEnv 0 declVariable
        { eclass := variableClass 65535, requiredInitializers := some [] } =
      .error .instanceVariableLimit ∧
    parseBodyDeclaration exampleEnv 0 declVariable
        { eclass := variableClass 65535, requiredInitializers := none } =
      .error .instanceVariableLimit :=
  ⟨rfl,
    (instance_variable_limit exampleEnv 0 declVariable
      { eclass := variableClass 1, requiredInitializers := some [] } { name := 2 } rfl rfl).2.1
      (by decide),
    (instance_variable_limit exampleEnv 0 declVariable
      { eclass := variableClass 65535, requiredInitializers := some [] } { name := 2 } rfl
      rfl).1.mpr (variableClass_length 65535),
    (instance_variable_limit exampleEnv 0 declVariable
      { eclass := variableClass 65535, requiredInitializers := none } { name := 2 } rfl
      rfl).1.mpr (variableClass_length 65535)⟩

/-! ## The instance-variable count and the class header -/

theorem superclassOffset_eq {cs : List Class} (hwf : superclassesFirst cs = true) :
    ∀ (fuel : Nat) (sup : Option Nat) (offset : Nat), offset < UINT16 →
      (∀ s, sup = some s → s < fuel ∧ s < cs.length) →
      superclassOffset cs fuel sup offset =
        ((offset + ((superclassChain cs fuel sup).map
          fun a => a.instanceVariables.length).sum) % UINT16, true)
  | fuel, none, offset, ho, _ => by
    cases fuel <;> simp [superclassOffset, superclassChain, Nat.mod_eq_of_lt ho]
  | 0, some s, _, _, h => absurd (h s rfl).1 (Nat.not_lt_zero _)
  | fuel + 1, some s, offset, _, h => by
    have hs := (h s rfl).2
    have hf := (h s rfl).1
    have hc : cs[s]? = some cs[s] := List.getElem?_eq_getElem hs
    simp only [superclassOffset, superclassChain, hc]
    rw [superclassOffset_eq hwf fuel _ _ (Nat.mod_lt _ (by decide))
      (fun t ht => by
        have hlt := superclassesFirst_lt hwf hc ht
        exact ⟨by omega, by omega⟩)]
    simp only [List.map_cons, List.sum_cons, Nat.mod_add_mod, Nat.add_assoc]

theorem superclassChain_fuel {cs : List Class} (hwf : superclassesFirst cs = true) :
    ∀ (f1 f2 : Nat) (sup : Option Nat), (∀ s, sup = some s → s < f1 ∧ s < f2) →
      superclassChain cs f1 sup = superclassChain cs f2 sup
  | f1, f2, none, _ => by cases f1 <;> cases f2 <;> rfl
  | 0, _, some s, h => absurd (h s rfl).1 (Nat.not_lt_zero _)
  | _ + 1, 0, some s, h => absurd (h s rfl).2 (Nat.not_lt_zero _)
  | f1 + 1, f2 + 1, some s, h => by
    simp only [superclassChain]
    cases hc : cs[s]? with
    | none => rfl
    | some a =>
      simp only
      rw [superclassChain_fuel hwf f1 f2 a.superclass (fun t ht => by
        have hlt := superclassesFirst_lt hwf hc ht
        have := h s rfl
        exact ⟨by omega, by omega⟩)]

theorem ancestors_unfold {cs : List Class} (hwf : superclassesFirst cs = true) {i : Nat}
    {c : Class} (hc : cs[i]? = some c) :
    ancestors cs c =
      match c.superclass with
      | none => []
      | some s =>
        match cs[s]? with
        | none => []
        | some sc => sc :: ancestors cs sc := by
  have hi := getElem?_lt_length hc
  unfold ancestors
  obtain ⟨n, hn⟩ : ∃ n, cs.length = n + 1 := ⟨cs.length - 1, by omega⟩
  rw [hn]
  cases hs : c.superclass with
  | none => rfl
  | some s =>
    have hlt := superclassesFirst_lt hwf hc hs
    simp only [superclassChain]
    cases hsc : cs[s]? with
    | none => rfl
    | some sc =>
      simp only
      rw [superclassChain_fuel hwf n (n + 1) sc.superclass (fun t ht => by
        have hlt2 := superclassesFirst_lt hwf hsc ht
        exact ⟨by omega, by omega⟩)]

theorem instanceVariableOffset_eq {cs : List Class} (hwf : superclassesFirst cs = true)
    {i : Nat} {c : Class} (hc : cs[i]? = some c) :
    superclassOffset cs cs.length c.superclass 0 = (inheritedVariableCount cs c % UINT16, true) := by
  have hi := getElem?_lt_length hc
  rw [superclassOffset_eq hwf cs.length c.superclass 0 (by decide)
    (fun s hs => by
      have hlt := superclassesFirst_lt hwf hc hs
      exact ⟨by omega, by omega⟩)]
  simp only [Nat.zero_add, inheritedVariableCount, ancestors]

theorem objectScope_fst : ∀ (vars : List Variable) (offset : Nat),
    (objectScope vars offset).map (fun p => p.1) = vars
  | [], _ => rfl
  | v :: rest, offset => by
    simp only [objectScope, List.map_cons, objectScope_fst rest]

theorem objectScope_snd : ∀ (vars : List Variable) (offset : Nat),
    (objectScope vars (offset % UINT16)).map (fun p => p.2) =
      (List.range vars.length).map fun j => (offset + j) % UINT16
  | [], _ => rfl
  | v :: rest, offset => by
    have ih := objectScope_snd rest (offset + 1)
    simp only [objectScope, List.map_cons, List.length_cons, List.range_succ_eq_map,
      List.map_map, Nat.add_zero, Nat.mod_add_mod, ih, List.cons.injEq, true_and]
    apply List.map_congr_left
    intro j _
    simp only [Function.comp]
    congr 1
    omega

theorem writeClassHeader_total (cs : List Class) (c : Class) :
    (writeClassHeader cs c)[2]? =
      some (writeUInt16 (c.instanceVariables.length + instanceVariableOffset cs c)) := rfl

theorem variableProgram_inherited (k : Nat) :
    inheritedVariableCount (variableProgram k) variableSubclass = k := by
  have h0 : (variableProgram k)[0]? = some (variableClass k) := rfl
  have hl : (variableProgram k).length = 2 := rfl
  have hs : variableSubclass.superclass = some 0 := rfl
  have hn : (variableClass k).superclass = none := rfl
  simp only [inheritedVariableCount, ancestors, hl, hs, superclassChain, h0, hn, List.map_cons,
    List.map_nil, List.sum_cons, List.sum_nil, Nat.add_zero, variableClass_length]

theorem variableProgram_offset (k : Nat) :
    instanceVariableOffset (variableProgram k) variableSubclass = k % UINT16 := by
  have hc : (variableProgram k)[1]? = some variableSubclass := rfl
  have hwf : superclassesFirst (variableProgram k) = true := rfl
  unfold instanceVariableOffset
  rw [instanceVariableOffset_eq hwf hc, variableProgram_inherited k]

theorem variableProgram_wf (k : Nat) : superclassesFirst (variableProgram k) = true := rfl

/-- C14 (amended): in a class list in superclass-before-subclass order, the loop over the
superclass chain of a class `c` ends, having visited the ancestors of `c`. The total
instance-variable count written for `c` is the number of its own instance variables plus the sum
of the numbers of own instance variables of all its ancestors, reduced modulo 65536; it is that
sum as an exact integer whenever the sum is below 65536. The own variables of `c` are given, in
declaration order, the slot ids `(a + j) mod 65536` for `j = 0, 1, ...`, where `a` is the sum
over the ancestors. -/
theorem instance_variable_total (cs : List Class) (i : Nat) (c : Class)
    (hwf : superclassesFirst cs = true) (hc : cs[i]? = some c) :
    (superclassOffset cs cs.length c.superclass 0).2 = true ∧
    (ancestors cs c =
      match c.superclass with
      | none => []
      | some s =>
        match cs[s]? with
        | none => []
        | some sc => sc :: ancestors cs sc) ∧
    (writeClassHeader cs c)[2]? =
      some (Field.uint16 ((c.instanceVariables.length + inheritedVariableCount cs c) % UINT16)) ∧
    (c.instanceVariables.length + inheritedVariableCount cs c < UINT16 →
      (writeClassHeader cs c)[2]? =
        some (Field.uint16 (c.instanceVariables.length + inheritedVariableCount cs c))) ∧
    (objectScope c.instanceVariables (instanceVariableOffset cs c)).map (fun p => p.1) =
      c.instanceVariables ∧
    (objectScope c.instanceVariables (instanceVariableOffset cs c)).map (fun p => p.2) =
      (List.range c.instanceVariables.length).map
        fun j => (inheritedVariableCount cs c + j) % UINT16 := by
  have hoff := instanceVariableOffset_eq hwf hc
  have hoff1 : instanceVariableOffset cs c = inheritedVariableCount cs c % UINT16 := by
    unfold instanceVariableOffset
    rw [hoff]
  have hfield : (writeClassHeader cs c)[2]? =
      some (Field.uint16 ((c.instanceVariables.length + inheritedVariableCount cs c)
        % UINT16)) := by
    rw [writeClassHeader_total, hoff1, writeUInt16, Nat.add_mod_mod]
  refine ⟨?_, ancestors_unfold hwf hc, hfield, ?_, objectScope_fst _ _, ?_⟩
  · rw [hoff]
  · intro hlt
    rw [hfield, Nat.mod_eq_of_lt hlt]
  · rw [hoff1]
    exact objectScope_snd _ _

/-- C14, witness: in `packProgram` the class at position 5 has one instance variable and the
ancestors at the positions 2, 1 and 0 with 2, 1 and 0 instance variables: the count written
is 4 and its variable receives the slot id 3. -/
theorem instance_variable_total_witness :
    (ancestors packFinal (packFinal.getD 5 rootClass)).map (fun a => a.name) = [98, 97, 79] ∧
    inheritedVariableCount packFinal (packFinal.getD 5 rootClass) = 3 ∧
    (writeClassHeader packFinal (packFinal.getD 5 rootClass))[2]? = some (Field.uint16 4) ∧
    (objectScope (packFinal.getD 5 rootClass).instanceVariables
      (instanceVariableOffset packFinal (packFinal.getD 5 rootClass))).map (fun p => p.2)
      = [3] :=
  ⟨by decide, by decide,
    (instance_variable_total packFinal 5 (packFinal.getD 5 rootClass) rfl rfl).2.2.2.1
      (by decide),
    (instance_variable_total packFinal 5 (packFinal.getD 5 rootClass) rfl rfl).2.2.2.2.2⟩

/-- C14, counterexample: a class with 65,535 instance variables and a subclass with two. For
the subclass the own and the inherited instance variables are 65,537 together, the count
written is 1, and its two variables receive the slot ids 65535 and 0, not 65535 and 65536. -/
theorem instance_variable_total_wraps :
    superclassesFirst (variableProgram 65535) = true ∧
    (∀ c ∈ variableProgram 65535, c.instanceVariables.length ≤ 65535) ∧
    variableSubclass.instanceVariables.length
      + inheritedVariableCount (variableProgram 65535) variableSubclass = 65537 ∧
    (writeClassHeader (variableProgram 65535) variableSubclass)[2]? = some (Field.uint16 1) ∧
    Field.uint16 1 ≠ Field.uint16 65537 ∧
    (objectScope variableSubclass.instanceVariables
      (instanceVariableOffset (variableProgram 65535) variableSubclass)).map (fun p => p.2)
      = [65535, 0] ∧
    [65535, 0] ≠ (List.range variableSubclass.instanceVariables.length).map
      (fun j => inheritedVariableCount (variableProgram 65535) variableSubclass + j) := by
  have hwf := variableProgram_wf 65535
  have hinh := variableProgram_inherited 65535
  have hoff : instanceVariableOffset (variableProgram 65535) variableSubclass = 65535 :=
    variableProgram_offset 65535
  refine ⟨hwf, ?_, ?_, ?_, by decide, ?_, ?_⟩
  · intro c hmem
    simp only [variableProgram, List.mem_cons, List.mem_singleton, List.not_mem_nil,
      or_false] at hmem
    rcases hmem with h | h
    · rw [h, variableClass_length]
    · rw [h]
      decide
  · rw [hinh]
    rfl
  · rw [writeClassHeader_total, hoff]
    rfl
  · rw [hoff]
    rfl
  · rw [hinh]
    decide

theorem inheritIndex_some {cs : List Class} {c sc : Class} {s : Nat}
    (hs : c.superclass = some s) (hsc : cs[s]? = some sc) : inheritIndex cs c = sc.index := by
  have hl := getElem?_lt_length hsc
  simp only [inheritIndex, hs, List.getD_eq_getElem?_getD, hsc, Option.getD_some]

theorem analyzeClass_written (chk : Checks) (fa : FunctionAnalyzer) (fastMax : Nat)
    {cs : List Class} {i : Nat} {c : Class} (hc : cs[i]? = some c) :
    ∃ rest, (analyzeClass chk fa fastMax cs i).written = writeClassHeader cs c ++ rest := by
  unfold analyzeClass
  simp only [hc]
  exact ⟨_, rfl⟩

/-- C13 (amended): in a class list in superclass-before-subclass order, the record serialized
for a class `c` begins with exactly this field sequence: the name; the index of the superclass,
or the own index of a class without superclass; the total instance-variable count including the
inherited ones; the method table size; the class-method table size; the inherits-initializers
flag, one byte; the initializer table size; the count of own methods; the count of own
initializers; the count of own class methods. Apart from the name and the flag each field is a
16-bit field that holds its value modulo 65536. -/
theorem class_header_layout (chk : Checks) (fa : FunctionAnalyzer) (fastMax : Nat)
    (cs : List Class) (i : Nat) (c : Class) (hwf : superclassesFirst cs = true)
    (hc : cs[i]? = some c) :
    (∃ rest, (analyzeClass chk fa fastMax cs i).written = writeClassHeader cs c ++ rest) ∧
    writeClassHeader cs c =
      [Field.emojicodeChar c.name,
       Field.uint16 (inheritIndex cs c % UINT16),
       Field.uint16 ((c.instanceVariables.length + inheritedVariableCount cs c) % UINT16),
       Field.uint16 (c.nextMethodVti % UINT16),
       Field.uint16 (c.nextClassMethodVti % UINT16),
       Field.byte (if c.inheritsContructors then 1 else 0),
       Field.uint16 (c.nextInitializerVti % UINT16),
       Field.uint16 (c.methodList.length % UINT16),
       Field.uint16 (c.initializerList.length % UINT16),
       Field.uint16 (c.classMethodList.length % UINT16)] ∧
    (c.superclass = none → inheritIndex cs c = c.index) ∧
    (∀ s, c.superclass = some s → ∃ sc, cs[s]? = some sc ∧ inheritIndex cs c = sc.index) := by
  have hoff := instanceVariableOffset_eq hwf hc
  have hoff1 : instanceVariableOffset cs c = inheritedVariableCount cs c % UINT16 := by
    unfold instanceVariableOffset
    rw [hoff]
  refine ⟨analyzeClass_written chk fa fastMax hc, ?_, ?_, ?_⟩
  · unfold writeClassHeader
    rw [hoff1]
    simp only [writeEmojicodeChar, writeUInt16, writeByte, Nat.add_mod_mod]
    cases c.inheritsContructors <;> rfl
  · intro hs
    simp only [inheritIndex, hs]
  · intro s hs
    have hlt := superclassesFirst_lt hwf hc hs
    have hi := getElem?_lt_length hc
    have hsc : cs[s]? = some cs[s] := List.getElem?_eq_getElem (by omega)
    exact ⟨_, hsc, inheritIndex_some hs hsc⟩

/-- C13, witness: the header of the class at position 1 of `packProgram`, which has the
superclass 0, one instance variable, one method, and a required and a plain initializer. -/
theorem class_header_layout_witness :
    writeClassHeader packFinal (packFinal.getD 1 rootClass) =
      [Field.emojicodeChar 97, Field.uint16 0, Field.uint16 1, Field.uint16 1, Field.uint16 0,
       Field.byte 0, Field.uint16 2, Field.uint16 1, Field.uint16 2, Field.uint16 0] ∧
    writeClassHeader packFinal (packFinal.getD 1 rootClass) =
      [Field.emojicodeChar (packFinal.getD 1 rootClass).name,
       Field.uint16 (inheritIndex packFinal (packFinal.getD 1 rootClass) % UINT16),
       Field.uint16 (((packFinal.getD 1 rootClass).instanceVariables.length
         + inheritedVariableCount packFinal (packFinal.getD 1 rootClass)) % UINT16),
       Field.uint16 ((packFinal.getD 1 rootClass).nextMethodVti % UINT16),
       Field.uint16 ((packFinal.getD 1 rootClass).nextClassMethodVti % UINT16),
       Field.byte (if (packFinal.getD 1 rootClass).inheritsContructors then 1 else 0),
       Field.uint16 ((packFinal.getD 1 rootClass).nextInitializerVti % UINT16),
       Field.uint16 ((packFinal.getD 1 rootClass).methodList.length % UINT16),
       Field.uint16 ((packFinal.getD 1 rootClass).initializerList.length % UINT16),
       Field.uint16 ((packFinal.getD 1 rootClass).classMethodList.length % UINT16)] :=
  ⟨by decide,
    (class_header_layout exampleChecks exampleAnalyzer exampleFastMax packFinal 1
      (packFinal.getD 1 rootClass) rfl rfl).2.1⟩

/-- C13, counterexample: for the class at position 1 of `packProgram` the sixth field of the
header is the inherits-initializers flag, a byte, and the seventh is the initializer table
size 2: the header is not the sequence in which the initializer table size precedes the flag. -/
theorem class_header_flag_before_initializer_table :
    assignVtis exampleChecks packProgram = .ok { classes := packFinal } ∧
    (∃ c, packFinal[1]? = some c ∧ c.nextInitializerVti = 2 ∧ c.inheritsContructors = false ∧
      (analyzeClass exampleChecks exampleAnalyzer exampleFastMax packFinal 1).written.take 10
        = writeClassHeader packFinal c ∧
      (writeClassHeader packFinal c)[5]? = some (Field.byte 0) ∧
      (writeClassHeader packFinal c)[6]? = some (Field.uint16 2) ∧
      writeClassHeader packFinal c ≠
        [Field.emojicodeChar c.name,
         Field.uint16 (inheritIndex packFinal c),
         Field.uint16 (c.instanceVariables.length + inheritedVariableCount packFinal c),
         Field.uint16 c.nextMethodVti,
         Field.uint16 c.nextClassMethodVti,
         Field.uint16 c.nextInitializerVti,
         Field.byte (if c.inheritsContructors then 1 else 0),
         Field.uint16 c.methodList.length,
         Field.uint16 c.initializerList.length,
         Field.uint16 c.classMethodList.length]) :=
  ⟨rfl, _, rfl, rfl, rfl, by decide, rfl, rfl, by decide⟩

/-! ## The conformance section of a class record -/

theorem protocolRange_le : ∀ (ps : List Protocol) (lo hi : Nat),
    (protocolRange ps (lo, hi)).1 ≤ lo ∧ hi ≤ (protocolRange ps (lo, hi)).2
  | [], _, _ => ⟨Nat.le_refl _, Nat.le_refl _⟩
  | p :: rest, lo, hi => by
    simp only [protocolRange]
    have ih := protocolRange_le rest (if p.index < lo then p.index else lo)
      (if p.index > hi then p.index else hi)
    constructor
    · refine Nat.le_trans ih.1 ?_
      split <;> omega
    · refine Nat.le_trans ?_ ih.2
      split <;> omega

theorem protocolRange_bounds : ∀ (ps : List Protocol) (lo hi : Nat),
    ∀ p ∈ ps, (protocolRange ps (lo, hi)).1 ≤ p.index ∧ p.index ≤ (protocolRange ps (lo, hi)).2
  | [], _, _, p, h => by cases h
  | q :: rest, lo, hi, p, h => by
    simp only [protocolRange]
    rcases List.mem_cons.mp h with h | h
    · subst h
      have ih := protocolRange_le rest (if p.index < lo then p.index else lo)
        (if p.index > hi then p.index else hi)
      constructor
      · refine Nat.le_trans ih.1 ?_
        split <;> omega
      · refine Nat.le_trans ?_ ih.2
        split <;> omega
    · exact protocolRange_bounds rest _ _ p h

theorem protocolRange_attained : ∀ (ps : List Protocol) (lo hi : Nat),
    ((protocolRange ps (lo, hi)).1 = lo ∨ ∃ p ∈ ps, p.index = (protocolRange ps (lo, hi)).1) ∧
    ((protocolRange ps (lo, hi)).2 = hi ∨ ∃ p ∈ ps, p.index = (protocolRange ps (lo, hi)).2)
  | [], _, _ => ⟨Or.inl rfl, Or.inl rfl⟩
  | q :: rest, lo, hi => by
    simp only [protocolRange]
    have ih := protocolRange_attained rest (if q.index < lo then q.index else lo)
      (if q.index > hi then q.index else hi)
    constructor
    · rcases ih.1 with h | ⟨p, hp, h⟩
      · rw [h]
        split
        · exact Or.inr ⟨q, List.mem_cons_self _ _, rfl⟩
        · exact Or.inl rfl
      · exact Or.inr ⟨p, List.mem_cons_of_mem _ hp, h⟩
    · rcases ih.2 with h | ⟨p, hp, h⟩
      · rw [h]
        split
        · exact Or.inr ⟨q, List.mem_cons_self _ _, rfl⟩
        · exact Or.inl rfl
      · exact Or.inr ⟨p, List.mem_cons_of_mem _ hp, h⟩

theorem protocolRange_spec {ps : List Protocol} {fastMax : Nat} (hne : ps ≠ [])
    (hfast : ∀ p ∈ ps, p.index ≤ fastMax) :
    (∃ p ∈ ps, p.index = (protocolRange ps (fastMax, 0)).1) ∧
    (∃ p ∈ ps, p.index = (protocolRange ps (fastMax, 0)).2) ∧
    ∀ p ∈ ps, (protocolRange ps (fastMax, 0)).1 ≤ p.index ∧
      p.index ≤ (protocolRange ps (fastMax, 0)).2 := by
  have hb := protocolRange_bounds ps fastMax 0
  have ha := protocolRange_attained ps fastMax 0
  obtain ⟨q, rest, rfl⟩ := List.exists_cons_of_ne_nil hne
  have hq := hb q (List.mem_cons_self _ _)
  have hqf := hfast q (List.mem_cons_self _ _)
  refine ⟨?_, ?_, hb⟩
  · rcases ha.1 with h | h
    · exact ⟨q, List.mem_cons_self _ _, by omega⟩
    · exact h
  · rcases ha.2 with h | h
    · exact ⟨q, List.mem_cons_self _ _, by omega⟩
    · exact h

theorem writeProtocolSection_empty (chk : Checks) (fastMax : Nat)
    (lookup : EmojicodeChar → Option Procedure) {c : Class} (h : c.protocols = []) :
    writeProtocolSection chk fastMax lookup c = { written := [writeUInt16 0] } := by
  simp [writeProtocolSection, h, Emit.andThen]

theorem writeProtocolSection_ok (chk : Checks) (fastMax : Nat)
    (lookup : EmojicodeChar → Option Procedure) {c : Class} (hne : c.protocols ≠ [])
    (hok : (writeProtocolRecords chk lookup c c.protocols).error = none) :
    writeProtocolSection chk fastMax lookup c =
      { written := writeUInt16 c.protocols.length ::
          writeUInt16 (protocolRange c.protocols (fastMax, 0)).2 ::
          writeUInt16 (protocolRange c.protocols (fastMax, 0)).1 ::
          (writeProtocolRecords chk lookup c c.protocols).written
        error := none } := by
  have hpos : c.protocols.length > 0 := List.length_pos.mpr hne
  unfold writeProtocolSection
  simp only [hpos, if_true, Emit.andThen, hok, List.cons_append, List.nil_append,
    List.set_cons_zero, List.set_cons_succ]

theorem writeProtocolRecords_ok {chk : Checks} {lookup : EmojicodeChar → Option Procedure}
    {c : Class} :
    ∀ (ps : List Protocol), (∀ p ∈ ps, ∀ m ∈ p.methods, conformsTo chk lookup p m) →
      writeProtocolRecords chk lookup c ps =
        { written := ps.flatMap fun p =>
            writeUInt16 p.index :: writeUInt16 p.methods.length ::
              p.methods.map fun m => writeUInt16 (foundVti lookup m.name)
          error := none }
  | [], _ => rfl
  | p :: rest, h => by
    have hp := h p (List.mem_cons_self _ _)
    have ih := @writeProtocolRecords_ok chk lookup c rest
      (fun q hq => h q (List.mem_cons_of_mem _ hq))
    simp only [writeProtocolRecords, writeProtocolRecord_ok hp, ih, Emit.andThen_ok,
      List.flatMap_cons]

/-- C17 (amended): let the class `c` declare at least one conformance, let the records of its
conformances be written without error, and let every protocol index among its conformances be
below 65536 (the platform type `uint_fast16_t` holding at least the 16-bit values). Then the
conformance section is the conformance count, the two range fields and the records; the first
range field holds exactly the largest and the second exactly the smallest protocol index among
the declared conformances: both values are indices of declared conformances, every declared
protocol index lies between them, and each index is serialized unchanged. -/
theorem protocol_range_fields (chk : Checks) (fastMax : Nat)
    (lookup : EmojicodeChar → Option Procedure) (c : Class) (hne : c.protocols ≠ [])
    (hok : (writeProtocolRecords chk lookup c c.protocols).error = none)
    (hmax : 65535 ≤ fastMax) (h16 : ∀ p ∈ c.protocols, p.index < UINT16) :
    ∃ lo hi,
      writeProtocolSection chk fastMax lookup c =
        { written := writeUInt16 c.protocols.length :: Field.uint16 hi :: Field.uint16 lo ::
            (writeProtocolRecords chk lookup c c.protocols).written
          error := none } ∧
      (∃ p ∈ c.protocols, p.index = lo) ∧ (∃ p ∈ c.protocols, p.index = hi) ∧
      (∀ p ∈ c.protocols, lo ≤ p.index ∧ p.index ≤ hi) ∧
      ∀ p ∈ c.protocols, writeUInt16 p.index = Field.uint16 p.index := by
  have hU : UINT16 = 65536 := rfl
  have hfast : ∀ p ∈ c.protocols, p.index ≤ fastMax := fun p hp => by
    have := h16 p hp
    omega
  obtain ⟨⟨plo, hplo, hlo⟩, ⟨phi, hphi, hhi⟩, hb⟩ := protocolRange_spec hne hfast
  refine ⟨(protocolRange c.protocols (fastMax, 0)).1, (protocolRange c.protocols (fastMax, 0)).2,
    ?_, ⟨plo, hplo, hlo⟩, ⟨phi, hphi, hhi⟩, hb, ?_⟩
  · rw [writeProtocolSection_ok chk fastMax lookup hne hok]
    have h1 : writeUInt16 (protocolRange c.protocols (fastMax, 0)).2 =
        Field.uint16 (protocolRange c.protocols (fastMax, 0)).2 := by
      rw [writeUInt16, Nat.mod_eq_of_lt]
      rw [← hhi]
      exact h16 phi hphi
    have h2 : writeUInt16 (protocolRange c.protocols (fastMax, 0)).1 =
        Field.uint16 (protocolRange c.protocols (fastMax, 0)).1 := by
      rw [writeUInt16, Nat.mod_eq_of_lt]
      rw [← hlo]
      exact h16 plo hplo
    rw [h1, h2]
  · intro p hp
    rw [writeUInt16, Nat.mod_eq_of_lt (h16 p hp)]

/-- C17, witness: the class at position 4 of `packProgram` conforms to `protocolEq` (index 0)
and `protocolSized` (index 1): the range fields hold 1 and 0. -/
theorem protocol_range_fields_witness :
    (writeProtocolSection exampleChecks exampleFastMax (lookupMethod packFinal 4)
      (packFinal.getD 4 rootClass)).written.take 3
      = [Field.uint16 2, Field.uint16 1, Field.uint16 0] ∧
    ∃ lo hi,
      writeProtocolSection exampleChecks exampleFastMax (lookupMethod packFinal 4)
          (packFinal.getD 4 rootClass) =
        { written := writeUInt16 (packFinal.getD 4 rootClass).protocols.length ::
            Field.uint16 hi :: Field.uint16 lo ::
            (writeProtocolRecords exampleChecks (lookupMethod packFinal 4)
              (packFinal.getD 4 rootClass) (packFinal.getD 4 rootClass).protocols).written
          error := none } ∧
      (∃ p ∈ (packFinal.getD 4 rootClass).protocols, p.index = lo) ∧
      (∃ p ∈ (packFinal.getD 4 rootClass).protocols, p.index = hi) ∧
      (∀ p ∈ (packFinal.getD 4 rootClass).protocols, lo ≤ p.index ∧ p.index ≤ hi) ∧
      ∀ p ∈ (packFinal.getD 4 rootClass).protocols, writeUInt16 p.index = Field.uint16 p.index :=
  ⟨by decide,
    protocol_range_fields exampleChecks exampleFastMax (lookupMethod packFinal 4)
      (packFinal.getD 4 rootClass) (by decide) (by decide) (by decide) (by decide)⟩

/-- C17, counterexample: with a 64-bit `uint_fast16_t`, the class `classWide` conforms to the
protocols with the indices 65536 and 1. The conformance section is written without error; its
range fields hold 0 and 1, and the largest protocol index among the conformances, 65536, is in
neither of them. -/
theorem protocol_range_fields_truncated :
    assignVtis exampleChecks wideProgram = .ok { classes := wideFinal } ∧
    (∃ c, wideFinal[1]? = some c ∧
      c.protocols.map (fun p => p.index) = [65536, 1] ∧
      (∀ p ∈ c.protocols, p.index ≤ exampleFastMax) ∧
      writeProtocolSection exampleChecks exampleFastMax (lookupMethod wideFinal 1) c =
        { written := [Field.uint16 2, Field.uint16 0, Field.uint16 1, Field.uint16 0,
            Field.uint16 0, Field.uint16 1, Field.uint16 0]
          error := none }) ∧
    Field.uint16 0 ≠ Field.uint16 65536 ∧ Field.uint16 1 ≠ Field.uint16 65536 :=
  ⟨rfl, ⟨_, rfl, rfl, by decide, by decide⟩, by decide, by decide⟩

/-- C18 (amended): let every protocol index of the conformances of the class `c` be a value of
the platform type `uint_fast16_t` and let the class have a method that passes the promise checks
for every method of every declared conformance. The conformance section is then written without
error and is laid out as: the conformance count as a 16-bit value; and, only if the class
declares a conformance, the largest protocol index of its conformances, then the smallest, then
one record per conformance in declaration order, a record being the protocol index, the number
of protocol methods and one VTI per protocol method. If the class declares no conformance,
nothing follows the count. -/
theorem protocol_section_layout (chk : Checks) (fastMax : Nat)
    (lookup : EmojicodeChar → Option Procedure) (c : Class)
    (hfast : ∀ p ∈ c.protocols, p.index ≤ fastMax)
    (hconf : ∀ p ∈ c.protocols, ∀ m ∈ p.methods, conformsTo chk lookup p m) :
    (c.protocols = [] →
      writeProtocolSection chk fastMax lookup c = { written := [writeUInt16 0], error := none }) ∧
    (c.protocols ≠ [] →
      ∃ lo hi,
        writeProtocolSection chk fastMax lookup c =
          { written := writeUInt16 c.protocols.length :: writeUInt16 hi :: writeUInt16 lo ::
              c.protocols.flatMap fun p =>
                writeUInt16 p.index :: writeUInt16 p.methods.length ::
                  p.methods.map fun m => writeUInt16 (foundVti lookup m.name)
            error := none } ∧
        (∃ p ∈ c.protocols, p.index = lo) ∧ (∃ p ∈ c.protocols, p.index = hi) ∧
        ∀ p ∈ c.protocols, lo ≤ p.index ∧ p.index ≤ hi) := by
  refine ⟨fun h => writeProtocolSection_empty chk fastMax lookup h, fun hne => ?_⟩
  have hrec := @writeProtocolRecords_ok chk lookup c c.protocols hconf
  have hok : (writeProtocolRecords chk lookup c c.protocols).error = none := by rw [hrec]
  obtain ⟨hlo, hhi, hb⟩ := protocolRange_spec hne hfast
  refine ⟨_, _, ?_, hlo, hhi, hb⟩
  rw [writeProtocolSection_ok chk fastMax lookup hne hok, hrec]

/-- C18, witness: the class at position 4 of `packProgram` conforms to `protocolEq` (index 0,
one method) and `protocolSized` (index 1, two methods); the class at position 3 declares no
conformance. -/
theorem protocol_section_layout_witness :
    (writeProtocolSection exampleChecks exampleFastMax (lookupMethod packFinal 4)
      (packFinal.getD 4 rootClass)).written
      = [Field.uint16 2, Field.uint16 1, Field.uint16 0, Field.uint16 0, Field.uint16 1,
         Field.uint16 1, Field.uint16 1, Field.uint16 2, Field.uint16 0, Field.uint16 1] ∧
    (∃ lo hi,
      writeProtocolSection exampleChecks exampleFastMax (lookupMethod packFinal 4)
          (packFinal.getD 4 rootClass) =
        { written := writeUInt16 (packFinal.getD 4 rootClass).protocols.length ::
            writeUInt16 hi :: writeUInt16 lo ::
            (packFinal.getD 4 rootClass).protocols.flatMap fun p =>
              writeUInt16 p.index :: writeUInt16 p.methods.length ::
                p.methods.map fun m => writeUInt16 (foundVti (lookupMethod packFinal 4) m.name)
          error := none } ∧
      (∃ p ∈ (packFinal.getD 4 rootClass).protocols, p.index = lo) ∧
      (∃ p ∈ (packFinal.getD 4 rootClass).protocols, p.index = hi) ∧
      ∀ p ∈ (packFinal.getD 4 rootClass).protocols, lo ≤ p.index ∧ p.index ≤ hi) ∧
    writeProtocolSection exampleChecks exampleFastMax (lookupMethod packFinal 3)
        (packFinal.getD 3 rootClass) = { written := [writeUInt16 0], error := none } :=
  ⟨by decide,
    (protocol_section_layout exampleChecks exampleFastMax (lookupMethod packFinal 4)
      (packFinal.getD 4 rootClass) (by decide)
      (by
        intro p hp m hm
        have hp' : p = protocolEq ∨ p = protocolSized := by
          simpa using (show p ∈ [protocolEq, protocolSized] from hp)
        rcases hp' with h | h
        · subst h
          have hm' : m = { name := 101, arguments := [1], returnType := 2 } := by
            simpa [protocolEq] using hm
          subst hm'
          exact ⟨{ name := 101, arguments := [1], returnType := 2, vti := 1 }, rfl, rfl⟩
        · subst h
          have hm' : m = { name := 115, returnType := 3 } ∨
              m = { name := 101, arguments := [1], returnType := 2 } := by
            simpa [protocolSized] using hm
          rcases hm' with h | h
          · subst h
            exact ⟨{ name := 115, returnType := 3, vti := 0 }, rfl, rfl⟩
          · subst h
            exact ⟨{ name := 101, arguments := [1], returnType := 2, vti := 1 }, rfl, rfl⟩)).2
      (by decide),
    (protocol_section_layout exampleChecks exampleFastMax (lookupMethod packFinal 3)
      (packFinal.getD 3 rootClass) (by decide)
      (fun p hp => by cases hp)).1 rfl⟩

/-- C18, counterexample: for the class at position 4 of `packProgram`, which conforms to the
protocols with the indices 0 and 1, the count 2 is followed by the largest index 1 and then by
the smallest index 0: the section is not the count, the smallest index 0, the largest index 1
and the records. -/
theorem protocol_section_maximum_first :
    assignVtis exampleChecks packProgram = .ok { classes := packFinal } ∧
    (∃ c, packFinal[4]? = some c ∧
      c.protocols.map (fun p => p.index) = [0, 1] ∧
      (writeProtocolRecords exampleChecks (lookupMethod packFinal 4) c c.protocols) =
        { written := [Field.uint16 0, Field.uint16 1, Field.uint16 1, Field.uint16 1,
            Field.uint16 2, Field.uint16 0, Field.uint16 1]
          error := none } ∧
      writeProtocolSection exampleChecks exampleFastMax (lookupMethod packFinal 4) c =
        { written := Field.uint16 2 :: Field.uint16 1 :: Field.uint16 0 ::
            (writeProtocolRecords exampleChecks (lookupMethod packFinal 4) c c.protocols).written
          error := none } ∧
      (writeProtocolSection exampleChecks exampleFastMax (lookupMethod packFinal 4) c).written ≠
        Field.uint16 2 :: Field.uint16 0 :: Field.uint16 1 ::
          (writeProtocolRecords exampleChecks (lookupMethod packFinal 4) c c.protocols).written) :=
  ⟨rfl, _, rfl, rfl, by decide, by decide, by decide⟩

/-! ## Packages -/

theorem Emit.andThen_error {a b : Emit} {e : CompilerError} (h : (a.andThen b).error = some e) :
    a.error = some e ∨ b.error = some e := by
  obtain ⟨wa, ea⟩ := a
  cases ea with
  | some x => exact Or.inl h
  | none => exact Or.inr h

theorem Emit.andThen_of_ok {a : Emit} (h : a.error = none) (b : Emit) :
    a.andThen b = { written := a.written ++ b.written, error := b.error } := by
  obtain ⟨wa, ea⟩ := a
  simp only at h
  subst h
  rfl

theorem writeClassList_snd (analyze : Nat → Emit) :
    ∀ (classes : List Nat) (classWritten : Bool),
      (writeClassList analyze classes classWritten).2 = (classWritten || !classes.isEmpty)
  | [], cw => by simp [writeClassList]
  | cl :: rest, cw => by
    simp only [writeClassList, writeClassList_snd analyze rest true, List.isEmpty_cons,
      Bool.not_false, Bool.or_true, Bool.true_or]

theorem writeClassList_marked {analyze : Nat → Emit} :
    ∀ (classes : List Nat), (∀ i ∈ classes, (analyze i).error = none) →
      (writeClassList analyze classes true).1 =
        { written := classes.flatMap fun i => writeByte 1 :: (analyze i).written
          error := none }
  | [], _ => rfl
  | cl :: rest, h => by
    have hcl := h cl (List.mem_cons_self _ _)
    have ih := writeClassList_marked rest (fun i hi => h i (List.mem_cons_of_mem _ hi))
    simp only [writeClassList, if_true, ih, List.flatMap_cons, Emit.andThen_ok,
      Emit.andThen_of_ok hcl, List.singleton_append, List.cons_append, List.nil_append, hcl]

theorem writeClassList_ok {analyze : Nat → Emit} :
    ∀ (classes : List Nat), (∀ i ∈ classes, (analyze i).error = none) →
      (writeClassList analyze classes false).1 =
        { written := classRecords analyze classes, error := none }
  | [], _ => rfl
  | cl :: rest, h => by
    have hcl := h cl (List.mem_cons_self _ _)
    have ih := writeClassList_marked rest (fun i hi => h i (List.mem_cons_of_mem _ hi))
    simp only [writeClassList, Bool.false_eq_true, if_false, ih, classRecords,
      Emit.empty_andThen, Emit.andThen_of_ok hcl]

theorem writeClassList_error {analyze : Nat → Emit} {e : CompilerError} :
    ∀ (classes : List Nat) (classWritten : Bool),
      (writeClassList analyze classes classWritten).1.error = some e →
      ∃ i ∈ classes, (analyze i).error = some e
  | [], _, h => by cases h
  | cl :: rest, cw, h => by
    simp only [writeClassList] at h
    rcases Emit.andThen_error h with h1 | h1
    · rcases Emit.andThen_error h1 with h2 | h2
      · cases cw <;> cases h2
      · exact ⟨cl, List.mem_cons_self _ _, h2⟩
    · obtain ⟨i, hi, he⟩ := writeClassList_error rest true h1
      exact ⟨i, List.mem_cons_of_mem _ hi, he⟩

theorem classRecords_append (analyze : Nat → Emit) (cl : Nat) (rest more : List Nat) :
    classRecords analyze (cl :: rest ++ more) =
      classRecords analyze (cl :: rest) ++
        more.flatMap fun i => writeByte 1 :: (analyze i).written := by
  simp only [List.cons_append, classRecords, List.flatMap_append, List.append_assoc]

theorem classRecords_length (analyze : Nat → Emit) :
    ∀ (classes : List Nat),
      (classRecords analyze classes).length =
        (classes.map fun i => (analyze i).written.length).sum + (classes.length - 1)
  | [] => rfl
  | cl :: rest => by
    have h : ∀ (l : List Nat),
        (l.flatMap fun i => writeByte 1 :: (analyze i).written).length =
          (l.map fun i => (analyze i).written.length).sum + l.length := by
      intro l
      induction l with
      | nil => rfl
      | cons x xs ih =>
        simp only [List.flatMap_cons, List.length_append, List.length_cons, ih, List.map_cons,
          List.sum_cons]
        omega
    simp only [classRecords, List.length_append, h, List.map_cons, List.sum_cons,
      List.length_cons]
    omega

theorem writePackageSection_ok {analyze : Nat → Emit} {pkg : Package}
    (h : ∀ i ∈ pkg.classes, (analyze i).error = none) :
    writePackageSection analyze pkg =
      { written := writePackageHeader pkg ++ classRecords analyze pkg.classes ++ [Field.byte 0]
        error := none } := by
  simp only [writePackageSection, writeClassList_ok pkg.classes h, Emit.andThen_ok,
    List.append_assoc]
  rfl

theorem writePackageSections_ok {analyze : Nat → Emit} :
    ∀ (pkgs : List Package), (∀ p ∈ pkgs, ∀ i ∈ p.classes, (analyze i).error = none) →
      writePackageSections analyze pkgs =
        { written := pkgs.flatMap fun p =>
            writePackageHeader p ++ classRecords analyze p.classes ++ [Field.byte 0]
          error := none }
  | [], _ => rfl
  | p :: rest, h => by
    have hp := h p (List.mem_cons_self _ _)
    have ih := writePackageSections_ok rest (fun q hq => h q (List.mem_cons_of_mem _ hq))
    simp only [writePackageSections, writePackageSection_ok hp, ih, Emit.andThen_ok,
      List.flatMap_cons]

theorem writePackageSections_error {analyze : Nat → Emit} {e : CompilerError} :
    ∀ (pkgs : List Package), (writePackageSections analyze pkgs).error = some e →
      ∃ p ∈ pkgs, ∃ i ∈ p.classes, (analyze i).error = some e
  | [], h => by cases h
  | p :: rest, h => by
    simp only [writePackageSections] at h
    rcases Emit.andThen_error h with h1 | h1
    · simp only [writePackageSection] at h1
      rcases Emit.andThen_error h1 with h2 | h2
      · cases h2
      · rcases Emit.andThen_error h2 with h3 | h3
        · obtain ⟨i, hi, he⟩ := writeClassList_error _ _ h3
          exact ⟨p, List.mem_cons_self _ _, i, hi, he⟩
        · cases h3
    · obtain ⟨q, hq, i, hi, he⟩ := writePackageSections_error rest h1
      exact ⟨q, List.mem_cons_of_mem _ hq, i, hi, he⟩

theorem writePackages_general (analyze : Nat → Emit) {pkgs : List Package}
    (h : pkgs.length ≠ 2) :
    writePackages analyze pkgs =
      if pkgs.length > 253 then { error := some .packageLimit }
      else Emit.andThen { written := [writeByte pkgs.length] }
        (writePackageSections analyze pkgs) := by
  unfold writePackages
  split
  · exact absurd rfl h
  · rfl

theorem writePackages_two (analyze : Nat → Emit) (first second : Package) :
    writePackages analyze [first, second] =
      Emit.andThen { written := [writeByte 1] ++ writePackageHeader first }
        (((writeClassList analyze first.classes false).1.andThen
            (writeClassList analyze second.classes
              (writeClassList analyze first.classes false).2).1).andThen
          { written := [writeByte 0] }) := rfl

/-- C15 (amended): let a program have `n` packages, `n ≤ 253`, and let every class of every
package be analysed without error. If `n` is not 2, the stream of the packages is the package
count `n` as one byte and `n` package sections in package order, each consisting of the header
of the package, the records of its classes and one byte 0, which precedes the header of the next
package. If `n = 2`, the stream is the byte 1, the header of the first package, the records of
the classes of both packages as one class list, and a single byte 0. -/
theorem package_sections (chk : Checks) (fa : FunctionAnalyzer) (fastMax : Nat)
    (cs : List Class) (pkgs : List Package) (hn : pkgs.length ≤ 253)
    (hok : ∀ p ∈ pkgs, ∀ i ∈ p.classes, (analyzeClass chk fa fastMax cs i).error = none) :
    (pkgs.length ≠ 2 →
      writePackages (analyzeClass chk fa fastMax cs) pkgs =
        { written := Field.byte pkgs.length :: pkgs.flatMap fun p =>
            writePackageHeader p ++ classRecords (analyzeClass chk fa fastMax cs) p.classes
              ++ [Field.byte 0]
          error := none }) ∧
    (∀ first second, pkgs = [first, second] →
      writePackages (analyzeClass chk fa fastMax cs) pkgs =
        { written := Field.byte 1 :: (writePackageHeader first
            ++ classRecords (analyzeClass chk fa fastMax cs) (first.classes ++ second.classes)
            ++ [Field.byte 0])
          error := none }) := by
  constructor
  · intro h2
    have hle : ¬ pkgs.length > 253 := by omega
    have hbyte : writeByte pkgs.length = Field.byte pkgs.length := by
      rw [writeByte, Nat.mod_eq_of_lt (by omega)]
    rw [writePackages_general _ h2, if_neg hle, writePackageSections_ok pkgs hok,
      Emit.andThen_ok, hbyte]
    rfl
  · intro first second hp
    subst hp
    have h1 : ∀ i ∈ first.classes, (analyzeClass chk fa fastMax cs i).error = none :=
      hok first (List.mem_cons_self _ _)
    have h2 : ∀ i ∈ second.classes, (analyzeClass chk fa fastMax cs i).error = none :=
      hok second (List.mem_cons_of_mem _ (List.mem_cons_self _ _))
    rw [writePackages_two, writeClassList_ok first.classes h1, writeClassList_snd]
    cases hf : first.classes with
    | nil =>
      simp only [List.isEmpty_nil, Bool.not_true, Bool.or_false, List.nil_append]
      rw [writeClassList_ok second.classes h2]
      simp only [Emit.andThen_ok, classRecords, List.nil_append, List.append_assoc,
        List.singleton_append, writeByte]
      rfl
    | cons cl rest =>
      simp only [List.isEmpty_cons, Bool.not_false, Bool.or_true]
      rw [writeClassList_marked second.classes h2, classRecords_append]
      simp only [Emit.andThen_ok, List.append_assoc, List.singleton_append, writeByte]
      rfl

/-- C15, witness: the example of the specification, a program with three packages of two
classes each: the package count reads 3 and each of the three sections ends with the byte 0
before the next header. With the two packages `packageA` and `packageB` the stream begins with
the byte 1 and holds one header. -/
theorem package_sections_witness :
    (writePackages packAnalyze [packageA, packageB, packageC]).written.head? = some (Field.byte 3) ∧
    writePackages packAnalyze [packageA, packageB, packageC] =
      { written := Field.byte 3 ::
          (writePackageHeader packageA ++ classRecords packAnalyze [0, 1] ++ [Field.byte 0]
            ++ (writePackageHeader packageB ++ classRecords packAnalyze [2, 3] ++ [Field.byte 0])
            ++ (writePackageHeader packageC ++ classRecords packAnalyze [4, 5]
              ++ [Field.byte 0]))
        error := none } ∧
    writePackages packAnalyze [packageA, packageB] =
      { written := Field.byte 1 :: (writePackageHeader packageA
          ++ classRecords packAnalyze [0, 1, 2, 3] ++ [Field.byte 0])
        error := none } :=
  ⟨by decide,
    by
      have h := (package_sections exampleChecks exampleAnalyzer exampleFastMax packFinal
        [packageA, packageB, packageC] (by decide) (by decide)).1 (by decide)
      simpa [List.flatMap_cons, packAnalyze] using h,
    (package_sections exampleChecks exampleAnalyzer exampleFastMax packFinal
      [packageA, packageB] (by decide) (by decide)).2 packageA packageB rfl⟩

/-- C15, counterexample: a program with the two packages `packageA` and `packageB`, each with
two classes that are analysed without error. The package-count field reads 1, not 2, and the
stream holds the header of `packageA` only and a single byte 0 after the four classes: it is not
the count 2 followed by the two package sections. -/
theorem two_packages_written_as_one :
    assignVtis exampleChecks packProgram = .ok { classes := packFinal } ∧
    (∀ p ∈ [packageA, packageB], ∀ i ∈ p.classes, (packAnalyze i).error = none) ∧
    (writePackages packAnalyze [packageA, packageB]).written.head? = some (Field.byte 1) ∧
    Field.byte 1 ≠ Field.byte 2 ∧
    writePackages packAnalyze [packageA, packageB] =
      { written := Field.byte 1 :: (writePackageHeader packageA
          ++ classRecords packAnalyze [0, 1, 2, 3] ++ [Field.byte 0])
        error := none } ∧
    (writePackages packAnalyze [packageA, packageB]).written ≠
      Field.byte 2 :: [packageA, packageB].flatMap fun p =>
        writePackageHeader p ++ classRecords packAnalyze p.classes ++ [Field.byte 0] :=
  ⟨rfl, by decide, by decide, by decide, by decide, by decide⟩

/-- C16 (amended): let every class of the package `pkg` be analysed without error. The package
section is the header of the package, the records of its classes and one terminating byte 0.
In the class list the record of the first class follows the header directly and every further
class record is immediately preceded by one byte 1: a package with `k` classes contributes
`k - 1` such bytes (none if it has no class), its class list being as long as the records
together plus `k - 1`. -/
theorem class_list_markers (chk : Checks) (fa : FunctionAnalyzer) (fastMax : Nat)
    (cs : List Class) (pkg : Package)
    (hok : ∀ i ∈ pkg.classes, (analyzeClass chk fa fastMax cs i).error = none) :
    writePackageSection (analyzeClass chk fa fastMax cs) pkg =
      { written := writePackageHeader pkg
          ++ classRecords (analyzeClass chk fa fastMax cs) pkg.classes ++ [Field.byte 0]
        error := none } ∧
    (pkg.classes = [] → classRecords (analyzeClass chk fa fastMax cs) pkg.classes = []) ∧
    (∀ cl rest, pkg.classes = cl :: rest →
      classRecords (analyzeClass chk fa fastMax cs) pkg.classes =
        (analyzeClass chk fa fastMax cs cl).written ++
          rest.flatMap fun i => Field.byte 1 :: (analyzeClass chk fa fastMax cs i).written) ∧
    (classRecords (analyzeClass chk fa fastMax cs) pkg.classes).length =
      (pkg.classes.map fun i => (analyzeClass chk fa fastMax cs i).written.length).sum
        + (pkg.classes.length - 1) := by
  refine ⟨writePackageSection_ok hok, ?_, ?_, classRecords_length _ _⟩
  · intro h
    rw [h]
    rfl
  · intro cl rest h
    rw [h]
    rfl

/-- C16, witness: the package `packageA` with the classes at the positions 0 and 1 of
`packProgram`: one byte 1 stands between the two class records. -/
theorem class_list_markers_witness :
    writePackageSection packAnalyze packageA =
      { written := writePackageHeader packageA
          ++ ((packAnalyze 0).written ++ Field.byte 1 :: (packAnalyze 1).written)
          ++ [Field.byte 0]
        error := none } ∧
    (classRecords packAnalyze packageA.classes).length =
      (packageA.classes.map fun i => (packAnalyze i).written.length).sum
        + (packageA.classes.length - 1) :=
  ⟨by decide,
    (class_list_markers exampleChecks exampleAnalyzer exampleFastMax packFinal packageA
      (by decide)).2.2.2⟩

/-- C16, counterexample: the package `packageD` holds one class, which is analysed without
error. Its section is the header, the class record and the byte 0: the record of the first class
is not preceded by a byte 1, and the section holds no such byte although the package has one
class. -/
theorem first_class_without_marker :
    assignVtis exampleChecks packProgram = .ok { classes := packFinal } ∧
    packageD.classes.length = 1 ∧
    writePackageHeader packageD =
      [Field.uint16 2, Field.byte 100, Field.byte 0, Field.uint16 0, Field.uint16 0,
        Field.byte 0] ∧
    packAnalyze 3 =
      { written := [Field.emojicodeChar 99, Field.uint16 0, Field.uint16 0, Field.uint16 0,
          Field.uint16 0, Field.byte 1, Field.uint16 0, Field.uint16 0, Field.uint16 0,
          Field.uint16 0, Field.uint16 0]
        error := none } ∧
    writePackageSection packAnalyze packageD =
      { written := writePackageHeader packageD ++ (packAnalyze 3).written ++ [Field.byte 0]
        error := none } ∧
    (writePackageSection packAnalyze packageD).written ≠
      writePackageHeader packageD ++ Field.byte 1 :: (packAnalyze 3).written
        ++ [Field.byte 0] ∧
    (writePackageSection packAnalyze packageD).written.length =
      (writePackageHeader packageD).length + (packAnalyze 3).written.length + 1 :=
  ⟨rfl, rfl, by decide, by decide, by decide, by decide, by decide⟩

theorem writePackages_error {analyze : Nat → Emit} {pkgs : List Package}
    (h : (writePackages analyze pkgs).error = some .packageLimit) :
    253 < pkgs.length ∨ ∃ p ∈ pkgs, ∃ i ∈ p.classes, (analyze i).error = some .packageLimit := by
  by_cases h2 : pkgs.length = 2
  · right
    obtain ⟨first, second, rfl⟩ : ∃ first second, pkgs = [first, second] := by
      match pkgs, h2 with
      | [a, b], _ => exact ⟨a, b, rfl⟩
    rw [writePackages_two] at h
    rcases Emit.andThen_error h with h1 | h1
    · cases h1
    · rcases Emit.andThen_error h1 with h3 | h3
      · rcases Emit.andThen_error h3 with h4 | h4
        · obtain ⟨i, hi, he⟩ := writeClassList_error _ _ h4
          exact ⟨first, List.mem_cons_self _ _, i, hi, he⟩
        · obtain ⟨i, hi, he⟩ := writeClassList_error _ _ h4
          exact ⟨second, List.mem_cons_of_mem _ (List.mem_cons_self _ _), i, hi, he⟩
      · cases h3
  · rw [writePackages_general _ h2] at h
    by_cases hgt : pkgs.length > 253
    · exact Or.inl hgt
    · right
      rw [if_neg hgt] at h
      rcases Emit.andThen_error h with h1 | h1
      · cases h1
      · exact writePackageSections_error pkgs h1

/-- C19: the serialization of the classes and packages after the VTI pass (lines 217-272), in
which the analysis of a class reports the errors of the conformance checks and of the function
analyser but not the package-limit error, ends with the package-limit error if and only if the
program has more than 253 packages. With more than 253 packages the error is raised right after
the class count, before any package or class is written; with at most 253 packages it is never
raised. -/
theorem package_limit_error (chk : Checks) (fa : FunctionAnalyzer) (fastMax : Nat)
    (cs : List Class) (pkgs : List Package)
    (hrec : ∀ p ∈ pkgs, ∀ i ∈ p.classes,
      (analyzeClass chk fa fastMax cs i).error ≠ some .packageLimit) :
    ((writeClassesAndPackages chk fa fastMax cs pkgs).error = some .packageLimit ↔
      253 < pkgs.length) ∧
    (253 < pkgs.length →
      writeClassesAndPackages chk fa fastMax cs pkgs =
        { written := [writeUInt16 cs.length], error := some .packageLimit }) ∧
    (pkgs.length ≤ 253 →
      (writeClassesAndPackages chk fa fastMax cs pkgs).error ≠ some .packageLimit) := by
  have hgt : 253 < pkgs.length →
      writeClassesAndPackages chk fa fastMax cs pkgs =
        { written := [writeUInt16 cs.length], error := some .packageLimit } := by
    intro h
    have h2 : pkgs.length ≠ 2 := by omega
    rw [writeClassesAndPackages, writePackages_general _ h2, if_pos h]
    rfl
  have hle : (writeClassesAndPackages chk fa fastMax cs pkgs).error = some .packageLimit →
      253 < pkgs.length := by
    intro h
    rw [writeClassesAndPackages] at h
    rcases Emit.andThen_error h with h1 | h1
    · cases h1
    · rcases writePackages_error h1 with h2 | ⟨p, hp, i, hi, he⟩
      · exact h2
      · exact absurd he (hrec p hp i hi)
  refine ⟨Iff.intro hle (fun h => by rw [hgt h]), hgt, ?_⟩
  intro h herr
  have := hle herr
  omega

/-- C19, witness: with 254 packages the serialization ends with the package-limit error after
the class count; with the three packages of the example it does not. -/
theorem package_limit_error_witness :
    (emptyPackages 254).length = 254 ∧
    writeClassesAndPackages exampleChecks exampleAnalyzer exampleFastMax packFinal
        (emptyPackages 254) =
      { written := [writeUInt16 packFinal.length], error := some .packageLimit } ∧
    (writeClassesAndPackages exampleChecks exampleAnalyzer exampleFastMax packFinal
        [packageA, packageB, packageC]).error ≠ some .packageLimit :=
  ⟨List.length_replicate _ _,
    (package_limit_error exampleChecks exampleAnalyzer exampleFastMax packFinal
      (emptyPackages 254)
      (fun p hp i hi => by
        rw [List.eq_of_mem_replicate hp] at hi
        cases hi)).2.1 (by rw [emptyPackages, List.length_replicate]; decide),
    (package_limit_error exampleChecks exampleAnalyzer exampleFastMax packFinal
      [packageA, packageB, packageC] (by decide)).2.2 (by decide)⟩

theorem Enum.getValueFor_append_of_mem (e : Enum) (c : EmojicodeChar)
    (more : List (EmojicodeChar × Nat)) (nm k : Nat) (h : (e.getValueFor c).1 = true) :
    Enum.getValueFor { name := nm, map_ := e.map_ ++ more, valuesCounter := k } c =
      e.getValueFor c := by
  unfold Enum.getValueFor at h ⊢
  simp only [List.find?_append]
  cases hf : e.map_.find? (fun m => m.1 == c) with
  | some m => rfl
  | none => rw [hf] at h; cases h

theorem Enum.getValueFor_new (e : Enum) (c : EmojicodeChar) (v nm k : Nat)
    (h : (e.getValueFor c).1 = false) :
    Enum.getValueFor { name := nm, map_ := e.map_ ++ [(c, v)], valuesCounter := k } c =
      (true, v) := by
  unfold Enum.getValueFor at h ⊢
  simp only [List.find?_append]
  cases hf : e.map_.find? (fun m => m.1 == c) with
  | some m => rw [hf] at h; cases h
  | none => simp

theorem Enum.getValueFor_other (e : Enum) (c n : EmojicodeChar) (v nm k : Nat) (hne : c ≠ n) :
    (Enum.getValueFor { name := nm, map_ := e.map_ ++ [(c, v)], valuesCounter := k } n).1 =
      (e.getValueFor n).1 := by
  unfold Enum.getValueFor
  simp only [List.find?_append]
  cases hf : e.map_.find? (fun m => m.1 == n) with
  | some m => rfl
  | none =>
    have : (c == n) = false := by simpa using hne
    simp [this]

theorem Enum.addValueFor_new (e : Enum) (c : EmojicodeChar) (h : (e.getValueFor c).1 = false) :
    e.addValueFor c =
      ({ e with map_ := e.map_ ++ [(c, e.valuesCounter)], valuesCounter := e.valuesCounter + 1 },
        none) := by
  simp [Enum.addValueFor, h]

theorem parseEnumMembers_distinct :
    ∀ (names : List EmojicodeChar) (e : Enum), names.Nodup →
      (∀ n ∈ names, (e.getValueFor n).1 = false) →
      ∃ e', parseEnumMembers names e = (e', none) ∧ e'.name = e.name ∧
        e'.map_.map (fun m => m.1) = e.map_.map (fun m => m.1) ++ names ∧
        e'.map_.map (fun m => m.2) =
          e.map_.map (fun m => m.2) ++ (List.range names.length).map (fun j => e.valuesCounter + j) ∧
        e'.valuesCounter = e.valuesCounter + names.length ∧
        (∀ n, (e.getValueFor n).1 = true → e'.getValueFor n = e.getValueFor n) ∧
        ∀ i n, names[i]? = some n → e'.getValueFor n = (true, e.valuesCounter + i)
  | [], e, _, _ => ⟨e, rfl, rfl, by simp, by simp, rfl, fun _ _ => rfl, fun i n h => by simp at h⟩
  | c :: rest, e, hd, hnew => by
    have hc := hnew c (List.mem_cons_self _ _)
    have hd' := List.nodup_cons.mp hd
    obtain ⟨e', h1, h2, h3, h4, h5, h6, h7⟩ := parseEnumMembers_distinct rest
      { e with map_ := e.map_ ++ [(c, e.valuesCounter)], valuesCounter := e.valuesCounter + 1 }
      hd'.2
      (fun n hn => by
        rw [Enum.getValueFor_other e c n _ _ _ (fun h => hd'.1 (h ▸ hn))]
        exact hnew n (List.mem_cons_of_mem _ hn))
    refine ⟨e', ?_, h2, ?_, ?_, ?_, ?_, ?_⟩
    · simp only [parseEnumMembers, Enum.addValueFor_new e c hc]
      exact h1
    · rw [h3]
      simp
    · rw [h4]
      simp only [List.map_append, List.map_cons, List.map_nil, List.length_cons,
        List.range_succ_eq_map, List.map_map, Nat.add_zero, List.append_assoc,
        List.singleton_append, List.append_cancel_left_eq, List.cons.injEq, true_and]
      apply List.map_congr_left
      intro j _
      simp only [Function.comp]
      omega
    · rw [h5]
      simp only [List.length_cons]
      omega
    · intro n hn
      rw [h6 n (by rw [Enum.getValueFor_append_of_mem e n _ _ _ hn]; exact hn)]
      exact Enum.getValueFor_append_of_mem e n _ _ _ hn
    · intro i n hi
      cases i with
      | zero =>
        simp only [List.getElem?_cons_zero, Option.some.injEq] at hi
        subst hi
        rw [h6 c (by rw [Enum.getValueFor_new e c _ _ _ hc]), Enum.getValueFor_new e c _ _ _ hc]
        rfl
      | succ i =>
        simp only [List.getElem?_cons_succ] at hi
        rw [h7 i n hi]
        simp only [Prod.mk.injEq, true_and]
        omega

theorem parseEnumMembers_append (pre more : List EmojicodeChar) :
    ∀ (e : Enum), parseEnumMembers (pre ++ more) e =
      match parseEnumMembers pre e with
      | (e', some err) => (e', some err)
      | (e', none) => parseEnumMembers more e' := by
  induction pre with
  | nil => intro e; rfl
  | cons c rest ih =>
    intro e
    simp only [List.cons_append, parseEnumMembers]
    cases h : e.addValueFor c with
    | mk e1 err =>
      cases err with
      | some x => rfl
      | none => exact ih e1

theorem Enum.getValueFor_empty (nm : EmojicodeChar) (n : EmojicodeChar) :
    (Enum.getValueFor { name := nm } n).1 = false := rfl

/-- C22: for every enum declared with a list of pairwise distinct member names, the loop of
`parseEnum` ends without error; the enum then holds exactly the declared names, in declaration
order, with the values `0, 1, ..., k-1`: looking up the `i`-th declared name yields the value
`i`, and the counter stands at `k`. -/
theorem enum_values_contiguous (name : EmojicodeChar) (names : List EmojicodeChar)
    (hd : names.Nodup) :
    ∃ e, parseEnumMembers names { name := name } = (e, none) ∧
      e.map_.map (fun m => m.1) = names ∧
      e.map_.map (fun m => m.2) = List.range names.length ∧
      e.valuesCounter = names.length ∧
      ∀ i n, names[i]? = some n → e.getValueFor n = (true, i) := by
  obtain ⟨e, h1, _, h3, h4, h5, _, h7⟩ := parseEnumMembers_distinct names { name := name } hd
    (fun n _ => Enum.getValueFor_empty name n)
  refine ⟨e, h1, ?_, ?_, ?_, ?_⟩
  · simpa using h3
  · simpa using h4
  · simpa using h5
  · intro i n hi
    simpa using h7 i n hi

/-- C22, witness: the enum declared with the members 5, 9 and 2 gives them the values 0, 1
and 2. -/
theorem enum_values_contiguous_witness :
    parseEnum {} declEnum =
      .ok { enums := [{ name := 69, map_ := [(5, 0), (9, 1), (2, 2)], valuesCounter := 3 }]
            types := [(69, { type := TypeType.TT_ENUM })] } ∧
    ∃ e, parseEnumMembers declEnum.members { name := 69 } = (e, none) ∧
      e.map_.map (fun m => m.1) = declEnum.members ∧
      e.map_.map (fun m => m.2) = List.range declEnum.members.length ∧
      e.valuesCounter = declEnum.members.length ∧
      ∀ i n, declEnum.members[i]? = some n → e.getValueFor n = (true, i) :=
  ⟨rfl, enum_values_contiguous 69 declEnum.members (by decide)⟩

/-- C23: declaring in an enum a member name that the enum already contains is rejected with the
declaration error that names the member, and the enum after the call is the enum before it: no
value is overwritten and the counter is not advanced. The loop of `parseEnum` stops there, and
an enum declaration in which a name is declared a second time is rejected with this error. -/
theorem enum_duplicate_rejected (e : Enum) (c : EmojicodeChar)
    (h : (e.getValueFor c).1 = true) :
    e.addValueFor c = (e, some (.duplicateDeclaration c)) ∧
    (∀ rest, parseEnumMembers (c :: rest) e = (e, some (.duplicateDeclaration c))) ∧
    (∀ (pre post : List EmojicodeChar) (e1 : Enum),
      parseEnumMembers pre e = (e1, none) →
      parseEnumMembers (pre ++ c :: post) e = (e1, some (.duplicateDeclaration c)) ∧
      e1.getValueFor c = e.getValueFor c) ∧
    (∀ (st : ParserState) (d : EnumDeclaration) (pre post : List EmojicodeChar),
      parseAndValidateTypeName st { name := d.name, optional := d.optional } = none →
      d.members = pre ++ c :: post → pre.Nodup → c ∈ pre →
      parseEnum st d = .error (.duplicateDeclaration c)) := by
  have hadd : ∀ (e2 : Enum), (e2.getValueFor c).1 = true →
      e2.addValueFor c = (e2, some (.duplicateDeclaration c)) := by
    intro e2 h2
    simp [Enum.addValueFor, h2]
  have hloop : ∀ (e2 : Enum), (e2.getValueFor c).1 = true → ∀ rest,
      parseEnumMembers (c :: rest) e2 = (e2, some (.duplicateDeclaration c)) := by
    intro e2 h2 rest
    simp only [parseEnumMembers, hadd e2 h2]
  have hkeep : ∀ (pre : List EmojicodeChar) (e0 e1 : Enum),
      parseEnumMembers pre e0 = (e1, none) → ∀ n, (e0.getValueFor n).1 = true →
        e1.getValueFor n = e0.getValueFor n := by
    intro pre
    induction pre with
    | nil =>
      intro e0 e1 h0 n _
      simp only [parseEnumMembers, Prod.mk.injEq, and_true] at h0
      rw [h0]
    | cons x rest ih =>
      intro e0 e1 h0 n hn
      simp only [parseEnumMembers] at h0
      by_cases hx : (e0.getValueFor x).1 = true
      · rw [show e0.addValueFor x = (e0, some (.duplicateDeclaration x)) by
          simp [Enum.addValueFor, hx]] at h0
        cases h0
      · have hx' : (e0.getValueFor x).1 = false := by simpa using hx
        rw [Enum.addValueFor_new e0 x hx'] at h0
        rw [ih _ e1 h0 n (by rw [Enum.getValueFor_append_of_mem e0 n _ _ _ hn]; exact hn)]
        exact Enum.getValueFor_append_of_mem e0 n _ _ _ hn
  refine ⟨hadd e h, hloop e h, ?_, ?_⟩
  · intro pre post e1 hpre
    have hk := hkeep pre e e1 hpre c h
    refine ⟨?_, hk⟩
    rw [parseEnumMembers_append, hpre]
    exact hloop e1 (by rw [hk]; exact h) post
  · intro st d pre post hname hm hnd hc
    obtain ⟨e1, h1, _, _, _, _, _, h7⟩ := parseEnumMembers_distinct pre { name := d.name } hnd
      (fun n _ => Enum.getValueFor_empty d.name n)
    obtain ⟨i, hi⟩ := List.getElem?_of_mem hc
    have hc1 : (e1.getValueFor c).1 = true := by rw [h7 i c hi]
    unfold parseEnum
    rw [hname, hm, parseEnumMembers_append, h1]
    simp only [hloop e1 hc1 post]

/-- C23, witness: in the enum with the members 5 and 9 (values 0 and 1) a second declaration of
the member 5 is rejected and leaves the enum as it is; the declaration of an enum with the
members 5, 9, 5, 2 is rejected. -/
theorem enum_duplicate_rejected_witness :
    Enum.addValueFor { name := 70, map_ := [(5, 0), (9, 1)], valuesCounter := 2 } 5 =
      ({ name := 70, map_ := [(5, 0), (9, 1)], valuesCounter := 2 },
        some (.duplicateDeclaration 5)) ∧
    parseEnum {} declEnumTwice = .error (.duplicateDeclaration 5) :=
  ⟨(enum_duplicate_rejected { name := 70, map_ := [(5, 0), (9, 1)], valuesCounter := 2 } 5
      rfl).1,
    (enum_duplicate_rejected { name := 70, map_ := [(5, 0), (9, 1)], valuesCounter := 2 } 5
      rfl).2.2.2 {} declEnumTwice [5, 9] [2] rfl rfl (by decide) (by decide)⟩

/-! ## Superclass declarations -/

theorem parseBodyDeclaration_superclass {env : ParserEnv} {i : Nat} {d : BodyDeclaration}
    {st st' : BodyState} (h : parseBodyDeclaration env i d st = .ok st') :
    st'.eclass.superclass = st.eclass.superclass := by
  unfold parseBodyDeclaration at h
  cases hk : d.keyword with
  | E_SHORTCAKE v =>
    simp only [hk] at h
    split at h
    · cases h
    · split at h
      · cases h
      · cases h
        rfl
  | E_CROCODILE t =>
    simp only [hk] at h
    split at h
    · cases h
    · split at h
      · cases h
      · split at h
        · cases h
        · cases h
          rfl
  | E_PIG name args ret =>
    simp only [hk] at h
    split at h
    · cases h
    · split at h
      · split at h
        · split at h
          · cases h
          · split at h
            · cases h
            · cases h
              rfl
        · cases h
          rfl
      · split at h
        · cases h
        · cases h
          rfl
  | E_CAT name args =>
    simp only [hk] at h
    split at h
    · cases h
    · cases h
      rfl
  | unexpected c =>
    simp only [hk] at h
    cases h

theorem parseClassBody_superclass {env : ParserEnv} {i : Nat} :
    ∀ (body : List BodyDeclaration) {st st' : BodyState},
      parseClassBody env i body st = .ok st' → st'.eclass.superclass = st.eclass.superclass
  | [], st, st', h => by
    simp only [parseClassBody, Except.ok.injEq] at h
    subst h
    rfl
  | d :: rest, st, st', h => by
    simp only [parseClassBody] at h
    cases h1 : parseBodyDeclaration env i d st with
    | error e => rw [h1] at h; cases h
    | ok st1 =>
      rw [h1] at h
      rw [parseClassBody_superclass rest h, parseBodyDeclaration_superclass h1]

theorem fetchRawType_some {st : ParserState} {n : TypeName} {type : RawType}
    (h : fetchRawType st n = some type) :
    ∃ t ∈ st.types, t.1 = n.name ∧ type.type = t.2.type ∧ type.eclass = t.2.eclass ∧
      type.optional = n.optional := by
  unfold fetchRawType at h
  cases hf : st.types.find? fun t => t.1 == n.name with
  | none => rw [hf] at h; cases h
  | some t =>
    rw [hf] at h
    simp only [Option.map_some', Option.some.injEq] at h
    subst h
    refine ⟨t, List.mem_of_find?_eq_some hf, ?_, rfl, rfl, rfl⟩
    have := List.find?_some hf
    simpa using this

theorem parseSuperclass_some {st : ParserState} {d : ClassDeclaration} {s : Nat}
    (h : parseSuperclass st d = .ok (some s)) :
    ∃ n type, d.superclass = some n ∧ fetchRawType st n = some type ∧
      type.type = TypeType.TT_CLASS ∧ type.optional = false ∧ type.eclass = s := by
  unfold parseSuperclass at h
  cases hs : d.superclass with
  | none => rw [hs] at h; cases h
  | some n =>
    simp only [hs] at h
    cases hf : fetchRawType st n with
    | none => rw [hf] at h; cases h
    | some type =>
      simp only [hf] at h
      split at h
      · cases h
      · next hc =>
        split at h
        · cases h
        · next ho =>
          cases h
          exact ⟨n, type, rfl, hf, by simpa using hc, by simpa using ho, rfl⟩

theorem parseSuperclass_none {st : ParserState} {d : ClassDeclaration}
    (h : parseSuperclass st d = .ok none) : d.superclass = none := by
  unfold parseSuperclass at h
  cases hs : d.superclass with
  | none => rfl
  | some n =>
    simp only [hs] at h
    cases hf : fetchRawType st n with
    | none => rw [hf] at h; cases h
    | some type =>
      simp only [hf] at h
      split at h
      · cases h
      · split at h
        · cases h
        · cases h

/-- C24: let `d` be a class declaration whose own name passes `parseAndValidateTypeName`. If
`d` names no superclass, the superclass pointer is null, also in the class of an accepted
declaration. If `d` names a superclass, the declaration is rejected with "Superclass type does
not exist" when the name is not registered, with "The superclass must be a class" when the
registered type is not a class, and with "You cannot inherit from an optional" when the name was
written as an optional; each of these errors ends the compilation before the class is
registered, so no state results in which it is. An accepted declaration named a type that was
already registered, is a class and is not optional; the superclass of the new class is that
class, and the new class is registered as a type and in its package. -/
theorem superclass_checks (env : ParserEnv) (st : ParserState) (d : ClassDeclaration)
    (hname : parseAndValidateTypeName st { name := d.name, optional := d.optional } = none) :
    (d.superclass = none → parseSuperclass st d = .ok none ∧
      ∀ st', parseClass env st d = .ok st' →
        ∃ c, st'.classes = st.classes ++ [c] ∧ c.superclass = none) ∧
    (∀ n, d.superclass = some n →
      (fetchRawType st n = none → parseClass env st d = .error .superclassDoesNotExist) ∧
      (∀ type, fetchRawType st n = some type → type.type ≠ TypeType.TT_CLASS →
        parseClass env st d = .error .superclassNotAClass) ∧
      (∀ type, fetchRawType st n = some type → type.type = TypeType.TT_CLASS →
        type.optional = true → parseClass env st d = .error .superclassOptional) ∧
      (∀ st', parseClass env st d = .ok st' →
        ∃ type c, fetchRawType st n = some type ∧ (∃ t ∈ st.types, t.1 = n.name) ∧
          type.type = TypeType.TT_CLASS ∧ type.optional = false ∧ n.optional = false ∧
          st'.classes = st.classes ++ [c] ∧ c.superclass = some type.eclass ∧
          st'.types = st.types ++
            [(d.name, { type := TypeType.TT_CLASS, eclass := st.classes.length })] ∧
          st'.packageClasses = st.packageClasses ++ [st.classes.length])) := by
  refine ⟨?_, ?_⟩
  · intro hs
    have hsup : parseSuperclass st d = .ok none := by
      unfold parseSuperclass
      rw [hs]
    refine ⟨hsup, ?_⟩
    intro st' h
    obtain ⟨superclass, bst, hsup', _, hb, rfl⟩ := parseClass_ok h
    rw [hsup] at hsup'
    cases hsup'
    exact ⟨bst.eclass, rfl, parseClassBody_superclass d.body hb⟩
  · intro n hs
    refine ⟨?_, ?_, ?_, ?_⟩
    · intro hf
      have hsup : parseSuperclass st d = .error .superclassDoesNotExist := by
        unfold parseSuperclass
        simp only [hs, hf]
      unfold parseClass
      simp only [hname, hsup]
    · intro type hf ht
      have hsup : parseSuperclass st d = .error .superclassNotAClass := by
        unfold parseSuperclass
        simp only [hs, hf, ne_eq, ht, not_false_eq_true, if_true]
      unfold parseClass
      simp only [hname, hsup]
    · intro type hf ht ho
      have hsup : parseSuperclass st d = .error .superclassOptional := by
        unfold parseSuperclass
        simp only [hs, hf, ne_eq, ht, not_true_eq_false, if_false, ho, if_true]
      unfold parseClass
      simp only [hname, hsup]
    · intro st' h
      obtain ⟨superclass, bst, hsup, _, hb, rfl⟩ := parseClass_ok h
      cases superclass with
      | none =>
        rw [parseSuperclass_none hsup] at hs
        cases hs
      | some s =>
        obtain ⟨n2, type, hn2, hf, ht, ho, he⟩ := parseSuperclass_some hsup
        rw [hs] at hn2
        cases hn2
        obtain ⟨t, htm, htn, _, _, hopt⟩ := fetchRawType_some hf
        refine ⟨type, bst.eclass, hf, ⟨t, htm, htn⟩, ht, ho, by rw [← hopt]; exact ho, rfl, ?_,
          rfl, rfl⟩
        rw [parseClassBody_superclass d.body hb, he]
        rfl

/-- C24, witness: in a state in which the class 79 and the enum 69 are registered, the
declaration of the class 90 is rejected when it names the unregistered type 42, the enum 69 or
the optional of the class 79 as its superclass; with the superclass 79 it is accepted and
registered, and without a superclass name its superclass is absent. -/
theorem superclass_checks_witness :
    parseClass exampleEnv registryState { name := 90, superclass := some { name := 42 } } =
      .error .superclassDoesNotExist ∧
    parseClass exampleEnv registryState { name := 90, superclass := some { name := 69 } } =
      .error .superclassNotAClass ∧
    parseClass exampleEnv registryState
        { name := 90, superclass := some { name := 79, optional := true } } =
      .error .superclassOptional ∧
    parseClass exampleEnv registryState { name := 90, superclass := some { name := 79 } } =
      .ok { classes := [rootClass, { name := 90, index := 1, superclass := some 0 }]
            enums := [{ name := 69 }]
            types := [(79, { type := TypeType.TT_CLASS, eclass := 0 }),
              (69, { type := TypeType.TT_ENUM }), (90, { type := TypeType.TT_CLASS, eclass := 1 })]
            packageClasses := [0, 1] } ∧
    parseSuperclass registryState { name := 90 } = .ok none :=
  ⟨((superclass_checks exampleEnv registryState
      { name := 90, superclass := some { name := 42 } } rfl).2 { name := 42 } rfl).1 rfl,
    ((superclass_checks exampleEnv registryState
      { name := 90, superclass := some { name := 69 } } rfl).2 { name := 69 } rfl).2.1
      { type := TypeType.TT_ENUM } rfl (by decide),
    ((superclass_checks exampleEnv registryState
      { name := 90, superclass := some { name := 79, optional := true } } rfl).2
      { name := 79, optional := true } rfl).2.2.1
      { type := TypeType.TT_CLASS, optional := true } rfl rfl rfl,
    rfl,
    ((superclass_checks exampleEnv registryState { name := 90 } rfl).1 rfl).1⟩

theorem superclassesFirst_append {cs : List Class} (hwf : superclassesFirst cs = true)
    (c : Class) (h : ∀ s, c.superclass = some s → s < cs.length) :
    superclassesFirst (cs ++ [c]) = true := by
  apply superclassesFirst_of_forall
  intro i s c' hc hs
  rcases Nat.lt_or_ge i cs.length with hi | hi
  · rw [List.getElem?_append_left hi] at hc
    exact superclassesFirst_lt hwf hc hs
  · have hlen := getElem?_lt_length hc
    simp only [List.length_append, List.length_singleton] at hlen
    have hieq : i = cs.length := by omega
    subst hieq
    rw [List.getElem?_append_right (Nat.le_refl _)] at hc
    simp only [Nat.sub_self, List.getElem?_cons_zero, Option.some.injEq] at hc
    subst hc
    exact h s hs

theorem superclassesFirst_set {cs : List Class} (hwf : superclassesFirst cs = true)
    {k : Nat} {c c' : Class} (hk : cs[k]? = some c) (h : c'.superclass = c.superclass) :
    superclassesFirst (cs.set k c') = true := by
  apply superclassesFirst_of_forall
  intro i s c2 hc hs
  by_cases hik : k = i
  · subst hik
    have hlt := getElem?_lt_length hk
    rw [List.getElem?_set_self hlt] at hc
    cases hc
    exact superclassesFirst_lt hwf hk (by rw [← h, hs])
  · rw [List.getElem?_set_ne hik] at hc
    exact superclassesFirst_lt hwf hc hs

theorem consistent_empty : ParserState.Consistent {} :=
  ⟨fun t ht => (by cases ht), rfl⟩

theorem parseClass_consistent {env : ParserEnv} {st st' : ParserState} {d : ClassDeclaration}
    (h : parseClass env st d = .ok st') (hc : st.Consistent) : st'.Consistent := by
  obtain ⟨superclass, bst, hsup, _, hb, rfl⟩ := parseClass_ok h
  have hsc : bst.eclass.superclass = superclass := parseClassBody_superclass d.body hb
  constructor
  · intro t ht hty
    simp only [registerClass, List.length_append, List.length_singleton]
    simp only [registerClass] at ht
    rcases List.mem_append.mp ht with ht | ht
    · have := hc.registered t ht hty
      omega
    · rw [List.mem_singleton] at ht
      subst ht
      exact Nat.lt_succ_self _
  · simp only [registerClass]
    apply superclassesFirst_append hc.ordered
    intro s hs
    rw [hsc] at hs
    subst hs
    obtain ⟨n, type, _, hf, hty, _, he⟩ := parseSuperclass_some hsup
    obtain ⟨t, htm, _, ht1, ht2, _⟩ := fetchRawType_some hf
    rw [← he, ht2]
    exact hc.registered t htm (by rw [← ht1]; exact hty)

theorem parseExtension_consistent {env : ParserEnv} {st st' : ParserState}
    {d : ExtensionDeclaration} (h : parseExtension env st d = .ok st') (hc : st.Consistent) :
    st'.Consistent := by
  rcases parseExtension_ok h with rfl | ⟨k, eclass, bst, he, hb, rfl⟩
  · exact hc
  · constructor
    · intro t ht hty
      simp only [List.length_set]
      exact hc.registered t ht hty
    · exact superclassesFirst_set hc.ordered he (parseClassBody_superclass d.body hb)

theorem parseEnum_consistent {st st' : ParserState} {d : EnumDeclaration}
    (h : parseEnum st d = .ok st') (hc : st.Consistent) : st'.Consistent := by
  obtain ⟨eenum, _, _, rfl⟩ := parseEnum_ok h
  constructor
  · intro t ht hty
    rcases List.mem_append.mp ht with ht | ht
    · exact hc.registered t ht hty
    · rw [List.mem_singleton] at ht
      subst ht
      cases hty
  · exact hc.ordered

theorem parseDeclarations_consistent {env : ParserEnv} :
    ∀ (decls : List FileDeclaration) {st st' : ParserState},
      parseDeclarations env decls st = .ok st' → st.Consistent → st'.Consistent
  | [], st, st', h, hc => by
    simp only [parseDeclarations, Except.ok.injEq] at h
    subst h
    exact hc
  | .E_RABBIT d :: rest, st, st', h, hc => by
    simp only [parseDeclarations] at h
    cases h1 : parseClass env st d with
    | error e => rw [h1] at h; cases h
    | ok st1 =>
      rw [h1] at h
      exact parseDeclarations_consistent rest h (parseClass_consistent h1 hc)
  | .E_WALE d :: rest, st, st', h, hc => by
    simp only [parseDeclarations] at h
    cases h1 : parseExtension env st d with
    | error e => rw [h1] at h; cases h
    | ok st1 =>
      rw [h1] at h
      exact parseDeclarations_consistent rest h (parseExtension_consistent h1 hc)
  | .E_TURKEY d :: rest, st, st', h, hc => by
    simp only [parseDeclarations] at h
    cases h1 : parseEnum st d with
    | error e => rw [h1] at h; cases h
    | ok st1 =>
      rw [h1] at h
      exact parseDeclarations_consistent rest h (parseEnum_consistent h1 hc)
  | .E_CRYSTAL_BALL exported major minor :: rest, st, st', h, hc => by
    simp only [parseDeclarations] at h
    cases h1 : parseVersion st exported major minor with
    | error e => rw [h1] at h; cases h
    | ok st1 =>
      rw [h1] at h
      rw [parseVersion_ok h1] at h
      exact parseDeclarations_consistent rest h ⟨hc.registered, hc.ordered⟩

theorem superclassPositions_lt {cs : List Class} (hwf : superclassesFirst cs = true) :
    ∀ (fuel : Nat) (sup : Option Nat) (bound : Nat), (∀ s, sup = some s → s < bound) →
      ∀ p ∈ superclassPositions cs fuel sup, p < bound
  | fuel, none, _, _, p, hp => by
    cases fuel <;> simp [superclassPositions] at hp
  | 0, some s, _, _, p, hp => by simp [superclassPositions] at hp
  | fuel + 1, some s, bound, h, p, hp => by
    simp only [superclassPositions] at hp
    cases hc : cs[s]? with
    | none => simp [hc] at hp
    | some a =>
      simp only [hc, List.mem_cons] at hp
      rcases hp with rfl | hp
      · exact h p rfl
      · exact superclassPositions_lt hwf fuel a.superclass bound
          (fun t ht => Nat.lt_trans (superclassesFirst_lt hwf hc ht) (h s rfl)) p hp

/-- C25: for every sequence of class declarations, extensions and enum declarations that the
parser accepts, starting with no declarations, the superclass of every class stands strictly
before the class in `Class::classes()`, the order of declaration; all the ancestors of a class,
however far the superclass chain is followed, stand before it, so no class is among its own
ancestors; and the loop of lines 35-38 of `analyzeClass` over the superclass chain reaches the
null pointer for every class, before the VTI pass and in the class list that the VTI pass
hands to `analyzeClass`. -/
theorem superclass_declared_before (env : ParserEnv) (decls : List FileDeclaration)
    (st : ParserState) (h : parseDeclarations env decls {} = .ok st) :
    superclassesFirst st.classes = true ∧
    (∀ (i : Nat) (c : Class) (s : Nat),
      st.classes[i]? = some c → c.superclass = some s → s < i) ∧
    (∀ (fuel i : Nat) (c : Class), st.classes[i]? = some c →
      (∀ p ∈ superclassPositions st.classes fuel c.superclass, p < i) ∧
      i ∉ superclassPositions st.classes fuel c.superclass) ∧
    (∀ c ∈ st.classes,
      superclassOffset st.classes st.classes.length c.superclass 0 =
        (inheritedVariableCount st.classes c % UINT16, true)) ∧
    (∀ (chk : Checks) (ast : AnalysisState), assignVtis chk st.classes = .ok ast →
      ∀ c ∈ ast.classes,
        (superclassOffset ast.classes ast.classes.length c.superclass 0).2 = true) := by
  have hc := parseDeclarations_consistent decls h consistent_empty
  have hwf := hc.ordered
  refine ⟨hwf, ?_, ?_, ?_, ?_⟩
  · intro i c s hi hs
    exact superclassesFirst_lt hwf hi hs
  · intro fuel i c hi
    have hlt := superclassPositions_lt hwf fuel c.superclass i
      (fun s hs => superclassesFirst_lt hwf hi hs)
    exact ⟨hlt, fun hmem => Nat.lt_irrefl i (hlt i hmem)⟩
  · intro c hmem
    obtain ⟨i, hi⟩ := List.getElem?_of_mem hmem
    exact instanceVariableOffset_eq hwf hi
  · intro chk ast hast c hmem
    have hwf2 := (processed_of_assignVtis hwf hast).wf hwf
    obtain ⟨i, hi⟩ := List.getElem?_of_mem hmem
    rw [instanceVariableOffset_eq hwf2 hi]

/-- C25, witness: the declarations of the classes 65, 66 (a subclass of 65) and 67 (a subclass
of 66) and of an extension of 66 are accepted; the superclass of each class stands before it and
the loop over the superclass chain of the class 67 ends with the two instance variables of its
ancestors. -/
theorem superclass_declared_before_witness :
    (∃ st, parseDeclarations exampleEnv chainDeclarations {} = .ok st ∧
      st.classes.map (fun c => c.superclass) = [none, some 0, some 1] ∧
      superclassesFirst st.classes = true ∧
      superclassPositions st.classes 3 (some 1) = [1, 0] ∧
      superclassOffset st.classes st.classes.length (some 1) 0 = (2, true)) ∧
    parseDeclarations exampleEnv
        [.E_RABBIT { name := 66, superclass := some { name := 66 } }] {} =
      .error .superclassDoesNotExist :=
  ⟨⟨_, rfl, rfl,
    (superclass_declared_before exampleEnv chainDeclarations _ rfl).1, rfl, rfl⟩, rfl⟩

/-! ## Distinct method VTIs -/

theorem findByName_name {table : List Procedure} {name : EmojicodeChar} {q : Procedure}
    (h : findByName table name = some q) : q.name = name := by
  have := List.find?_some h
  simpa using this

theorem numberMembers_vti (lk : EmojicodeChar → Option Procedure) :
    ∀ (ms : List Procedure) (n : Nat), n + (freshMembers lk ms).length < UINT16 →
      ∀ m ∈ (numberMembers lk ms n).1,
        (∃ sm, lk m.name = some sm ∧ m.vti = sm.vti) ∨
        (lk m.name = none ∧ n ≤ m.vti ∧ m.vti < n + (freshMembers lk ms).length)
  | [], n, _ => by simp [numberMembers]
  | m :: ms, n, h => by
    simp only [numberMembers, freshMembers, List.filter_cons] at h ⊢
    cases hl : lk m.name with
    | some sm =>
      simp only [hl, Option.isNone_some, Bool.false_eq_true, if_false] at h ⊢
      have ih := numberMembers_vti lk ms n h
      simp only [freshMembers] at ih
      simp only [memberNext, hl]
      intro x hx
      rcases List.mem_cons.mp hx with hx | hx
      · subst hx
        exact Or.inl ⟨sm, hl, by simp [memberVti, hl]⟩
      · exact ih x hx
    | none =>
      simp only [hl, Option.isNone_none, if_true, List.length_cons] at h ⊢
      have hmod : (n + 1) % UINT16 = n + 1 := Nat.mod_eq_of_lt (by omega)
      have ih := numberMembers_vti lk ms (n + 1) (by simp only [freshMembers]; omega)
      simp only [freshMembers] at ih
      simp only [memberNext, hl, hmod]
      intro x hx
      rcases List.mem_cons.mp hx with hx | hx
      · subst hx
        refine Or.inr ⟨hl, ?_, ?_⟩ <;> simp only [memberVti, hl] <;> omega
      · rcases ih x hx with h1 | ⟨h1, h2, h3⟩
        · exact Or.inl h1
        · exact Or.inr ⟨h1, by omega, by omega⟩

theorem numberMembers_pairwise (lk : EmojicodeChar → Option Procedure) :
    ∀ (ms : List Procedure) (n : Nat), n + (freshMembers lk ms).length < UINT16 →
      (numberMembers lk ms n).1.Pairwise fun a b =>
        lk a.name = none → lk b.name = none → a.vti ≠ b.vti
  | [], n, _ => by simp [numberMembers]
  | m :: ms, n, h => by
    simp only [numberMembers, List.pairwise_cons]
    simp only [freshMembers, List.filter_cons] at h
    cases hl : lk m.name with
    | some sm =>
      simp only [hl, Option.isNone_some, Bool.false_eq_true, if_false] at h
      refine ⟨fun b _ ha => (by cases ha), ?_⟩
      simp only [memberNext, hl]
      exact numberMembers_pairwise lk ms n h
    | none =>
      simp only [hl, Option.isNone_none, if_true, List.length_cons] at h
      have hmod : (n + 1) % UINT16 = n + 1 := Nat.mod_eq_of_lt (by omega)
      have hfit : n + 1 + (freshMembers lk ms).length < UINT16 := by
        simp only [freshMembers]
        omega
      simp only [memberNext, hl, hmod]
      refine ⟨?_, numberMembers_pairwise lk ms (n + 1) hfit⟩
      intro b hb _ hbn
      rcases numberMembers_vti lk ms (n + 1) hfit b hb with ⟨sm, hsm, _⟩ | ⟨_, h2, _⟩
      · rw [hbn] at hsm
        cases hsm
      · simp only [memberVti, hl]
        omega

theorem numberMembers_fresh_distinct (lk : EmojicodeChar → Option Procedure)
    (ms : List Procedure) (n : Nat) (h : n + (freshMembers lk ms).length < UINT16) :
    ∀ x ∈ (numberMembers lk ms n).1, ∀ y ∈ (numberMembers lk ms n).1, x.name ≠ y.name →
      lk x.name = none → lk y.name = none → x.vti ≠ y.vti := by
  have hp := numberMembers_pairwise lk ms n h
  have hp2 : (numberMembers lk ms n).1.Pairwise fun a b =>
      a.name ≠ b.name → lk a.name = none → lk b.name = none → a.vti ≠ b.vti :=
    hp.imp (by intro a b hab _; exact hab)
  have hsymm : Symmetric fun (a b : Procedure) =>
      a.name ≠ b.name → lk a.name = none → lk b.name = none → a.vti ≠ b.vti := by
    intro a b hab hne ha hb
    exact Ne.symm (hab (Ne.symm hne) hb ha)
  exact List.Pairwise.forall_of_forall hsymm (fun a _ hne => absurd rfl hne) hp2

theorem Processed.method_distinct {chk : Checks} {cs0 : List Class} {st : AnalysisState}
    (hp : Processed chk cs0 cs0.length st) (hwf : superclassesFirst cs0 = true)
    (hfit : methodTablesFit st.classes = true) :
    ∀ (j : Nat) (c : Class), st.classes[j]? = some c →
      (∀ x ∈ c.methodList, ∀ y ∈ c.methodList, x.name ≠ y.name → x.vti ≠ y.vti) ∧
      (∀ x ∈ c.methodList, x.vti < c.nextMethodVti) ∧
      (∀ a b ma mb, a ≠ b → lookupMethod st.classes j a = some ma →
        lookupMethod st.classes j b = some mb → ma.vti ≠ mb.vti) := by
  have hwf' := hp.wf hwf
  intro j
  induction j using Nat.strong_induction_on with
  | _ j ih =>
    intro c hc
    obtain ⟨c0, hc0, he, _, hsup⟩ := hp.final hc
    have hfitj := methodTablesFit_get hfit hc
    have hsig : c.methodList.map (fun m => m.toSignature) =
        c0.methodList.map (fun m => m.toSignature) := by
      rw [he, numberClass_methodList, numberMembers_signatures]
    have hlen := freshMembers_length_of_signatures
      (superFind (superOf st.classes c) fun s => s.lookupMethod) _ _ hsig
    have hml : c.methodList = (numberMembers
        (superFind (superOf st.classes c) fun s => s.lookupMethod) c0.methodList
        (seedMethod (superOf st.classes c))).1 := by
      rw [hsup]
      conv => lhs; rw [he, numberClass_eq]
    rw [hlen] at hfitj
    have hv := numberMembers_vti _ c0.methodList _ hfitj
    have hd := numberMembers_fresh_distinct _ c0.methodList _ hfitj
    rw [← hml] at hv hd
    obtain ⟨hbound, hnext⟩ := hp.method_bounds hwf hfit j c hc
    rw [← hlen, ← hnext] at hv
    -- what the superclass contributes
    have hsuper : ∀ s, c.superclass = some s →
        seedMethod (superOf st.classes c) = st.classes[s]?.elim 0 (fun sc => sc.nextMethodVti) ∧
        (∀ name m, lookupMethod st.classes s name = some m →
          m.vti < seedMethod (superOf st.classes c)) ∧
        (∀ a b ma mb, a ≠ b → lookupMethod st.classes s a = some ma →
          lookupMethod st.classes s b = some mb → ma.vti ≠ mb.vti) ∧
        ∀ name, superFind (superOf st.classes c) (fun s => s.lookupMethod) name =
          lookupMethod st.classes s name := by
      intro s hs
      have hlt := superclassesFirst_lt hwf' hc hs
      have hsl : s < st.classes.length := Nat.lt_trans hlt (getElem?_lt_length hc)
      have hsc : st.classes[s]? = some st.classes[s] := List.getElem?_eq_getElem hsl
      have hseed : seedMethod (superOf st.classes c) = st.classes[s].nextMethodVti := by
        simp [superOf, hs, seedMethod, (superAt_nextMethodVti hsc).1]
      refine ⟨by rw [hseed, hsc]; rfl, ?_, (ih s hlt _ hsc).2.2, ?_⟩
      · intro name m hm
        rw [hseed]
        exact (hp.method_bounds hwf hfit s _ hsc).1 name m hm
      · intro name
        simp [superOf, hs, superFind_some, superAt]
    have hroot : c.superclass = none → ∀ name,
        superFind (superOf st.classes c) (fun s => s.lookupMethod) name = none := by
      intro hs name
      simp [superOf, hs, superFind, superLookup]
    have hown : ∀ x ∈ c.methodList, ∀ y ∈ c.methodList, x.name ≠ y.name → x.vti ≠ y.vti := by
      intro x hx y hy hne
      rcases hv x hx with ⟨sx, hsx, hvx⟩ | ⟨hnx, hx1, hx2⟩
      · rcases hv y hy with ⟨sy, hsy, hvy⟩ | ⟨hny, hy1, _⟩
        · cases hs : c.superclass with
          | none => rw [hroot hs] at hsx; cases hsx
          | some s =>
            obtain ⟨_, _, hdist, hfind⟩ := hsuper s hs
            rw [hfind] at hsx hsy
            rw [hvx, hvy]
            exact hdist x.name y.name sx sy hne hsx hsy
        · cases hs : c.superclass with
          | none => rw [hroot hs] at hsx; cases hsx
          | some s =>
            obtain ⟨_, hlt, _, hfind⟩ := hsuper s hs
            rw [hfind] at hsx
            have := hlt x.name sx hsx
            omega
      · rcases hv y hy with ⟨sy, hsy, hvy⟩ | ⟨hny, hy1, _⟩
        · cases hs : c.superclass with
          | none => rw [hroot hs] at hsy; cases hsy
          | some s =>
            obtain ⟨_, hlt, _, hfind⟩ := hsuper s hs
            rw [hfind] at hsy
            have := hlt y.name sy hsy
            omega
        · exact hd x hx y hy hne hnx hny
    have hinh : ∀ s, c.superclass = some s → ∀ x ∈ c.methodList, ∀ b mb,
        x.name ≠ b → lookupMethod st.classes s b = some mb → x.vti ≠ mb.vti := by
      intro s hs x hx b mb hne hb
      obtain ⟨_, hlt, hdist, hfind⟩ := hsuper s hs
      rcases hv x hx with ⟨sx, hsx, hvx⟩ | ⟨_, hx1, _⟩
      · rw [hfind] at hsx
        rw [hvx]
        exact hdist x.name b sx mb hne hsx hb
      · have := hlt b mb hb
        omega
    refine ⟨hown, ?_, ?_⟩
    · intro x hx
      rcases hv x hx with ⟨sx, hsx, hvx⟩ | ⟨_, _, hx2⟩
      · cases hs : c.superclass with
        | none => rw [hroot hs] at hsx; cases hsx
        | some s =>
          obtain ⟨_, hlt, _, hfind⟩ := hsuper s hs
          rw [hfind] at hsx
          have := hlt x.name sx hsx
          rw [hnext]
          omega
      · exact hx2
    · intro a b ma mb hne ha hb
      rw [lookupMethod_unfold hwf' hc] at ha hb
      cases hfa : findByName c.methodList a with
      | some qa =>
        rw [hfa] at ha
        simp only [Option.some.injEq] at ha
        subst ha
        have hqa := findByName_name hfa
        cases hfb : findByName c.methodList b with
        | some qb =>
          rw [hfb] at hb
          simp only [Option.some.injEq] at hb
          subst hb
          have hqb := findByName_name hfb
          exact hown _ (findByName_mem hfa) _ (findByName_mem hfb) (by rw [hqa, hqb]; exact hne)
        | none =>
          rw [hfb] at hb
          simp only at hb
          cases hs : c.superclass with
          | none => rw [hs] at hb; cases hb
          | some s =>
            rw [hs] at hb
            exact hinh s hs _ (findByName_mem hfa) b mb (by rw [hqa]; exact hne) hb
      | none =>
        rw [hfa] at ha
        simp only at ha
        cases hs : c.superclass with
        | none => rw [hs] at ha; cases ha
        | some s =>
          rw [hs] at ha hb
          cases hfb : findByName c.methodList b with
          | some qb =>
            rw [hfb] at hb
            simp only [Option.some.injEq] at hb
            subst hb
            have hqb := findByName_name hfb
            exact Ne.symm
              (hinh s hs _ (findByName_mem hfb) a ma (by rw [hqb]; exact Ne.symm hne) ha)
          | none =>
            rw [hfb] at hb
            simp only at hb
            exact (hsuper s hs).2.2.1 a b ma mb hne ha hb

/-- C28: after a successful VTI pass over classes in superclass-before-subclass order in which
every method table fits into 16 bits (fewer than 65,536 methods per table), for every class
`c`: any two methods that the method lookup of `c` finds under different names, declared on
`c` or inherited, have different VTIs, and so have any two methods declared on `c` under
different names; the VTI of every method the lookup finds and of every declared method is
smaller than `c.nextMethodVti`; and `c.nextMethodVti` is at least the `nextMethodVti` of the
superclass of `c`. -/
theorem method_vtis_distinct (chk : Checks) (cs : List Class) (st : AnalysisState)
    (hwf : superclassesFirst cs = true) (h : assignVtis chk cs = .ok st)
    (hfit : methodTablesFit st.classes = true) (i : Nat) (c : Class)
    (hc : st.classes[i]? = some c) :
    (∀ a b ma mb, a ≠ b → lookupMethod st.classes i a = some ma →
      lookupMethod st.classes i b = some mb → ma.vti ≠ mb.vti) ∧
    (∀ x ∈ c.methodList, ∀ y ∈ c.methodList, x.name ≠ y.name → x.vti ≠ y.vti) ∧
    (∀ a ma, lookupMethod st.classes i a = some ma → ma.vti < c.nextMethodVti) ∧
    (∀ x ∈ c.methodList, x.vti < c.nextMethodVti) ∧
    (∀ s sc, c.superclass = some s → st.classes[s]? = some sc →
      sc.nextMethodVti ≤ c.nextMethodVti) := by
  have hp := processed_of_assignVtis hwf h
  obtain ⟨h1, h2, h3⟩ := hp.method_distinct hwf hfit i c hc
  obtain ⟨hb, hnext⟩ := hp.method_bounds hwf hfit i c hc
  refine ⟨h3, h1, hb, h2, ?_⟩
  intro s sc hs hsc
  rw [hnext]
  have hseed : seedMethod (superOf st.classes c) = sc.nextMethodVti := by
    simp [superOf, hs, seedMethod, (superAt_nextMethodVti hsc).1]
  omega

/-- C28, witness: in the example program after the VTI pass, class `B < A` reaches the methods
`m` (VTI 0, the slot of `A.m`) and `n` (VTI 1); its method table has the size 2, the table of
`A` the size 1. -/
theorem method_vtis_distinct_witness :
    assignVtis exampleChecks exampleProgram = .ok exampleFinal ∧
    ((lookupMethod exampleFinal.classes 1 109).map (fun m => m.vti) = some 0 ∧
      (lookupMethod exampleFinal.classes 1 110).map (fun m => m.vti) = some 1 ∧
      exampleFinal.classes.map (fun c => c.nextMethodVti) = [1, 2, 2]) ∧
    ∀ s sc, (numberClass (some (superAt exampleFinal.classes 0)) classB).superclass = some s →
      exampleFinal.classes[s]? = some sc →
      sc.nextMethodVti ≤ (numberClass (some (superAt exampleFinal.classes 0)) classB).nextMethodVti :=
  ⟨rfl, ⟨rfl, rfl, rfl⟩,
    (method_vtis_distinct exampleChecks exampleProgram exampleFinal rfl rfl rfl 1
      (numberClass (some (superAt exampleFinal.classes 0)) classB) rfl).2.2.2.2⟩

/-! ## Initializer VTIs that collide -/

/-- C27: the parser accepts the declarations of the classes 79, 83 (a subclass of 79 with the
required initializer 1 and the initializer 2) and 89 (a subclass of 83 that introduces the
required initializer 3 and implements the initializer 1 without the required attribute), and
the VTI pass succeeds on them. After the pass the two initializers 3 and 1 of the class 89,
which have different names, both carry the VTI 1: line 195 starts the numbering of the new
required initializers at the number of required initializers of the superclass (1), and
lines 159 and 196 start the numbering of the other initializers at the number of required
initializers of the class itself (1). In the second program the class 81 overrides the
initializer 5 of its superclass, which has the VTI 2 there, with a required initializer: it
keeps the VTI 2 (line 205), while the table size of the class 81 is 2. -/
theorem initializer_vtis_collide :
    parseDeclarations exampleEnv collisionDeclarations {} =
      .ok (declaredClasses collisionProgram) ∧
    assignVtis exampleChecks collisionProgram = .ok collisionFinal ∧
    (∃ c a b, collisionFinal.classes[2]? = some c ∧
      c.initializerList = [a, b] ∧ a.name = 3 ∧ b.name = 1 ∧ a.name ≠ b.name ∧
      a.vti = 1 ∧ b.vti = 1 ∧ c.nextInitializerVti = 2) ∧
    assignVtis exampleChecks overflowProgram = .ok overflowFinal ∧
    ∃ c a b, overflowFinal.classes[2]? = some c ∧
      c.initializerList = [a, b] ∧ b.name = 5 ∧ b.vti = 2 ∧ c.nextInitializerVti = 2 ∧
      ¬ b.vti < c.nextInitializerVti :=
  ⟨rfl, rfl, ⟨_, _, _, rfl, rfl, rfl, rfl, by decide, rfl, rfl, rfl⟩, rfl,
    _, _, _, rfl, rfl, rfl, rfl, rfl, by decide⟩

/-! ## The entry point -/

theorem FlagStep.refl (i : Nat) (flag : EmojicodeChar) (st : BodyState) :
    FlagStep i flag st st :=
  ⟨fun h => ⟨h, rfl⟩, rfl, fun h1 h2 => (by rw [h1] at h2; cases h2), fun _ => rfl,
    fun _ hm => hm⟩

theorem FlagStep.trans {i : Nat} {flag : EmojicodeChar} {st st1 st2 : BodyState}
    (h1 : FlagStep i flag st st1) (h2 : FlagStep i flag st1 st2) : FlagStep i flag st st2 := by
  constructor
  · intro h
    obtain ⟨a, b⟩ := h1.kept h
    obtain ⟨c, d⟩ := h2.kept a
    exact ⟨c, d.trans b⟩
  · have e1 := h1.count
    have e2 := h2.count
    omega
  · intro hf hf2
    cases hm : st1.foundStartingFlag with
    | true =>
      obtain ⟨a, m, hm1, hm2⟩ := h1.recorded hf hm
      obtain ⟨_, d⟩ := h2.kept hm
      exact ⟨d.trans a, m, h2.grows m hm1, hm2⟩
    | false => exact h2.recorded hm hf2
  · intro hf2
    cases hm : st1.foundStartingFlag with
    | true =>
      rw [(h2.kept hm).1] at hf2
      cases hf2
    | false => exact (h2.untouched hf2).trans (h1.untouched hm)
  · intro m hm
    exact h2.grows m (h1.grows m hm)

theorem FlagStep.of_same {i : Nat} {flag : EmojicodeChar} {st st' : BodyState}
    (h1 : st'.foundStartingFlag = st.foundStartingFlag)
    (h2 : st'.startingFlag = st.startingFlag)
    (h3 : st'.eclass.classMethodList = st.eclass.classMethodList) : FlagStep i flag st st' := by
  constructor
  · intro h
    exact ⟨h1.trans h, h2⟩
  · simp only [Class.classMethodCount, h3, h1]
  · intro hf hf2
    rw [h1, hf] at hf2
    cases hf2
  · intro _
    exact h2
  · intro m hm
    rw [h3]
    exact hm

theorem FlagStep.of_other {i : Nat} {flag : EmojicodeChar} {st st' : BodyState} {m : Procedure}
    (h1 : st'.foundStartingFlag = st.foundStartingFlag)
    (h2 : st'.startingFlag = st.startingFlag)
    (h3 : st'.eclass.classMethodList = st.eclass.classMethodList ++ [m])
    (hm : m.name ≠ flag) : FlagStep i flag st st' := by
  constructor
  · intro h
    exact ⟨h1.trans h, h2⟩
  · simp [Class.classMethodCount, h3, h1, List.filter_append, hm]
  · intro hf hf2
    rw [h1, hf] at hf2
    cases hf2
  · intro _
    exact h2
  · intro x hx
    rw [h3]
    exact List.mem_append_left _ hx

theorem FlagStep.of_flag {i : Nat} {flag : EmojicodeChar} {st st' : BodyState} {m : Procedure}
    (h0 : st.foundStartingFlag = false) (h1 : st'.foundStartingFlag = true)
    (h2 : st'.startingFlag = some (i, flag))
    (h3 : st'.eclass.classMethodList = st.eclass.classMethodList ++ [m])
    (hm : m.name = flag) : FlagStep i flag st st' := by
  constructor
  · intro h
    rw [h0] at h
    cases h
  · simp [Class.classMethodCount, h3, h0, h1, List.filter_append, hm]
  · intro _ _
    exact ⟨h2, m, by rw [h3]; simp, hm⟩
  · intro hf
    rw [h1] at hf
    cases hf
  · intro x hx
    rw [h3]
    exact List.mem_append_left _ hx

theorem parseBodyDeclaration_flag {env : ParserEnv} {i : Nat} {d : BodyDeclaration}
    {st st' : BodyState} (h : parseBodyDeclaration env i d st = .ok st') :
    FlagStep i env.E_CHEQUERED_FLAG st st' := by
  unfold parseBodyDeclaration at h
  cases hk : d.keyword with
  | E_SHORTCAKE v =>
    simp only [hk] at h
    split at h
    · cases h
    · split at h
      · cases h
      · cases h
        exact FlagStep.of_same rfl rfl rfl
  | E_CROCODILE t =>
    simp only [hk] at h
    split at h
    · cases h
    · split at h
      · cases h
      · split at h
        · cases h
        · cases h
          exact FlagStep.of_same rfl rfl rfl
  | E_PIG name args ret =>
    simp only [hk] at h
    split at h
    · cases h
    · split at h
      · split at h
        · next hname =>
          split at h
          · cases h
          · next hfound =>
            split at h
            · cases h
            · cases h
              exact FlagStep.of_flag (by simpa using hfound) rfl (by rw [hname]) rfl hname
        · next hname =>
          cases h
          exact FlagStep.of_other rfl rfl rfl hname
      · split at h
        · cases h
        · cases h
          exact FlagStep.of_same rfl rfl rfl
  | E_CAT name args =>
    simp only [hk] at h
    split at h
    · cases h
    · cases h
      exact FlagStep.of_same rfl rfl rfl
  | unexpected c =>
    simp only [hk] at h
    cases h

theorem parseClassBody_flag {env : ParserEnv} {i : Nat} :
    ∀ (body : List BodyDeclaration) {st st' : BodyState},
      parseClassBody env i body st = .ok st' → FlagStep i env.E_CHEQUERED_FLAG st st'
  | [], st, st', h => by
    simp only [parseClassBody, Except.ok.injEq] at h
    subst h
    exact FlagStep.refl _ _ _
  | d :: rest, st, st', h => by
    simp only [parseClassBody] at h
    cases h1 : parseBodyDeclaration env i d st with
    | error e => rw [h1] at h; cases h
    | ok st1 =>
      rw [h1] at h
      exact (parseBodyDeclaration_flag h1).trans (parseClassBody_flag rest h)

theorem classMethodCount_append (cs : List Class) (c : Class) (name : EmojicodeChar) :
    classMethodCount (cs ++ [c]) name = classMethodCount cs name + c.classMethodCount name := by
  simp [classMethodCount]

theorem classMethodCount_set (name : EmojicodeChar) (c' : Class) :
    ∀ (cs : List Class) (k : Nat) (c : Class), cs[k]? = some c →
      classMethodCount (cs.set k c') name + c.classMethodCount name =
        classMethodCount cs name + c'.classMethodCount name
  | [], _, _, h => by simp at h
  | x :: cs, 0, c, h => by
    simp only [List.getElem?_cons_zero, Option.some.injEq] at h
    subst h
    simp only [classMethodCount, List.set_cons_zero, List.map_cons, List.sum_cons]
    omega
  | x :: cs, k + 1, c, h => by
    simp only [List.getElem?_cons_succ] at h
    have ih := classMethodCount_set name c' cs k c h
    simp only [classMethodCount, List.set_cons_succ, List.map_cons, List.sum_cons] at ih ⊢
    omega

theorem flagRecorded_empty (env : ParserEnv) : ParserState.FlagRecorded env {} :=
  ⟨rfl, fun h => (by cases h), fun _ => rfl⟩

theorem parseClass_flag {env : ParserEnv} {st st' : ParserState} {d : ClassDeclaration}
    (h : parseClass env st d = .ok st') (hr : st.FlagRecorded env) :
    st'.FlagRecorded env ∧
    (st.foundStartingFlag = true →
      st'.foundStartingFlag = true ∧ st'.startingFlag = st.startingFlag) := by
  obtain ⟨superclass, bst, _, _, hb, rfl⟩ := parseClass_ok h
  have hs := parseClassBody_flag d.body hb
  have hcount := hs.count
  have hc0 : (bodyStart st (newClass st d.name superclass)
      (some (requiredOfSuperclass st.classes superclass))).eclass.classMethodCount
        env.E_CHEQUERED_FLAG = 0 := rfl
  have hf0 : (bodyStart st (newClass st d.name superclass)
      (some (requiredOfSuperclass st.classes superclass))).foundStartingFlag =
        st.foundStartingFlag := rfl
  have hsf0 : (bodyStart st (newClass st d.name superclass)
      (some (requiredOfSuperclass st.classes superclass))).startingFlag = st.startingFlag := rfl
  rw [hc0, hf0] at hcount
  refine ⟨⟨?_, ?_, ?_⟩, ?_⟩
  · simp only [registerClass, classMethodCount_append, hr.count]
    omega
  · intro hfound
    simp only [registerClass] at hfound ⊢
    cases hf : st.foundStartingFlag with
    | true =>
      obtain ⟨i, c, h1, h2, h3⟩ := hr.recorded hf
      obtain ⟨_, hk⟩ := hs.kept (hf0.trans hf)
      refine ⟨i, c, by rw [hk, hsf0, h1], ?_, h3⟩
      rw [List.getElem?_append_left (getElem?_lt_length h2)]
      exact h2
    | false =>
      obtain ⟨h1, m, hm1, hm2⟩ := hs.recorded (hf0.trans hf) hfound
      refine ⟨st.classes.length, bst.eclass, h1, ?_, m, hm1, hm2⟩
      rw [List.getElem?_append_right (Nat.le_refl _)]
      simp
  · intro hfound
    simp only [registerClass] at hfound ⊢
    rw [hs.untouched hfound, hsf0]
    cases hf : st.foundStartingFlag with
    | true =>
      rw [(hs.kept (hf0.trans hf)).1] at hfound
      cases hfound
    | false => exact hr.absent hf
  · intro hf
    obtain ⟨a, b⟩ := hs.kept (hf0.trans hf)
    exact ⟨a, b.trans hsf0⟩

theorem parseExtension_flag {env : ParserEnv} {st st' : ParserState}
    {d : ExtensionDeclaration} (h : parseExtension env st d = .ok st')
    (hr : st.FlagRecorded env) :
    st'.FlagRecorded env ∧
    (st.foundStartingFlag = true →
      st'.foundStartingFlag = true ∧ st'.startingFlag = st.startingFlag) := by
  rcases parseExtension_ok h with rfl | ⟨k, eclass, bst, he, hb, rfl⟩
  · exact ⟨hr, fun hf => ⟨hf, rfl⟩⟩
  · have hs := parseClassBody_flag d.body hb
    have hcount := hs.count
    have hf0 : (bodyStart st eclass none).foundStartingFlag = st.foundStartingFlag := rfl
    have hsf0 : (bodyStart st eclass none).startingFlag = st.startingFlag := rfl
    have hc0 : (bodyStart st eclass none).eclass = eclass := rfl
    rw [hf0, hc0] at hcount
    have hk := getElem?_lt_length he
    refine ⟨⟨?_, ?_, ?_⟩, ?_⟩
    · have hset := classMethodCount_set env.E_CHEQUERED_FLAG bst.eclass st.classes k eclass he
      have hc := hr.count
      simp only
      omega
    · intro hfound
      simp only at hfound ⊢
      cases hf : st.foundStartingFlag with
      | true =>
        obtain ⟨i, c, h1, h2, m, hm1, hm2⟩ := hr.recorded hf
        obtain ⟨_, hkept⟩ := hs.kept (hf0.trans hf)
        by_cases hik : k = i
        · subst hik
          rw [he] at h2
          cases h2
          refine ⟨k, bst.eclass, by rw [hkept, hsf0, h1], ?_, m, ?_, hm2⟩
          · rw [List.getElem?_set_self hk]
          · exact hs.grows m (by rw [hc0]; exact hm1)
        · refine ⟨i, c, by rw [hkept, hsf0, h1], ?_, m, hm1, hm2⟩
          rw [List.getElem?_set_ne hik]
          exact h2
      | false =>
        obtain ⟨h1, m, hm1, hm2⟩ := hs.recorded (hf0.trans hf) hfound
        refine ⟨k, bst.eclass, h1, ?_, m, hm1, hm2⟩
        rw [List.getElem?_set_self hk]
    · intro hfound
      simp only at hfound ⊢
      rw [hs.untouched hfound, hsf0]
      cases hf : st.foundStartingFlag with
      | true =>
        rw [(hs.kept (hf0.trans hf)).1] at hfound
        cases hfound
      | false => exact hr.absent hf
    · intro hf
      obtain ⟨a, b⟩ := hs.kept (hf0.trans hf)
      exact ⟨a, b.trans hsf0⟩

theorem parseEnum_flag {env : ParserEnv} {st st' : ParserState} {d : EnumDeclaration}
    (h : parseEnum st d = .ok st') (hr : st.FlagRecorded env) :
    st'.FlagRecorded env ∧
    (st.foundStartingFlag = true →
      st'.foundStartingFlag = true ∧ st'.startingFlag = st.startingFlag) := by
  obtain ⟨eenum, _, _, rfl⟩ := parseEnum_ok h
  exact ⟨⟨hr.count, hr.recorded, hr.absent⟩, fun hf => ⟨hf, rfl⟩⟩

theorem parseDeclarations_flag {env : ParserEnv} :
    ∀ (decls : List FileDeclaration) {st st' : ParserState},
      parseDeclarations env decls st = .ok st' → st.FlagRecorded env →
      st'.FlagRecorded env ∧
      (st.foundStartingFlag = true →
        st'.foundStartingFlag = true ∧ st'.startingFlag = st.startingFlag)
  | [], st, st', h, hr => by
    simp only [parseDeclarations, Except.ok.injEq] at h
    subst h
    exact ⟨hr, fun hf => ⟨hf, rfl⟩⟩
  | .E_RABBIT d :: rest, st, st', h, hr => by
    simp only [parseDeclarations] at h
    cases h1 : parseClass env st d with
    | error e => rw [h1] at h; cases h
    | ok st1 =>
      rw [h1] at h
      obtain ⟨a, b⟩ := parseClass_flag h1 hr
      obtain ⟨c, e⟩ := parseDeclarations_flag rest h a
      exact ⟨c, fun hf => ⟨(e (b hf).1).1, ((e (b hf).1).2).trans (b hf).2⟩⟩
  | .E_WALE d :: rest, st, st', h, hr => by
    simp only [parseDeclarations] at h
    cases h1 : parseExtension env st d with
    | error e => rw [h1] at h; cases h
    | ok st1 =>
      rw [h1] at h
      obtain ⟨a, b⟩ := parseExtension_flag h1 hr
      obtain ⟨c, e⟩ := parseDeclarations_flag rest h a
      exact ⟨c, fun hf => ⟨(e (b hf).1).1, ((e (b hf).1).2).trans (b hf).2⟩⟩
  | .E_TURKEY d :: rest, st, st', h, hr => by
    simp only [parseDeclarations] at h
    cases h1 : parseEnum st d with
    | error e => rw [h1] at h; cases h
    | ok st1 =>
      rw [h1] at h
      obtain ⟨a, b⟩ := @parseEnum_flag env _ _ _ h1 hr
      obtain ⟨c, e⟩ := parseDeclarations_flag rest h a
      exact ⟨c, fun hf => ⟨(e (b hf).1).1, ((e (b hf).1).2).trans (b hf).2⟩⟩
  | .E_CRYSTAL_BALL exported major minor :: rest, st, st', h, hr => by
    simp only [parseDeclarations] at h
    cases h1 : parseVersion st exported major minor with
    | error e => rw [h1] at h; cases h
    | ok st1 =>
      rw [h1] at h
      have hst := parseVersion_ok h1
      subst hst
      obtain ⟨c, e⟩ := parseDeclarations_flag rest h ⟨hr.count, hr.recorded, hr.absent⟩
      exact ⟨c, fun hf => e hf⟩

/-- C21, counterexample: the first 🏁 class method of a program, declared in the class 65 with
another return type than the integer type, is not accepted: the declaration is rejected with
"🏁 method must return 🚂" (lines 284-286). -/
theorem first_entry_point_rejected :
    parseDeclarations exampleEnv [.E_RABBIT { name := 65, body := [declFlagOther] }] {} =
      .error .startingFlagReturn ∧
    parseBodyDeclaration exampleEnv 0 declFlagOther
        { eclass := { name := 65 }, requiredInitializers := some [] } =
      .error .startingFlagReturn :=
  ⟨rfl, rfl⟩

/-- C21 (amended): let `d` declare a class method of the name of the 🏁 method without the
attributes 🔑 and 🍬. If no 🏁 method was found so far and the return type of `d` is compatible
with the integer type, `d` is accepted: the flag `foundStartingFlag` is set, the class at
position `i` that declares it and the method are recorded in `startingFlag`, and the class
method is added to the class. If a 🏁 method was found before, in whatever class or extension,
`d` is rejected with the duplicate error that names the class recorded before. Along every
sequence of class declarations, extensions and enum declarations that the parser accepts, a
recorded entry point stays as it is; and starting with no declarations, the accepted program
declares one 🏁 class method if the flag is set and none otherwise, the recorded class declares
a class method of that name, and without the flag no class is recorded. -/
theorem entry_point_unique (env : ParserEnv) (i : Nat) (d : BodyDeclaration) (st : BodyState)
    (arguments : List TypeRef) (returnType : TypeRef)
    (hk : d.keyword = .E_PIG env.E_CHEQUERED_FLAG arguments returnType)
    (hstatic : d.staticOnType = true) (hrequired : d.required = false)
    (hcandy : d.canReturnNothingness = false) :
    (st.foundStartingFlag = false → env.returnsInteger returnType = true →
      parseBodyDeclaration env i d st =
        .ok { st with
          foundStartingFlag := true
          startingFlag := some (i, env.E_CHEQUERED_FLAG)
          eclass := st.eclass.addClassMethod
            (d.procedure env.E_CHEQUERED_FLAG arguments returnType false false) }) ∧
    (st.foundStartingFlag = false → env.returnsInteger returnType = false →
      parseBodyDeclaration env i d st = .error .startingFlagReturn) ∧
    (st.foundStartingFlag = true →
      parseBodyDeclaration env i d st =
        .error (.duplicateStartingFlag (st.startingFlag.map fun f => f.1))) ∧
    (∀ (decls : List FileDeclaration) (st0 st' : ParserState),
      parseDeclarations env decls st0 = .ok st' → st0.FlagRecorded env →
      st0.foundStartingFlag = true →
      st'.foundStartingFlag = true ∧ st'.startingFlag = st0.startingFlag) ∧
    (∀ (decls : List FileDeclaration) (st' : ParserState),
      parseDeclarations env decls {} = .ok st' →
      classMethodCount st'.classes env.E_CHEQUERED_FLAG =
        (if st'.foundStartingFlag then 1 else 0) ∧
      (st'.foundStartingFlag = true →
        ∃ j c, st'.startingFlag = some (j, env.E_CHEQUERED_FLAG) ∧ st'.classes[j]? = some c ∧
          ∃ m ∈ c.classMethodList, m.name = env.E_CHEQUERED_FLAG) ∧
      (st'.foundStartingFlag = false → st'.startingFlag = none)) := by
  have hunf : parseBodyDeclaration env i d st =
      if st.foundStartingFlag then
        .error (.duplicateStartingFlag (st.startingFlag.map fun f => f.1))
      else if !env.returnsInteger returnType then .error .startingFlagReturn
      else
        .ok { st with
          foundStartingFlag := true
          startingFlag := some (i, env.E_CHEQUERED_FLAG)
          eclass := st.eclass.addClassMethod
            (d.procedure env.E_CHEQUERED_FLAG arguments returnType false false) } := by
    unfold parseBodyDeclaration
    simp only [hk, hstatic, hrequired, hcandy, invalidAttribute, firstError, if_true]
    <;> rfl
  refine ⟨?_, ?_, ?_, ?_, ?_⟩
  · intro hf hr
    rw [hunf]
    simp [hf, hr]
  · intro hf hr
    rw [hunf]
    simp [hf, hr]
  · intro hf
    rw [hunf]
    simp [hf]
  · intro decls st0 st' h hr hf
    exact (parseDeclarations_flag decls h hr).2 hf
  · intro decls st' h
    have hr := (parseDeclarations_flag decls h (flagRecorded_empty env)).1
    exact ⟨hr.count, hr.recorded, hr.absent⟩

/-- C21, witness: the 🏁 class method declared in the class at position 1 is accepted and
recorded with this class when no 🏁 method was found before; declared in the class at position
2 after that, it is rejected with the duplicate error that names the class at position 1. The
program of the classes 65 and 66, of which 66 declares the 🏁 method, is accepted with the
class at position 1 recorded. -/
theorem entry_point_unique_witness :
    parseBodyDeclaration exampleEnv 1 declFlag
        { eclass := { name := 66, index := 1 }, requiredInitializers := some [] } =
      .ok { eclass := { name := 66, index := 1
                        classMethodList := [{ name := 127937, returnType := 1 }] }
            requiredInitializers := some []
            foundStartingFlag := true
            startingFlag := some (1, 127937) } ∧
    parseBodyDeclaration exampleEnv 2 declFlag
        { eclass := { name := 67, index := 2 }, requiredInitializers := some []
          foundStartingFlag := true, startingFlag := some (1, 127937) } =
      .error (.duplicateStartingFlag (some 1)) ∧
    (∃ st, parseDeclarations exampleEnv flagDeclarations {} = .ok st ∧
      st.foundStartingFlag = true ∧ st.startingFlag = some (1, 127937) ∧
      classMethodCount st.classes 127937 = 1) ∧
    parseDeclarations exampleEnv
        (flagDeclarations ++ [.E_RABBIT { name := 67, body := [declFlag] }]) {} =
      .error (.duplicateStartingFlag (some 1)) :=
  ⟨(entry_point_unique exampleEnv 1 declFlag
      { eclass := { name := 66, index := 1 }, requiredInitializers := some [] } [] 1
      rfl rfl rfl rfl).1 rfl rfl,
    (entry_point_unique exampleEnv 2 declFlag
      { eclass := { name := 67, index := 2 }, requiredInitializers := some []
        foundStartingFlag := true, startingFlag := some (1, 127937) } [] 1
      rfl rfl rfl rfl).2.2.1 rfl,
    ⟨_, rfl, rfl, rfl, rfl⟩, rfl⟩

/-! ## The string pool and the entry point at the end of the stream -/

theorem writeStringPool_eq (pool : List Token) (hcount : pool.length < UINT16)
    (hlen : ∀ t ∈ pool, t.length < UINT16) :
    writeStringPool pool = Field.uint16 pool.length :: pool.flatMap poolEntry := by
  unfold writeStringPool
  rw [show writeUInt16 pool.length = Field.uint16 pool.length by
    unfold writeUInt16; rw [Nat.mod_eq_of_lt hcount]]
  congr 1
  induction pool with
  | nil => rfl
  | cons t rest ih =>
    simp only [List.flatMap_cons]
    rw [ih (by simp only [List.length_cons] at hcount; omega)
      (fun x hx => hlen x (List.mem_cons_of_mem _ hx))]
    have ht := hlen t (List.mem_cons_self _ _)
    simp only [poolEntry, writeUInt16, Nat.mod_eq_of_lt ht]
    rfl

theorem writeStringPool_replicate (k : Nat) (c : EmojicodeChar) :
    writeStringPool (finalPool [] [List.replicate k c]) =
      [Field.uint16 2, Field.uint16 0, writeUInt16 k] ++
        List.replicate k (Field.emojicodeChar c) := by
  simp [writeStringPool, finalPool, writeUInt16, writeEmojicodeChar, UINT16]

theorem specPool_replicate (k : Nat) (c : EmojicodeChar) :
    (Field.uint16 (finalPool [] [List.replicate k c]).length ::
      (finalPool [] [List.replicate k c]).flatMap poolEntry)[2]? = some (Field.uint16 k) := by
  simp [finalPool, poolEntry]

theorem writeStringPool_replicate_ne (k : Nat) (c : EmojicodeChar) (hk : k % UINT16 ≠ k) :
    writeStringPool (finalPool [] [List.replicate k c]) ≠
      Field.uint16 (finalPool [] [List.replicate k c]).length ::
        (finalPool [] [List.replicate k c]).flatMap poolEntry := by
  intro h
  have h2 := congrArg (fun l => l[2]?) h
  simp only [specPool_replicate] at h2
  rw [writeStringPool_replicate] at h2
  simp only [writeUInt16, List.cons_append, List.nil_append, List.getElem?_cons_succ,
    List.getElem?_cons_zero, Option.some.injEq, Field.uint16.injEq] at h2
  exact hk h2

theorem lookupIn_own (table : Class → List Procedure) {cs : List Class} {i : Nat} {c : Class}
    {name : EmojicodeChar} {p : Procedure} (hc : cs[i]? = some c)
    (hf : findByName (table c) name = some p) :
    lookupIn table cs cs.length i name = some p := by
  have hi := getElem?_lt_length hc
  obtain ⟨n, hn⟩ : ∃ n, cs.length = n + 1 := ⟨cs.length - 1, by omega⟩
  rw [hn]
  simp only [lookupIn, hc, hf]

theorem findByName_of_mem {table : List Procedure} {name : EmojicodeChar} {m : Procedure}
    (hm : m ∈ table) (hn : m.name = name) :
    ∃ p, findByName table name = some p ∧ p ∈ table ∧ p.name = name := by
  cases hf : findByName table name with
  | none => exact absurd hn (findByName_eq_none.mp hf m hm)
  | some p => exact ⟨p, rfl, findByName_mem hf, findByName_name hf⟩

theorem writeStartingFlag_recorded {env : ParserEnv} {chk : Checks}
    {decls : List FileDeclaration} {st : ParserState} {ast : AnalysisState}
    (hparse : parseDeclarations env decls {} = .ok st)
    (hfound : st.foundStartingFlag = true) (hvti : assignVtis chk st.classes = .ok ast) :
    ∃ j c0 c m, st.startingFlag = some (j, env.E_CHEQUERED_FLAG) ∧
      st.classes[j]? = some c0 ∧ ast.classes[j]? = some c ∧ c.index = c0.index ∧
      c.name = c0.name ∧ m ∈ c.classMethodList ∧ m.name = env.E_CHEQUERED_FLAG ∧
      lookupClassMethod ast.classes j env.E_CHEQUERED_FLAG = some m ∧
      writeStartingFlag env.E_CHEQUERED_FLAG ast.classes st.startingFlag =
        some [writeUInt16 c.index, writeUInt16 m.vti] := by
  have hwf := (parseDeclarations_consistent decls hparse consistent_empty).ordered
  have hr := (parseDeclarations_flag decls hparse (flagRecorded_empty env)).1
  obtain ⟨j, c0, hsf, hc0, m0, hm0, hn0⟩ := hr.recorded hfound
  have hp := processed_of_assignVtis hwf hvti
  have hj : j < ast.classes.length := by
    rw [hp.length_eq]
    exact getElem?_lt_length hc0
  have hc : ast.classes[j]? = some ast.classes[j] := List.getElem?_eq_getElem hj
  obtain ⟨c1, hc1, he, _, _⟩ := hp.final hc
  rw [hc0] at hc1
  cases hc1
  obtain ⟨c2, hc2, hname, _, _, _, _, hsig, _⟩ := hp.declared hc
  rw [hc0] at hc2
  cases hc2
  have hnames : ast.classes[j].classMethodList.map (fun m => m.name) =
      c0.classMethodList.map fun m => m.name := by
    have := congrArg (List.map Signature.name) hsig
    simpa [List.map_map, Function.comp] using this
  have hmem : env.E_CHEQUERED_FLAG ∈ ast.classes[j].classMethodList.map (fun m => m.name) := by
    rw [hnames]
    exact List.mem_map.mpr ⟨m0, hm0, hn0⟩
  obtain ⟨m1, hm1, hn1⟩ := List.mem_map.mp hmem
  obtain ⟨m, hf, hm, hn⟩ := findByName_of_mem hm1 hn1
  have hl : lookupClassMethod ast.classes j env.E_CHEQUERED_FLAG = some m :=
    lookupIn_own (fun c => c.classMethodList) hc hf
  have hidx : ast.classes[j].index = c0.index := by
    conv => lhs; rw [he]
    exact (numberClass_static _ _).2.2.1
  refine ⟨j, c0, ast.classes[j], m, hsf, hc0, hc, hidx, hname, hm, hn, hl, ?_⟩
  rw [hsf]
  simp only [writeStartingFlag, hc, hl]

/-- C26, counterexample: with a pool that holds, after the empty token of line 145, a token of
65,536 characters, line 276 writes the length of that token as the 16-bit value 0, and the
65,536 character codes follow: the length written is not the number of the codes that follow
it, and the section differs from the described one, which holds the length 65,536. -/
theorem pool_entry_length_truncated :
    (List.replicate 65536 97).length = 65536 ∧
    writeStringPool (finalPool [] [List.replicate 65536 97]) =
      [Field.uint16 2, Field.uint16 0, Field.uint16 0] ++
        List.replicate 65536 (Field.emojicodeChar 97) ∧
    writeStringPool (finalPool [] [List.replicate 65536 97]) ≠
      Field.uint16 (finalPool [] [List.replicate 65536 97]).length ::
        (finalPool [] [List.replicate 65536 97]).flatMap poolEntry := by
  exact ⟨List.length_replicate _ _, writeStringPool_replicate 65536 97,
    writeStringPool_replicate_ne 65536 97 (by decide)⟩

/-- C26 (amended): let the parser accept a program in which a 🏁 method was found, let the VTI
pass and the serialization of the classes and packages succeed, and let the pool at the end
hold fewer than 65,536 tokens, each of fewer than 65,536 characters. Then
`analyzeClassesAndWrite` returns, and the stream ends with the trailing section: the number of
pool entries, then for each entry in pool order its length followed by exactly that many
character codes, then the index of the class that the parser recorded for the 🏁 method, then
the VTI of the class method of that class that carries the name of the 🏁 method. -/
theorem trailing_section_layout (env : ParserEnv) (chk : Checks) (fa : FunctionAnalyzer)
    (fastMax version : Nat) (decls : List FileDeclaration) (st : ParserState)
    (ast : AnalysisState) (pkgs : List Package) (stringPool pooled : List Token)
    (hparse : parseDeclarations env decls {} = .ok st)
    (hfound : st.foundStartingFlag = true)
    (hvti : assignVtis chk st.classes = .ok ast)
    (hclasses : (writeClassesAndPackages chk fa fastMax ast.classes pkgs).error = none)
    (hcount : (finalPool stringPool pooled).length < UINT16)
    (hlen : ∀ t ∈ finalPool stringPool pooled, t.length < UINT16) :
    ∃ j c0 c m, st.startingFlag = some (j, env.E_CHEQUERED_FLAG) ∧
      st.classes[j]? = some c0 ∧ ast.classes[j]? = some c ∧ c.index = c0.index ∧
      c.name = c0.name ∧ m ∈ c.classMethodList ∧ m.name = env.E_CHEQUERED_FLAG ∧
      analyzeClassesAndWrite chk fa fastMax version env.E_CHEQUERED_FLAG st.classes pkgs
          stringPool pooled st.startingFlag =
        .written (writeByte version ::
          (writeClassesAndPackages chk fa fastMax ast.classes pkgs).written ++
          trailingSection (finalPool stringPool pooled) c.index m.vti) := by
  obtain ⟨j, c0, c, m, hsf, hc0, hc, hidx, hname, hm, hn, _, hw⟩ :=
    writeStartingFlag_recorded hparse hfound hvti
  refine ⟨j, c0, c, m, hsf, hc0, hc, hidx, hname, hm, hn, ?_⟩
  unfold analyzeClassesAndWrite
  simp only [hvti, Emit.andThen, hclasses, hw, writeStringPool_eq _ hcount hlen,
    trailingSection, List.cons_append, List.nil_append, List.append_assoc]

/-- C26, witness: the program of the classes 65 and 66, of which 66 declares the 🏁 method, with
one pooled literal of the two characters 104 and 105: the stream ends with the pool count 2,
the empty entry, the entry of length 2 with its two codes, the class index 1 and the VTI 0. -/
theorem trailing_section_layout_witness :
    (∃ j c0 c m, flagState.startingFlag = some (j, exampleEnv.E_CHEQUERED_FLAG) ∧
      flagState.classes[j]? = some c0 ∧ flagFinal.classes[j]? = some c ∧ c.index = c0.index ∧
      c.name = c0.name ∧ m ∈ c.classMethodList ∧ m.name = exampleEnv.E_CHEQUERED_FLAG ∧
      analyzeClassesAndWrite exampleChecks exampleAnalyzer exampleFastMax 5
          exampleEnv.E_CHEQUERED_FLAG flagState.classes [flagPackage] [] [[104, 105]]
          flagState.startingFlag =
        .written (writeByte 5 ::
          (writeClassesAndPackages exampleChecks exampleAnalyzer exampleFastMax
            flagFinal.classes [flagPackage]).written ++
          trailingSection (finalPool [] [[104, 105]]) c.index m.vti)) ∧
    flagState.startingFlag = some (1, 127937) ∧
    (flagFinal.classes.map fun c => (c.index, c.classMethodList.map fun m => (m.name, m.vti))) =
      [(0, [(7, 0)]), (1, [(127937, 0)])] ∧
    trailingSection (finalPool [] [[104, 105]]) 1 0 =
      [Field.uint16 2, Field.uint16 0, Field.uint16 2, Field.emojicodeChar 104,
        Field.emojicodeChar 105, Field.uint16 1, Field.uint16 0] :=
  ⟨trailing_section_layout exampleEnv exampleChecks exampleAnalyzer exampleFastMax 5
      flagDeclarations flagState flagFinal [flagPackage] [] [[104, 105]] rfl rfl rfl rfl
      (by decide) (by decide),
    rfl, rfl, rfl⟩

/-- C29: the parser accepts the program that consists of one class without members, in which
no 🏁 method is declared; neither flag nor class is recorded. For this program
`analyzeClassesAndWrite` writes the version, the classes and packages and the string pool and
then reaches line 283, where `startingFlag.eclass`, a null pointer, is dereferenced: no test
of `foundStartingFlag` stands between the parser and the two writes. For the program
`flagDeclarations`, which declares a 🏁 method, the two writes find the recorded class and its
class method. -/
theorem entry_point_absent_dereferenced :
    parseDeclarations exampleEnv plainDeclarations {} = .ok (declaredClasses [{ name := 65 }]) ∧
    (declaredClasses [{ name := 65 }]).foundStartingFlag = false ∧
    (declaredClasses [{ name := 65 }]).startingFlag = none ∧
    (∀ cs, writeStartingFlag exampleEnv.E_CHEQUERED_FLAG cs
      (declaredClasses [{ name := 65 }]).startingFlag = none) ∧
    (∃ stream, analyzeClassesAndWrite exampleChecks exampleAnalyzer exampleFastMax 5
        exampleEnv.E_CHEQUERED_FLAG (declaredClasses [{ name := 65 }]).classes
        [{ name := [102], classes := [0] }] [] []
        (declaredClasses [{ name := 65 }]).startingFlag = .nullDereference stream) ∧
    writeStartingFlag exampleEnv.E_CHEQUERED_FLAG flagFinal.classes flagState.startingFlag =
      some [Field.uint16 1, Field.uint16 0] :=
  ⟨rfl, rfl, rfl, fun _ => rfl, ⟨_, rfl⟩, rfl⟩

/-- C30: when `analyzeClassesAndWrite` is entered with an empty string pool, the pool that
lines 274-281 serialize holds at least one token and its entry 0 is the empty token pushed by
line 145, the entry that the macro `emptyString` addresses; it is written as the length 0
followed by no character code, right after the pool count. Every token pushed during the
analysis of the class bodies stands behind it: the `k`-th pushed token is entry `k + 1`, and an
entry that is a pushed token has an index of at least 1. The stream of every call that gets as
far as the pool holds this serialization of the pool. -/
theorem pool_entry_zero_empty (pooled : List Token) :
    0 < (finalPool [] pooled).length ∧
    emptyString (finalPool [] pooled) = some [] ∧
    writeStringPool (finalPool [] pooled) =
      writeUInt16 (pooled.length + 1) :: writeUInt16 0 ::
        pooled.flatMap (fun token => writeUInt16 token.length :: token.map writeEmojicodeChar) ∧
    (∀ (k : Nat) (t : Token), pooled[k]? = some t → (finalPool [] pooled)[k + 1]? = some t) ∧
    (∀ (i : Nat) (t : Token), (finalPool [] pooled)[i]? = some t → i ≠ 0 →
      1 ≤ i ∧ pooled[i - 1]? = some t) ∧
    (∀ (chk : Checks) (fa : FunctionAnalyzer) (fastMax version : Nat) (flag : EmojicodeChar)
      (cs : List Class) (pkgs : List Package) (startingFlag : Option (Nat × EmojicodeChar))
      (stream : List Field),
      (analyzeClassesAndWrite chk fa fastMax version flag cs pkgs [] pooled startingFlag =
          .written stream ∨
        analyzeClassesAndWrite chk fa fastMax version flag cs pkgs [] pooled startingFlag =
          .nullDereference stream) →
      ∃ before after, stream = before ++ writeStringPool (finalPool [] pooled) ++ after) := by
  refine ⟨by simp [finalPool], by simp [emptyString, finalPool],
    by simp [writeStringPool, finalPool], ?_, ?_, ?_⟩
  · intro k t h
    simpa [finalPool] using h
  · intro i t h hi
    obtain ⟨n, rfl⟩ : ∃ n, i = n + 1 := ⟨i - 1, by omega⟩
    refine ⟨by omega, ?_⟩
    simpa [finalPool] using h
  · intro chk fa fastMax version flag cs pkgs startingFlag stream h
    unfold analyzeClassesAndWrite at h
    cases hv : assignVtis chk cs with
    | error e => rw [hv] at h; simp at h
    | ok st =>
      simp only [hv] at h
      cases he : (Emit.andThen { written := [writeByte version] }
          (writeClassesAndPackages chk fa fastMax st.classes pkgs)).error with
      | some e => rw [he] at h; simp at h
      | none =>
        simp only [he] at h
        cases hw : writeStartingFlag flag st.classes startingFlag with
        | none =>
          simp only [hw] at h
          rcases h with h | h
          · cases h
          · cases h
            exact ⟨_, [], (List.append_nil _).symm⟩
        | some fields =>
          simp only [hw] at h
          rcases h with h | h
          · cases h
            exact ⟨_, fields, rfl⟩
          · cases h

/-- C30, witness: with one pushed token of the characters 104 and 105, entry 0 is the empty
token and the pushed token is entry 1; the pool is written as the count 2, the length 0, and
the length 2 with the two codes. -/
theorem pool_entry_zero_empty_witness :
    emptyString (finalPool [] [[104, 105]]) = some [] ∧
    (finalPool [] [[104, 105]])[1]? = some [104, 105] ∧
    writeStringPool (finalPool [] [[104, 105]]) =
      [Field.uint16 2, Field.uint16 0, Field.uint16 2, Field.emojicodeChar 104,
        Field.emojicodeChar 105] :=
  ⟨(pool_entry_zero_empty [[104, 105]]).2.1,
    (pool_entry_zero_empty [[104, 105]]).2.2.2.1 0 [104, 105] rfl, rfl⟩

/-! ## The version of a package -/

theorem toUInt16_of_lt (v : Int) (h0 : 0 ≤ v) (h : v < 65536) : toUInt16 v = v.toNat := by
  unfold toUInt16
  rw [Int.emod_eq_of_lt h0 (by simpa [UINT16] using h)]

theorem parseVersion_error_iff (st : ParserState) (major minor : Int) :
    parseVersion st false major minor = .error .versionAlreadyDeclared ↔
      st.version.major ≠ 0 ∧ st.version.minor ≠ 0 := by
  have hunf : parseVersion st false major minor =
      if st.version.minor ≠ 0 ∧ st.version.major ≠ 0 then .error .versionAlreadyDeclared
      else .ok { st with version := { major := toUInt16 major, minor := toUInt16 minor } } :=
    rfl
  rw [hunf]
  by_cases h : st.version.minor ≠ 0 ∧ st.version.major ≠ 0
  · rw [if_pos h]
    exact Iff.intro (fun _ => And.intro h.2 h.1) (fun _ => rfl)
  · rw [if_neg h]
    refine Iff.intro (fun hc => ?_) (fun hc => absurd (And.intro hc.2 hc.1) h)
    cases hc

theorem parseVersion_accepted (st : ParserState) (major minor : Int)
    (h : st.version.major = 0 ∨ st.version.minor = 0) (hmajor : 0 ≤ major ∧ major < 65536)
    (hminor : 0 ≤ minor ∧ minor < 65536) :
    parseVersion st false major minor =
      .ok { st with version := { major := major.toNat, minor := minor.toNat } } := by
  unfold parseVersion
  have hn : ¬ (st.version.minor ≠ 0 ∧ st.version.major ≠ 0) := by
    rintro ⟨h1, h2⟩
    rcases h with h | h
    · exact h2 h
    · exact h1 h
  simp only [invalidAttribute, Bool.false_eq_true, if_false, hn,
    toUInt16_of_lt major hmajor.1 hmajor.2, toUInt16_of_lt minor hminor.1 hminor.2]

/-- C31: in a package whose version was declared as 1.0, or as 0.1, a second declaration 🔮 2 3
is not rejected: line 442 tests `minor && major`, which is false as soon as one of the two
numbers of the declared version is 0, and the second declaration overwrites the version with
2.3. After the declaration of the version 1.2 the second declaration is rejected with "Package
version already declared." The first declaration of a package is accepted and stores the two
numbers as given. -/
theorem version_redeclared_after_zero_component :
    parseVersion {} false 1 0 = .ok { version := { major := 1, minor := 0 } } ∧
    parseVersion { version := { major := 1, minor := 0 } } false 2 3 =
      .ok { version := { major := 2, minor := 3 } } ∧
    parseVersion { version := { major := 1, minor := 0 } } false 2 3 ≠
      .error .versionAlreadyDeclared ∧
    parseDeclarations exampleEnv [.E_CRYSTAL_BALL false 1 0, .E_CRYSTAL_BALL false 2 3] {} =
      .ok { version := { major := 2, minor := 3 } } ∧
    parseDeclarations exampleEnv [.E_CRYSTAL_BALL false 0 1, .E_CRYSTAL_BALL false 2 3] {} =
      .ok { version := { major := 2, minor := 3 } } ∧
    parseDeclarations exampleEnv [.E_CRYSTAL_BALL false 1 2, .E_CRYSTAL_BALL false 2 3] {} =
      .error .versionAlreadyDeclared :=
  ⟨parseVersion_accepted {} 1 0 (Or.inl rfl) (by decide) (by decide),
    parseVersion_accepted { version := { major := 1, minor := 0 } } 2 3 (Or.inr rfl)
      (by decide) (by decide),
    fun h => ((parseVersion_error_iff { version := { major := 1, minor := 0 } } 2 3).mp h).2 rfl,
    rfl, rfl, rfl⟩

end Emojicode
